import Mathlib

/-!
Cobra-Kai/mud: codec, object store and reactor.

A shallow embedding of `cencode.c`, `object.c` and the reactor part of `well.c`.

Conventions used throughout:

* a byte is a `Nat` below 256; memory reachable through a `char *` is a `List Nat`,
  and a read past the end of the list yields the NUL byte (the list stands for a
  NUL-terminated region);
* a function that returns `-1` for failure and a length otherwise returns
  `Option (List Nat)`: `none` is `-1`, `some out` is the bytes written before the
  terminating NUL (the returned length is `out.length`);
* whether plain `char` is signed is implementation-defined in C; the encoder takes
  it as the parameter `char_signed`;
* results of system and allocation calls (`malloc`, `realloc`, `read`, `write`,
  `select`) are inputs of the functions that make the call.
-/

namespace Mud

/-! ## Definitions: `cencode.c` -/

/-- Value of a `char` variable holding the byte `b`. -/
def char_val (char_signed : Bool) (b : Nat) : Int :=
  if char_signed && decide (128 ≤ b) then (b : Int) - 256 else (b : Int)

/-- Byte stored when an integer expression is assigned to a `char` cell. -/
def to_byte (v : Int) : Nat := (v % 256).toNat

/-- The `isprint` classification of the "C" locale (the program never changes locale). -/
def isprint (c : Int) : Bool := decide (32 ≤ c) && decide (c ≤ 126)

/-- The `isxdigit` classification. -/
def isxdigit (c : Nat) : Bool :=
  (decide (48 ≤ c) && decide (c ≤ 57)) || (decide (65 ≤ c) && decide (c ≤ 70)) ||
    (decide (97 ≤ c) && decide (c ≤ 102))

/-- The `isspace` classification of the "C" locale. -/
def isspace (c : Nat) : Bool := decide (c = 32) || (decide (9 ≤ c) && decide (c ≤ 13))

/-- Body of the `switch (c)` of `c_encode`: the bytes appended to `dst` for one input byte.
Division and remainder are C's, truncating towards zero. -/
def c_encode_char (char_signed : Bool) (b : Nat) : List Nat :=
  let c := char_val char_signed b
  if c = 92 then [92, 92]
  else if c = 7 then [92, 97]
  else if c = 8 then [92, 98]
  else if c = 12 then [92, 102]
  else if c = 10 then [92, 110]
  else if c = 13 then [92, 114]
  else if c = 9 then [92, 116]
  else if c = 11 then [92, 118]
  else if isprint c then [b]
  else [92, to_byte (48 + Int.tmod c 8), to_byte (48 + Int.tmod (Int.tdiv c 8) 8),
        to_byte (48 + Int.tmod (Int.tdiv c 64) 8)]

/-- The `while (srclen > 0 && *src)` loop of `c_encode`; `dst` is what has been written. -/
def c_encode_loop (char_signed : Bool) (dstmax : Nat) : Nat → List Nat → List Nat → Option (List Nat)
  | 0, _, dst => some dst
  | _ + 1, [], dst => some dst
  | srclen + 1, c :: src, dst =>
    if c = 0 then some dst
    else if dst.length + 4 + 1 ≥ dstmax then none
    else c_encode_loop char_signed dstmax srclen src (dst ++ c_encode_char char_signed c)

/-- Function `c_encode(dst, dstmax, src, srclen)`. -/
def c_encode (char_signed : Bool) (dstmax : Nat) (src : List Nat) (srclen : Nat) :
    Option (List Nat) :=
  c_encode_loop char_signed dstmax srclen src []

/-- The octal `for` loop of `c_decode`: `k` iterations are left (`3 - i`), `c` is the current
character, `v` the accumulator. Returns `(v, src, srclen)` after the loop. -/
def c_decode_octal : Nat → Nat → Int → List Nat → Nat → Int × List Nat × Nat
  | 0, _, v, src, srclen => (v, src, srclen)
  | k + 1, c, v, src, srclen =>
    if 48 ≤ c ∧ c ≤ 55 then
      let v1 := v * 8 + ((c : Int) - 48)
      if srclen ≠ 0 then c_decode_octal k (src.headD 0) v1 src.tail (srclen - 1)
      else (v1, src, srclen)
    else (v, src, srclen)

/-- The hexadecimal `for` loop of `c_decode`: `k` iterations are left (`63 - i`). The digits go
to `hexbuf`, which nothing reads afterwards; the loop's effect is the advance of `src`. -/
def c_decode_hex : Nat → List Nat → Nat → List Nat × Nat
  | 0, src, srclen => (src, srclen)
  | k + 1, src, srclen =>
    if srclen > 0 then
      if isxdigit (src.headD 0) then c_decode_hex k src.tail (srclen - 1)
      else (src.tail, srclen - 1)
    else (src, srclen)

/-- Value of one hexadecimal digit. -/
def hex_digit_val (c : Nat) : Nat :=
  if c ≤ 57 then c - 48 else if c ≤ 70 then c - 55 else c - 87

/-- The digit run read by `strtol`: accumulates while the next byte is a hex digit. -/
def strtol_digits : List Nat → Nat → Nat
  | [], acc => acc
  | c :: s, acc => if isxdigit c then strtol_digits s (acc * 16 + hex_digit_val c) else acc

/-- Skips the optional `0x`/`0X` prefix of base 16. -/
def strtol_skip_0x : List Nat → List Nat
  | 48 :: x :: s => if x = 120 ∨ x = 88 then s else 48 :: x :: s
  | s => s

/-- Magnitude and sign to the `long` result; `none` when `errno` is set to `ERANGE`
(`long` has 64 bits). -/
def strtol_range (neg : Bool) (n : Nat) : Option Int :=
  if neg then (if n > 2 ^ 63 then none else some (-(n : Int)))
  else (if n > 2 ^ 63 - 1 then none else some (n : Int))

/-- Modelled on ISO C `strtol(s, NULL, 16)`: leading white space, an optional sign, an optional
`0x` prefix, then the longest run of hex digits; no digits gives 0 without an error. -/
def strtol16 (s : List Nat) : Option Int :=
  match s.dropWhile isspace with
  | 45 :: t => strtol_range true (strtol_digits (strtol_skip_0x t) 0)
  | 43 :: t => strtol_range false (strtol_digits (strtol_skip_0x t) 0)
  | t => strtol_range false (strtol_digits (strtol_skip_0x t) 0)

/-- The `switch (c)` of `c_decode`, entered with the character `c` that follows a backslash
already consumed: `none` where the code returns -1, else `src`, `srclen` after the escape and
the byte stored in `dst`. -/
def c_decode_escape (c : Nat) (src : List Nat) (srclen : Nat) : Option (List Nat × Nat × Nat) :=
  if 48 ≤ c ∧ c ≤ 55 then
    some ((c_decode_octal 3 c 0 src srclen).2.1, (c_decode_octal 3 c 0 src srclen).2.2,
      to_byte (c_decode_octal 3 c 0 src srclen).1)
  else if c = 120 then
    match strtol16 (c_decode_hex 63 src srclen).1 with
    | none => none
    | some v => some ((c_decode_hex 63 src srclen).1, (c_decode_hex 63 src srclen).2, to_byte v)
  else if c = 92 then some (src, srclen, 92)
  else if c = 97 then some (src, srclen, 7)
  else if c = 98 then some (src, srclen, 8)
  else if c = 102 then some (src, srclen, 12)
  else if c = 110 then some (src, srclen, 10)
  else if c = 114 then some (src, srclen, 13)
  else if c = 116 then some (src, srclen, 9)
  else if c = 118 then some (src, srclen, 11)
  else none

/-- One iteration of the loop of `c_decode` after its overflow check: `c = *src++; srclen--`,
then the escape or the plain copy. Same result convention as `c_decode_escape`. -/
def c_decode_body (src : List Nat) (srclen : Nat) : Option (List Nat × Nat × Nat) :=
  if src.headD 0 = 92 then
    if srclen - 1 = 0 then none
    else c_decode_escape (src.tail.headD 0) src.tail.tail (srclen - 1 - 1)
  else some (src.tail, srclen - 1, src.headD 0)

/-- The `while (srclen > 0 && *src)` loop of `c_decode`. Every iteration consumes at least one
byte, so `fuel ≥ srclen` iterations are enough (`c_decode_loop_fuel`). -/
def c_decode_loop (dstmax : Nat) : Nat → List Nat → Nat → List Nat → Option (List Nat)
  | 0, _, _, dst => some dst
  | fuel + 1, src, srclen, dst =>
    if srclen > 0 ∧ src.headD 0 ≠ 0 then
      if dst.length + 1 ≥ dstmax then none
      else
        match c_decode_body src srclen with
        | none => none
        | some (src1, srclen1, b) => c_decode_loop dstmax fuel src1 srclen1 (dst ++ [b])
    else some dst

/-- Function `c_decode(dst, dstmax, src, srclen)`. -/
def c_decode (dstmax : Nat) (src : List Nat) (srclen : Nat) : Option (List Nat) :=
  c_decode_loop dstmax srclen src srclen []

/-! ## Definitions: `object.c` -/

/-- The C string found at a pointer: the bytes before the first NUL. -/
def cstr (s : List Nat) : List Nat := s.takeWhile (fun b => b ≠ 0)

/-- Function `strlen`. -/
def strlen (s : List Nat) : Nat := (cstr s).length

/-- Function `strcmp`: bytes are compared as `unsigned char`; the result is the difference of the first
pair of bytes that differ, 0 when both strings end together. -/
def strcmp : List Nat → List Nat → Int
  | [], [] => 0
  | [], y :: _ => 0 - (y : Int)
  | x :: _, [] => (x : Int) - 0
  | x :: a, y :: b => if x ≠ y then (x : Int) - (y : Int) else if x = 0 then 0 else strcmp a b

/-- Structure `struct object`. `prop` holds the `prop_len` used cells of the array; each cell is the
memory of one entry, `"key\0value\0"`. -/
structure object where
  prop_max : Nat
  prop : List (List Nat)
  rc : Int
deriving DecidableEq, Repr

/-- The field `prop_len`. -/
def object.prop_len (o : object) : Nat := o.prop.length

/-- Function `obj_new`: `calloc` followed by `RETAIN`. -/
def obj_new : object := { prop_max := 0, prop := [], rc := 0 + 1 }

/-- Function `obj_compar`: `strcmp` of the two strings pointed to. -/
def obj_compar (a b : List Nat) : Int := strcmp a b

/-- The loop of `bsearch` (glibc): the matching index lies in `[l, u)`; `fuel ≥ u - l`. -/
def bsearch_loop (compar : List Nat → List Nat → Int) (key : List Nat) (base : List (List Nat)) :
    Nat → Nat → Nat → Option Nat
  | 0, _, _ => none
  | fuel + 1, l, u =>
    if l < u then
      let idx := (l + u) / 2
      let c := compar key (base.getD idx [])
      if c < 0 then bsearch_loop compar key base fuel l idx
      else if c > 0 then bsearch_loop compar key base fuel (idx + 1) u
      else some idx
    else none

/-- Function `bsearch(key, base, nmemb, size, compar)`: index of the cell found, `none` for `NULL`. -/
def bsearch (compar : List Nat → List Nat → Int) (key : List Nat) (base : List (List Nat))
    (nmemb : Nat) : Option Nat :=
  bsearch_loop compar key base nmemb 0 nmemb

/-- Modelled on ISO C `qsort`: the array in ascending order of `compar`. -/
def qsort (compar : List Nat → List Nat → Int) (base : List (List Nat)) : List (List Nat) :=
  base.insertionSort (fun a b => compar a b ≤ 0)

/-- Function `obj_lookup_offset`: offset of the entry named `name`, or -1. -/
def obj_lookup_offset (o : object) (name : List Nat) : Int :=
  if o.prop_len = 0 then -1
  else
    match bsearch obj_compar name o.prop o.prop_len with
    | some i => (i : Int)
    | none => -1

/-- Function `obj_get`: the memory at `s + strlen(s) + 1`, `none` for `NULL`. -/
def obj_get (o : object) (name : List Nat) : Option (List Nat) :=
  let ofs := obj_lookup_offset o name
  if ofs < 0 then none
  else
    let s := o.prop.getD ofs.toNat []
    some (s.drop (strlen s + 1))

/-- Function `obj_alloc_buffer`: `"name\0value\0"`, or `none` when `malloc` fails. -/
def obj_alloc_buffer (malloc_ok : Bool) (name value : List Nat) : Option (List Nat) :=
  if malloc_ok then some (cstr name ++ [0] ++ (cstr value ++ [0])) else none

/-- The "round up to next power of 2" sequence of `obj_set` on the 32-bit `newsize`. -/
def obj_set_newsize (prop_len : Nat) : Nat :=
  let n0 := ((prop_len + 1) % 2 ^ 32 * 8) % 2 ^ 32
  let n1 := (n0 + (2 ^ 32 - 1)) % 2 ^ 32
  let n2 := n1 ||| (n1 >>> 1)
  let n3 := n2 ||| (n2 >>> 2)
  let n4 := n3 ||| (n3 >>> 4)
  let n5 := n4 ||| (n4 >>> 8)
  let n6 := n5 ||| (n5 >>> 16)
  (n6 + 1) % 2 ^ 32

/-- The "make space" block of `obj_set`: when the array is full, `realloc` to the rounded
size and set `prop_max`; `none` when `realloc` fails. -/
def obj_set_grow (realloc_ok : Bool) (o : object) : Option object :=
  if o.prop_len ≥ o.prop_max then
    (if realloc_ok then some { o with prop_max := obj_set_newsize o.prop_len / 8 } else none)
  else some o

/-- Function `obj_set`: the return value and the object afterwards. `realloc_ok` and `malloc_ok` say
whether the allocation calls succeed. The store `o->prop[o->prop_len++] = s` is modelled as an
append whatever `prop_max` is. -/
def obj_set (realloc_ok malloc_ok : Bool) (o : object) (name value : List Nat) : Int × object :=
  let ofs := obj_lookup_offset o name
  if ofs ≥ 0 then
    match obj_alloc_buffer malloc_ok name value with
    | none => (-1, o)
    | some s => (0, { o with prop := o.prop.set ofs.toNat s })
  else
    match obj_set_grow realloc_ok o with
    | none => (-1, o)
    | some o1 =>
      match obj_alloc_buffer malloc_ok name value with
      | none => (-1, o1)
      | some s => (0, { o1 with prop := qsort obj_compar (o1.prop ++ [s]) })

/-- Structure `struct object_iter`. -/
structure object_iter where
  o : object
  i : Nat
deriving DecidableEq, Repr

/-- Function `obj_iter_new`. -/
def obj_iter_new (o : object) : object_iter := { o := o, i := 0 }

/-- Function `obj_iter_next`: `none` when it returns 0, else the advanced iterator with `*name` and
`*value`. -/
def obj_iter_next (it : object_iter) : Option (object_iter × List Nat × List Nat) :=
  if it.i ≥ it.o.prop_len then none
  else
    let s := it.o.prop.getD it.i []
    some ({ it with i := it.i + 1 }, s, s.drop (strlen s + 1))

/-- Capacity of the static `obj_line_buf` (`1 << 20`). -/
def obj_line_buf_max : Nat := 1048576

/-- An `int` passed where a `size_t` is expected (64 bits). -/
def to_size_t (n : Int) : Nat := (n % 2 ^ 64).toNat

/-- Function `fputs(s, f)`: the stream `f` with the C string at `s` appended. -/
def fputs (s : List Nat) (f : List Nat) : List Nat := f ++ cstr s

/-- The marker line `"%%END%%\n"`. -/
def END_LINE : List Nat := [37, 37, 69, 78, 68, 37, 37, 10]

/-- The marker `"%%END%%"`. -/
def END_TAG : List Nat := [37, 37, 69, 78, 68, 37, 37]

/-- Body of the loop of `obj_save` up to `fputs`: the content of `obj_line_buf` for one
property, `none` where the code returns -1. -/
def obj_save_line (char_signed : Bool) (name value : List Nat) : Option (List Nat) :=
  let rem : Int := (obj_line_buf_max : Int) - 1
  match c_encode char_signed (to_size_t rem) name (strlen name) with
  | none => none
  | some out1 =>
    let outlen : Int := out1.length
    if outlen > rem - 1 then none
    else
      let rem := rem - outlen
      let rem := rem - 1
      match c_encode char_signed (to_size_t rem) value (strlen value) with
      | none => none
      | some out2 =>
        let outlen : Int := out2.length
        if outlen > rem - 1 then none
        else some (out1 ++ [61] ++ out2 ++ [10, 0])

/-- The `while (obj_iter_next(...))` loop of `obj_save` and the final marker; the iterator
advances on every iteration, so `fuel ≥ prop_len - i` iterations are enough
(`obj_save_loop_fuel`). Returns the status and the stream. -/
def obj_save_loop (char_signed : Bool) : Nat → object_iter → List Nat → Int × List Nat
  | 0, _, f => (0, fputs END_LINE f)
  | fuel + 1, it, f =>
    match obj_iter_next it with
    | none => (0, fputs END_LINE f)
    | some (it1, name, value) =>
      match obj_save_line char_signed name value with
      | none => (-1, f)
      | some buf => obj_save_loop char_signed fuel it1 (fputs buf f)

/-- Function `obj_save(o, f)`: the status and the stream afterwards. -/
def obj_save (char_signed : Bool) (o : object) (f : List Nat) : Int × List Nat :=
  obj_save_loop char_signed o.prop_len (obj_iter_new o) f

/-- Characters `fgets` takes from the stream: at most `n`, stopping after a newline. Returns
them with the rest of the stream. -/
def fgets_loop : Nat → List Nat → List Nat × List Nat
  | 0, f => ([], f)
  | _ + 1, [] => ([], [])
  | n + 1, c :: f =>
    if c = 10 then ([c], f)
    else ((fgets_loop n f).1.cons c, (fgets_loop n f).2)

/-- Function `fgets(buf, size, f)`: `none` at end of file, else the buffer (with its NUL) and the rest of
the stream. -/
def fgets (size : Nat) (f : List Nat) : Option (List Nat × List Nat) :=
  if f = [] then none
  else some ((fgets_loop (size - 1) f).1 ++ [0], (fgets_loop (size - 1) f).2)

/-- Function `strrchr(s, c)` for `c ≠ 0`: offset of the last `c` in the C string at `s`. -/
def strrchr : List Nat → Nat → Option Nat
  | [], _ => none
  | b :: s, c =>
    if b = 0 then none
    else
      match strrchr s c with
      | some i => some (i + 1)
      | none => if b = c then some 0 else none

/-- Function `strchr(s, c)`: offset of the first `c` in the C string at `s`. -/
def strchr : List Nat → Nat → Option Nat
  | [], _ => none
  | b :: s, c =>
    if b = c then some 0
    else if b = 0 then none
    else (strchr s c).map (fun i => i + 1)

/-- Body of the loop of `obj_load` for the buffer `buf` filled by `fgets`: `none` where the
code releases the object and returns `NULL`, `some (true, o)` at the `%%END%%` line (`break`),
`some (false, o1)` when the line was stored and the loop goes on. `alloc` says whether the
allocations of this line's `obj_set` succeed. Both `c_decode` calls work in place; a write never
reaches a byte that is still to be read (each iteration of the decoder consumes before it writes
one byte), so the reads are those of the memory as it was when the call started. -/
def obj_load_line (alloc : Bool × Bool) (buf : List Nat) (o : object) : Option (Bool × object) :=
  match strrchr buf 10 with
  | none => none
  | some e =>
    let buf := buf.set e 0
    if strcmp END_TAG buf = 0 then some (true, o)
    else
      match strchr buf 61 with
      | none => none
      | some v =>
        let buf := buf.set v 0
        let value := buf.drop (v + 1)
        let namemax := strlen buf + 1
        match c_decode namemax buf namemax with
        | none => none
        | some name =>
          let valuemax := strlen value + 1
          match c_decode valuemax value valuemax with
          | none => none
          | some val =>
            let r := obj_set alloc.1 alloc.2 o (name ++ [0]) (val ++ [0])
            if r.1 = -1 then none else some (false, r.2)

/-- The `while (fgets(...))` loop of `obj_load` and the test of `end_of_file` after it. `line`
is the line counter; `heap line` gives the allocation outcomes for that line. Every iteration
consumes at least one byte of the stream, so `fuel ≥` its length is enough
(`obj_load_loop_fuel`). -/
def obj_load_loop (heap : Nat → Bool × Bool) : Nat → List Nat → object → Nat → Option object
  | 0, _, _, _ => none
  | fuel + 1, f, o, line =>
    match fgets obj_line_buf_max f with
    | none => none
    | some (buf, f1) =>
      match obj_load_line (heap (line + 1)) buf o with
      | none => none
      | some (true, o1) => some o1
      | some (false, o1) => obj_load_loop heap fuel f1 o1 (line + 1)

/-- Function `obj_load(f, tag)` on the stream `f`: the object returned, `none` for `NULL`. -/
def obj_load (heap : Nat → Bool × Bool) (f : List Nat) : Option object :=
  obj_load_loop heap f.length f obj_new 0

/-! ## Definitions: `rc.h` and `well.c` -/

/-- Constant `EVENT_READ`. -/
def EVENT_READ : Nat := 1

/-- Constant `EVENT_WRITE`. -/
def EVENT_WRITE : Nat := 2

/-- Constant `INVALID_SOCKET`. -/
def INVALID_SOCKET : Int := -1

/-- Constant `SOCKMAX`, also the value of `sockets_max`. -/
def SOCKMAX : Nat := 256

/-- The functions stored in `sockbase.event`. -/
inductive event_fn where
  | server_event
  | service_event
deriving DecidableEq, Repr

/-- The functions stored in `sockbase.free`. -/
inductive free_fn where
  | server_free_sockbase
  | service_free_sockbase
deriving DecidableEq, Repr

/-- Structure `struct sockbase`; a function pointer is `none` when it is `NULL`. -/
structure sockbase where
  fd : Int
  rc : Int
  event : Option event_fn
  free : Option free_fn
deriving DecidableEq, Repr

/-- Structure `struct connection`. -/
structure connection where
  sockbase : sockbase
  buflen : Nat
  bufmax : Nat
  buf : List Nat
  outbuf_len : Nat
  outbuf_max : Nat
  outbuf : List Nat
deriving DecidableEq, Repr

/-- Structure `struct server`; the list links `next` and `prev` are never used. `env` is the object
pointed to, `none` for `NULL`. -/
structure server where
  c : connection
  env : Option object
deriving DecidableEq, Repr

/-- Structure `struct service`; `next`, `prev` and `template` play no part in the reactor. -/
structure service where
  sockbase : sockbase
deriving DecidableEq, Repr

/-- What an address of the heap holds. A `sockbase` is the first member of the structure that
embeds it, so the address of a handle is the address of its server or service. -/
inductive heap_obj where
  | unmapped
  | server (s : server)
  | service (s : service)
deriving DecidableEq, Repr

/-- The `sockbase` at an address. -/
def heap_obj.base : heap_obj → Option sockbase
  | .unmapped => none
  | .server s => some s.c.sockbase
  | .service s => some s.sockbase

/-- Stores a `sockbase` at an address. -/
def heap_obj.set_base : heap_obj → sockbase → heap_obj
  | .unmapped, _ => .unmapped
  | .server s, b => .server { s with c := { s.c with sockbase := b } }
  | .service s, b => .service { s with sockbase := b }

/-- Structure `struct socket_info`. -/
structure socket_info where
  fd : Int
  ptr : Option Nat
deriving DecidableEq, Repr

/-- The static variables of `well.c` and the heap. `closed` lists the descriptors passed to
`close`, `freed` the addresses passed to `free`, latest first; the program reads neither. -/
structure world where
  sockets : Nat → socket_info
  sockets_fdmax : Int
  sockets_count : Int
  sockets_rfds : List Int
  sockets_wfds : List Int
  heap : Nat → heap_obj
  closed : List Int
  freed : List Nat

/-- The state at program start: zeroed statics, empty heap. -/
def world_init : world :=
  { sockets := fun _ => { fd := 0, ptr := none }, sockets_fdmax := 0, sockets_count := 0,
    sockets_rfds := [], sockets_wfds := [], heap := fun _ => .unmapped, closed := [],
    freed := [] }

/-- The state with `o` stored at address `p`. -/
def world.store (w : world) (p : Nat) (o : heap_obj) : world :=
  { w with heap := Function.update w.heap p o }

/-- Macro `FD_SET`. -/
def FD_SET (fd : Int) (s : List Int) : List Int := if fd ∈ s then s else fd :: s

/-- Macro `FD_CLR`. -/
def FD_CLR (fd : Int) (s : List Int) : List Int := s.filter (fun x => x ≠ fd)

/-- Macro `FD_ISSET`. -/
def FD_ISSET (fd : Int) (s : List Int) : Bool := decide (fd ∈ s)

/-- An `unsigned` value converted to `int` (32 bits). -/
def to_int (n : Nat) : Int :=
  if n % 2 ^ 32 < 2 ^ 31 then ((n % 2 ^ 32 : Nat) : Int) else ((n % 2 ^ 32 : Nat) : Int) - 2 ^ 32

/-- An integer converted to `unsigned` (32 bits). -/
def to_unsigned (z : Int) : Nat := (z % 2 ^ 32).toNat

/-- Function `sockclose`. -/
def sockclose (fd : Int) (w : world) : world :=
  if fd ≠ INVALID_SOCKET then
    { w with closed := fd :: w.closed, sockets_count := w.sockets_count - 1 }
  else w

/-- Function `sockset`: the return value and the state. -/
def sockset (fd : Int) (events : Nat) (w : world) : Int × world :=
  if fd = INVALID_SOCKET ∨ fd ≥ (SOCKMAX : Int) then (-1, w)
  else
    let w1 := if events &&& EVENT_READ ≠ 0 then
      { w with sockets_rfds := FD_SET fd w.sockets_rfds } else w
    let w2 := if events &&& EVENT_WRITE ≠ 0 then
      { w1 with sockets_wfds := FD_SET fd w1.sockets_wfds } else w1
    (0, w2)

/-- Function `sockclr`: the return value and the state. -/
def sockclr (fd : Int) (events : Nat) (w : world) : Int × world :=
  if fd = INVALID_SOCKET ∨ fd ≥ (SOCKMAX : Int) then (-1, w)
  else
    let w1 := if events &&& EVENT_READ ≠ 0 then
      { w with sockets_rfds := FD_CLR fd w.sockets_rfds } else w
    let w2 := if events &&& EVENT_WRITE ≠ 0 then
      { w1 with sockets_wfds := FD_CLR fd w1.sockets_wfds } else w1
    (0, w2)

/-- Function `sockadd(fd, ptr, events, event, free)`: the return value and the state. -/
def sockadd (fd : Int) (ptr : Nat) (events : Nat) (event : event_fn) (free : free_fn)
    (w : world) : Int × world :=
  if fd = INVALID_SOCKET ∨ fd ≥ (SOCKMAX : Int) then (-1, w)
  else
    let w1 := if fd > w.sockets_fdmax then { w with sockets_fdmax := fd } else w
    let w2 := { w1 with sockets_count := w1.sockets_count + 1 }
    let w3 := { w2 with sockets := Function.update w2.sockets fd.toNat ⟨fd, some ptr⟩ }
    let w4 := match (w3.heap ptr).base with
      | none => w3
      | some b => w3.store ptr ((w3.heap ptr).set_base { b with event := some event, free := some free })
    (0, (sockset fd events w4).2)

/-- Macro `RETAIN(m)` on the handle at address `p`. -/
def RETAIN (p : Nat) (w : world) : world :=
  match (w.heap p).base with
  | none => w
  | some b => w.store p ((w.heap p).set_base { b with rc := b.rc + 1 })

/-- Macro `RELEASE(m, do_free)` on the handle at address `p`: the count is decremented and, when it
has become zero, `do_free` is applied. -/
def RELEASE (do_free : Nat → world → world) (p : Nat) (w : world) : world :=
  match (w.heap p).base with
  | none => w
  | some b =>
    let w1 := w.store p ((w.heap p).set_base { b with rc := b.rc - 1 })
    if b.rc - 1 = 0 then do_free p w1 else w1

/-- The body of the `for` loop of `sockpoll` for the index `i`; `rfds` and `wfds` are the sets
as `select` left them. `run_event f fd ptr event` is the call `s->event(fd, ptr, event)` for
the function `f` stored in the handle, `run_free f ptr` the call `s->free(ptr)`. Returns the
state and, when the callback was invoked, its arguments. -/
def sockpoll_step (run_event : event_fn → Int → Nat → Nat → world → world)
    (run_free : free_fn → Nat → world → world) (rfds wfds : List Int) (i : Nat) (w : world) :
    world × Option (Int × Nat × Nat) :=
  match (w.sockets i).ptr with
  | none => (w, none)
  | some p =>
    let fd := (w.sockets i).fd
    if fd = INVALID_SOCKET then (w, none)
    else
      let event := (if FD_ISSET fd rfds then EVENT_READ else 0) |||
        (if FD_ISSET fd wfds then EVENT_WRITE else 0)
      if event ≠ 0 then
        let w1 := RETAIN p w
        let w2 := match ((w1.heap p).base).bind (fun b => b.event) with
          | none => w1
          | some f => run_event f fd p event w1
        let w3 := RELEASE (fun q v => match ((v.heap q).base).bind (fun b => b.free) with
          | none => v
          | some f => run_free f q v) p w2
        (w3, some (fd, p, event))
      else (w, none)

/-- The `for (i = 0; i < sockets_max; i++)` loop of `sockpoll` from index `i`, `n` iterations
left; returns the state and the callback invocations in order. -/
def sockpoll_loop (run_event : event_fn → Int → Nat → Nat → world → world)
    (run_free : free_fn → Nat → world → world) (rfds wfds : List Int) :
    Nat → Nat → world → world × List (Int × Nat × Nat)
  | 0, _, w => (w, [])
  | n + 1, i, w =>
    let r := sockpoll_step run_event run_free rfds wfds i w
    let r2 := sockpoll_loop run_event run_free rfds wfds n (i + 1) r.1
    (r2.1, r.2.toList ++ r2.2)

/-- Function `sockpoll`: `select_ret` is what `select` returns, `rfds` and `wfds` what it leaves in the
two sets (subsets of `sockets_rfds` and `sockets_wfds`). Returns the status, the state and the
callback invocations `(fd, ptr, event)` in order. -/
def sockpoll (run_event : event_fn → Int → Nat → Nat → world → world)
    (run_free : free_fn → Nat → world → world) (select_ret : Int) (rfds wfds : List Int)
    (w : world) : Int × world × List (Int × Nat × Nat) :=
  if w.sockets_count = 0 then (-1, w, [])
  else if select_ret < 0 then (-1, w, [])
  else
    (0, sockpoll_loop run_event run_free rfds wfds SOCKMAX 0 w)

/-- Function `connection_init` on the connection of the server at address `p`. -/
def connection_init (p : Nat) (fd : Int) (w : world) : world :=
  match w.heap p with
  | .server s =>
    let b : sockbase := { s.c.sockbase with fd := fd }
    let c : connection :=
      { s.c with sockbase := b, buflen := 0, bufmax := 512, outbuf_len := 0, outbuf_max := 16384 }
    w.store p (.server { s with c := c })
  | _ => w

/-- Bytes `data` stored into `buf` from offset `ofs` on. -/
def mem_write (buf : List Nat) (ofs : Nat) (data : List Nat) : List Nat :=
  buf.take ofs ++ data ++ buf.drop (ofs + data.length)

/-- Function `connection_vprintf` on the connection of the server at address `p`; `text` is the output
the format and its arguments produce, so `vsnprintf` returns `text.length` and stores at most
`rem - 1` bytes of it and a NUL. Returns the status and the state. -/
def connection_vprintf (p : Nat) (text : List Nat) (w : world) : Int × world :=
  match w.heap p with
  | .server s =>
    let rem : Int := to_int s.c.outbuf_max - to_int s.c.outbuf_len
    if rem > 0 then
      let e : Int := text.length
      let outbuf := mem_write s.c.outbuf s.c.outbuf_len (text.take (rem.toNat - 1) ++ [0])
      let c1 : connection :=
        if e ≤ rem then { s.c with outbuf := outbuf, outbuf_len := to_unsigned (s.c.outbuf_len + e) }
        else { s.c with outbuf := outbuf, outbuf_len := s.c.outbuf_max }
      let e1 : Int := if e ≤ rem then e else -1
      let w1 := w.store p (.server { s with c := c1 })
      (e1, (sockset s.c.sockbase.fd EVENT_WRITE w1).2)
    else (-1, w)
  | _ => (-1, w)

/-- Function `server_close` on the server at address `p`. -/
def server_close (p : Nat) (w : world) : world :=
  match w.heap p with
  | .server s =>
    let fd := s.c.sockbase.fd
    if fd ≠ INVALID_SOCKET then
      let w1 := { w with sockets_rfds := FD_CLR fd w.sockets_rfds }
      let w2 := { w1 with sockets_wfds := FD_CLR fd w1.sockets_wfds }
      let w3 := sockclose fd w2
      let b : sockbase := { s.c.sockbase with fd := INVALID_SOCKET }
      w3.store p (.server { s with c := { s.c with sockbase := b } })
    else w
  | _ => w

/-- Function `obj_release` on the object a server points to: the object after `RELEASE`, `none` once
`obj_free` has run. -/
def obj_release (o : Option object) : Option object :=
  match o with
  | none => none
  | some o => if o.rc - 1 = 0 then none else some { o with rc := o.rc - 1 }

/-- Function `server_free` on the server at address `p`: `server_close`, `obj_release(s->env)`,
`free(s)`. -/
def server_free (p : Nat) (w : world) : world :=
  let w1 := server_close p w
  match w1.heap p with
  | .server s =>
    let w2 := w1.store p (.server { s with env := obj_release s.env })
    { w2.store p .unmapped with freed := p :: w2.freed }
  | _ => w1

/-- Function `server_free_sockbase`. -/
def server_free_sockbase (p : Nat) (w : world) : world := server_free p w

/-- The `EVENT_WRITE` part of `server_event`; `write_ret` is what `write` returns. Returns the
state and whether the function has returned. -/
def server_event_write (write_ret : Int) (fd : Int) (p : Nat) (w : world) : world × Bool :=
  match w.heap p with
  | .server s =>
    if s.c.outbuf_len ≠ 0 then
      let e := write_ret
      if e < 0 then (server_close p w, true)
      else
        let outbuf := if e < to_int s.c.outbuf_len then
          mem_write s.c.outbuf 0 ((s.c.outbuf.drop e.toNat).take (s.c.outbuf_len - e.toNat))
          else s.c.outbuf
        let len := to_unsigned (s.c.outbuf_len - e)
        let w1 := w.store p (.server { s with c := { s.c with outbuf := outbuf, outbuf_len := len } })
        if len = 0 then ((sockclr fd EVENT_WRITE w1).2, false) else (w1, false)
    else (w, false)
  | _ => (w, false)

/-- The `EVENT_READ` part of `server_event`; `read_ret` is what `read` returns and `data` the
bytes it stored. -/
def server_event_read (read_ret : Int) (data : List Nat) (p : Nat) (w : world) : world :=
  match w.heap p with
  | .server s =>
    let rem : Int := to_int s.c.bufmax - to_int s.c.buflen
    if rem > 0 then
      let e := read_ret
      if e < 0 then server_close p w
      else if e = 0 then server_close p w
      else
        let buf := mem_write s.c.buf s.c.buflen (data.take e.toNat)
        let c : connection := { s.c with buf := buf, buflen := to_unsigned (s.c.buflen + e) }
        w.store p (.server { s with c := c })
    else w
  | _ => w

/-- Function `server_event(fd, sockbase, event)` for the server at address `p`. -/
def server_event (write_ret read_ret : Int) (data : List Nat) (fd : Int) (p : Nat) (event : Nat)
    (w : world) : world :=
  let r := if event &&& EVENT_WRITE ≠ 0 then server_event_write write_ret fd p w else (w, false)
  if r.2 then r.1
  else if event &&& EVENT_READ ≠ 0 then server_event_read read_ret data p r.1
  else r.1

/-! ## Definitions used to state the properties -/

/-- Entries strictly ascending by `strcmp`: the order `bsearch` relies on. -/
def obj_wf (o : object) : Prop := o.prop.Pairwise (fun a b => strcmp a b < 0)

/-- A sequence of `obj_set` calls applied in order to `o`; a call is
`(realloc_ok, malloc_ok, name, value)`. -/
def obj_set_calls (o : object) : List (Bool × Bool × List Nat × List Nat) → object
  | [] => o
  | c :: cs => obj_set_calls (obj_set c.1 c.2.1 o c.2.2.1 c.2.2.2).2 cs

/-- The pairs `(*name, *value)` a caller gets by calling `obj_iter_next` until it returns 0
(at most `fuel` times). -/
def obj_iter_all : Nat → object_iter → List (List Nat × List Nat)
  | 0, _ => []
  | fuel + 1, it =>
    match obj_iter_next it with
    | none => []
    | some (it1, name, value) => (name, value) :: obj_iter_all fuel it1

/-- The text `c_encode` writes for the C string at `s` into a destination that is large enough
(`c_encode_str_spec`, `c_encode_eq_str`). -/
def c_encode_str (char_signed : Bool) (s : List Nat) : List Nat :=
  (c_encode char_signed (4 * strlen s + 6) s (strlen s)).getD []

/-- The lines of a stream, each with its newline; only the last one can lack it. -/
def stream_lines : List Nat → List (List Nat)
  | [] => []
  | c :: f =>
    if c = 10 then [c] :: stream_lines f
    else
      match stream_lines f with
      | [] => [[c]]
      | l :: ls => (c :: l) :: ls

/-- The server at address `p`, if there is one. -/
def server_at (w : world) (p : Nat) : Option server :=
  match w.heap p with
  | .server s => some s
  | _ => none

/-- What `calloc(1, sizeof(struct server))` returns: every field zero. -/
def server_zero : server :=
  { c := { sockbase := { fd := 0, rc := 0, event := none, free := none },
           buflen := 0, bufmax := 0, buf := List.replicate 512 0,
           outbuf_len := 0, outbuf_max := 0, outbuf := List.replicate 16384 0 },
    env := none }

/-- The steps of `server_new` that create and register a server at address `p` for the
descriptor `fd`: `calloc`, `RETAIN`, `connection_init`, the environment `env`, `sockadd`. The
greeting `server_new` then queues is left out. -/
def server_setup (p : Nat) (fd : Int) (env : object) (w : world) : world :=
  let w1 := RETAIN p (w.store p (.server server_zero))
  let w2 := connection_init p fd w1
  let w3 := match w2.heap p with
    | .server s => w2.store p (.server { s with env := some env })
    | _ => w2
  (sockadd fd p EVENT_READ .server_event .server_free_sockbase w3).2

/-- The callbacks a server handle points to, `read` and `write` returning `read_ret` (with the
bytes `data`) and `write_ret`; handles of services are left alone. -/
def run_server_event (write_ret read_ret : Int) (data : List Nat) :
    event_fn → Int → Nat → Nat → world → world
  | .server_event, fd, p, event, w => server_event write_ret read_ret data fd p event w
  | .service_event, _, _, _, w => w

/-- The free callbacks of server handles; handles of services are left alone. -/
def run_server_free : free_fn → Nat → world → world
  | .server_free_sockbase, p, w => server_free_sockbase p w
  | .service_free_sockbase, _, w => w

/-- What the scan of `sockpoll` does at index `i` of the table `sockets`: the callback
arguments `(fd, ptr, event)` when the entry is registered and its descriptor is in `rfds` or
`wfds`. -/
def sockpoll_call (sockets : Nat → socket_info) (rfds wfds : List Int) (i : Nat) :
    Option (Int × Nat × Nat) :=
  match (sockets i).ptr with
  | none => none
  | some p =>
    if (sockets i).fd = INVALID_SOCKET then none
    else if ((if FD_ISSET (sockets i).fd rfds then EVENT_READ else 0) |||
        (if FD_ISSET (sockets i).fd wfds then EVENT_WRITE else 0)) ≠ 0 then
      some ((sockets i).fd, p, (if FD_ISSET (sockets i).fd rfds then EVENT_READ else 0) |||
        (if FD_ISSET (sockets i).fd wfds then EVENT_WRITE else 0))
    else none

/-- What `sockadd` establishes for the entries it writes: a registered entry of the table sits
at the index of its descriptor (`sockets[fd].fd = fd`). -/
def sockets_wf (w : world) : Prop :=
  ∀ i p, (w.sockets i).ptr = some p → (w.sockets i).fd = (i : Int)

/-- The step from `v` to `v1` keeps the table well formed and leaves alone the entries of the
descriptors that `select` reported in `rfds` or `wfds`; entries of other descriptors may have
been registered meanwhile (`accept` yields a descriptor that was not open during `select`). -/
def ready_kept (rfds wfds : List Int) (v v1 : world) : Prop :=
  sockets_wf v1 ∧
    ∀ i : Nat, ((i : Int) ∈ rfds ∨ (i : Int) ∈ wfds) → v1.sockets i = v.sockets i

/-- A state with one server at address 10: created with one reference, its environment
holding `ORIGIN`, registered for READ on descriptor 4. -/
def server_one : world :=
  server_setup 10 4 (obj_set true true obj_new [79, 82, 73, 71, 73, 78] [104]).2 world_init

/-- One `sockpoll` cycle on `server_one` in which descriptor 4 is readable and `read` returns
`read_ret`. -/
def server_one_polled (read_ret : Int) : Int × world × List (Int × Nat × Nat) :=
  sockpoll (run_server_event 0 read_ret []) run_server_free 1 [4] [] server_one

/-- Allocation outcomes under which every `malloc` and `realloc` succeeds. -/
def heap_ok : Nat → Bool × Bool := fun _ => (true, true)

/-- Bytes that `c_encode` writes without an octal escape: printable ASCII, backslash included,
and the seven control characters bell, backspace, tab, newline, vertical tab, form feed and
carriage return (7 to 13). -/
def escapable (b : Nat) : Bool :=
  (decide (32 ≤ b) && decide (b ≤ 126)) || (decide (7 ≤ b) && decide (b ≤ 13))

/-- One operation on the connection of a server: a `connection_vprintf` call producing `text`, or
a `server_event` dispatch with the descriptor, the event mask and what `write` and `read`
return. -/
inductive conn_op where
  | vprintf (text : List Nat)
  | event (write_ret read_ret : Int) (data : List Nat) (fd : Int) (event : Nat)

/-- The operation applied to the server at address `p`. -/
def conn_step (p : Nat) : conn_op → world → world
  | .vprintf text, w => (connection_vprintf p text w).2
  | .event write_ret read_ret data fd event, w => server_event write_ret read_ret data fd p event w

/-- The values `write` and `read` return in a `server_event` dispatch are at most the byte
counts the calls ask for: `outbuf_len` for the `write` (made when the mask has `EVENT_WRITE` and
`outbuf_len` is not zero), `bufmax - buflen` for the `read` (made when that is positive). -/
def conn_op_honest (p : Nat) : conn_op → world → Bool
  | .vprintf _, _ => true
  | .event write_ret read_ret _ _ event, w =>
    match server_at w p with
    | none => true
    | some s =>
      (decide (event &&& EVENT_WRITE = 0) || decide (s.c.outbuf_len = 0) ||
        decide (write_ret ≤ (s.c.outbuf_len : Int))) &&
      (decide (to_int s.c.bufmax - to_int s.c.buflen ≤ 0) ||
        decide (read_ret ≤ to_int s.c.bufmax - to_int s.c.buflen))

/-- The operations applied in order. -/
def conn_run (p : Nat) : List conn_op → world → world
  | [], w => w
  | op :: ops, w => conn_run p ops (conn_step p op w)

/-- Every operation of the sequence is honest in the state it is applied to. -/
def conn_run_honest (p : Nat) : List conn_op → world → Bool
  | [], _ => true
  | op :: ops, w => conn_op_honest p op w && conn_run_honest p ops (conn_step p op w)

/-- The bounds of the two buffers of a connection; the lengths are `unsigned`, so never
negative. -/
def connection_bounded (c : connection) : Prop :=
  c.buflen ≤ c.bufmax ∧ c.outbuf_len ≤ c.outbuf_max

/-- The capacities `connection_init` sets, together with the bounds of the two lengths: what
holds of a connection from `connection_init` on. -/
def conn_inv (s : server) : Prop :=
  s.c.bufmax = 512 ∧ s.c.outbuf_max = 16384 ∧ s.c.buflen ≤ 512 ∧ s.c.outbuf_len ≤ 16384

/-- A server on descriptor 4 with one reference whose connection has the three bytes `abc`
queued for output. -/
def server_abc : server :=
  { server_zero with c := { server_zero.c with
      sockbase := { fd := 4, rc := 1, event := some .server_event,
                    free := some .server_free_sockbase },
      bufmax := 512, outbuf_max := 16384, outbuf_len := 3,
      outbuf := mem_write server_zero.c.outbuf 0 [97, 98, 99, 0] } }

/-- The reference count `rc` of the handle at address `p`, if there is a handle. -/
def handle_rc (w : world) (p : Nat) : Option Int := ((w.heap p).base).map (fun b => b.rc)

/-! ## Definitions: `objdb.c` -/

/-- Constant `PATH_MAX` of Linux. -/
def PATH_MAX : Nat := 4096

/-- Structure `struct objdb_txn`; a pointer is `none` when it is `NULL`. `tempfile` is the memory
of the name buffer, `f` the descriptor the stream was opened on. -/
structure objdb_txn where
  filename : Option (List Nat)
  tempfile : Option (List Nat)
  f : Option Int
deriving DecidableEq, Repr

/-- The static variables `objdb_root` and `objdb_fd`. -/
structure objdb_state where
  objdb_root : Option (List Nat)
  objdb_fd : Int
deriving DecidableEq, Repr

/-- The state at program start: no root path, `objdb_fd` is -1. -/
def objdb_init : objdb_state := { objdb_root := none, objdb_fd := -1 }

/-- Function `objdb_root_check`; `open_ret` is what `open(objdb_root, O_DIRECTORY)` returns. -/
def objdb_root_check (open_ret : Int) (st : objdb_state) : Int × objdb_state :=
  if st.objdb_fd = -1 then
    match st.objdb_root with
    | none => (-1, st)
    | some _ =>
      if open_ret = -1 then (-1, { st with objdb_fd := open_ret })
      else (0, { st with objdb_fd := open_ret })
  else (0, st)

/-- Modelled on ISO C `snprintf(buf + ofs, size, ...)` whose format produces `text`: at most
`size - 1` bytes of the text and a NUL are stored; returns the memory and the length of the
whole text. -/
def snprintf (buf : List Nat) (ofs size : Nat) (text : List Nat) : List Nat × Int :=
  (if size = 0 then buf else mem_write buf ofs (text.take (size - 1) ++ [0]), (text.length : Int))

/-- The output of the conversion `%06u`: the decimal digits, padded with zeros on the left to
six characters. -/
def fmt_06u (n : Nat) : List Nat :=
  List.replicate (6 - (Nat.toDigits 10 n).length) 48 ++ (Nat.toDigits 10 n).map Char.toNat

/-- The string constant `"/tmp/obj.XXXXXX"` of `objdb_temp`. -/
def objdb_temp_pattern : List Nat :=
  [47, 116, 109, 112, 47, 111, 98, 106, 46, 88, 88, 88, 88, 88, 88]

/-- What `openat(objdb_fd, tempname, O_CREAT | O_EXCL | O_RDWR, 0666)` does: a descriptor, the
error `EEXIST`, or another error. -/
inductive openat_result where
  | fd (n : Int)
  | eexist
  | error
deriving DecidableEq, Repr

/-- One pass of the `do` loop of `objdb_temp`, the `i`-th: the random suffix is stored at
`tmpofs` and the file is opened. `rand i` is what the `i`-th call of `rand` returns,
`openat i name` the outcome of the `i`-th `openat`. -/
def objdb_temp_try (openat : Nat → List Nat → openat_result) (rand : Nat → Nat) (tmpofs : Nat)
    (i : Nat) (tempname : List Nat) : List Nat × openat_result :=
  ((snprintf tempname tmpofs 6 (fmt_06u (rand i % 1000000))).1,
    openat i (cstr (snprintf tempname tmpofs 6 (fmt_06u (rand i % 1000000))).1))

/-- The `do { ... } while (fd < 0 && tries--)` loop of `objdb_temp` with `tries` as it is when
the pass begins: the name buffer and the descriptor, `none` where the function goes on to
return `NULL`. -/
def objdb_temp_loop (openat : Nat → List Nat → openat_result) (rand : Nat → Nat) (tmpofs : Nat) :
    Nat → Nat → List Nat → List Nat × Option Int
  | 0, i, tempname =>
    match (objdb_temp_try openat rand tmpofs i tempname).2 with
    | .fd n => ((objdb_temp_try openat rand tmpofs i tempname).1, some n)
    | _ => ((objdb_temp_try openat rand tmpofs i tempname).1, none)
  | tries + 1, i, tempname =>
    match (objdb_temp_try openat rand tmpofs i tempname).2 with
    | .fd n => ((objdb_temp_try openat rand tmpofs i tempname).1, some n)
    | .error => ((objdb_temp_try openat rand tmpofs i tempname).1, none)
    | .eexist =>
      objdb_temp_loop openat rand tmpofs tries (i + 1)
        (objdb_temp_try openat rand tmpofs i tempname).1

/-- Function `objdb_temp(tempname)`: the stream (the descriptor it is opened on, `none` for
`NULL`), the name buffer and the static variables. `fdopen_ok` says whether `fdopen`
succeeds. -/
def objdb_temp (open_ret : Int) (openat : Nat → List Nat → openat_result) (rand : Nat → Nat)
    (fdopen_ok : Bool) (tempname : List Nat) (st : objdb_state) :
    Option Int × List Nat × objdb_state :=
  if (objdb_root_check open_ret st).1 ≠ 0 then (none, tempname, (objdb_root_check open_ret st).2)
  else
    let r := snprintf tempname 0 PATH_MAX objdb_temp_pattern
    if r.2 < 0 ∨ r.2 ≥ (PATH_MAX : Int) then (none, r.1, (objdb_root_check open_ret st).2)
    else
      let tmpofs : Int := (strlen r.1 : Int) - 6
      if tmpofs ≤ 0 then (none, r.1, (objdb_root_check open_ret st).2)
      else
        let l := objdb_temp_loop openat rand tmpofs.toNat 1000 0 r.1
        match l.2 with
        | none => (none, l.1, (objdb_root_check open_ret st).2)
        | some fd =>
          (if fdopen_ok then some fd else none, l.1, (objdb_root_check open_ret st).2)

/-- Function `objdb_start(path)`: the transaction, `none` for `NULL`, and the static variables.
`calloc_ok` says whether `calloc` succeeds; `malloc(PATH_MAX)` and `strdup`, whose results the
code does not test, are taken to succeed, `tempname` being the memory `malloc` returns. -/
def objdb_start (calloc_ok : Bool) (open_ret : Int) (openat : Nat → List Nat → openat_result)
    (rand : Nat → Nat) (fdopen_ok : Bool) (tempname : List Nat) (path : List Nat)
    (st : objdb_state) : Option objdb_txn × objdb_state :=
  if calloc_ok then
    let r := objdb_temp open_ret openat rand fdopen_ok tempname st
    (some { filename := some (cstr path), tempfile := some r.2.1, f := r.1 }, r.2.2)
  else (none, st)

/-! ## Definitions: `grow.c` and `cmd.c` -/

/-- The "round up to a power of 2" sequence of `grow` on the 32-bit `len`. -/
def grow_round (len : Nat) : Nat :=
  let n1 := (len + (2 ^ 32 - 1)) % 2 ^ 32
  let n2 := n1 ||| (n1 >>> 1)
  let n3 := n2 ||| (n2 >>> 2)
  let n4 := n3 ||| (n3 >>> 4)
  let n5 := n4 ||| (n4 >>> 8)
  let n6 := n5 ||| (n5 >>> 16)
  (n6 + 1) % 2 ^ 32

/-- Function `grow(ptr, max, min, elem)`: the return value and the new `*max`; the memory is
extended by zeroed bytes. `realloc_ok` says whether `realloc` succeeds. -/
def grow (realloc_ok : Bool) (max min elem : Nat) : Int × Nat :=
  let old := (max * elem) % 2 ^ 32
  let len := (min * elem) % 2 ^ 32
  if len ≤ old then (0, max)
  else if realloc_ok then (0, grow_round len / elem)
  else (-1, max)

/-- The functions stored in `command.f`. -/
inductive act_fn where
  | act_print
deriving DecidableEq, Repr

/-- Structure `struct command`; a pointer is `none` when it is `NULL`. -/
structure command where
  name : Option (List Nat)
  f : Option act_fn
deriving DecidableEq, Repr

/-- The static variables `command` (the `command_max` cells of the table) and `command_max`. -/
structure command_table where
  command : List command
  command_max : Nat
deriving DecidableEq, Repr

/-- The state at program start: no table. -/
def command_init : command_table := { command := [], command_max := 0 }

/-- The `while (*key)` loop of `hash` on the 64-bit `h`; a `char` is converted to
`unsigned long` when added. -/
def hash_loop (char_signed : Bool) : List Nat → Nat → Nat
  | [], h => h
  | c :: key, h =>
    if c = 0 then h
    else
      let h1 := (h + to_size_t (char_val char_signed c)) % 2 ^ 64
      let h2 := (h1 + (h1 <<< 10) % 2 ^ 64) % 2 ^ 64
      let h3 := (h2 + (h2 >>> 6)) % 2 ^ 64
      hash_loop char_signed key h3

/-- Function `hash`. -/
def hash (char_signed : Bool) (key : List Nat) : Nat :=
  let h := hash_loop char_signed key 0
  let h1 := (h + (h <<< 3) % 2 ^ 64) % 2 ^ 64
  let h2 := h1 ^^^ (h1 >>> 11)
  (h2 + (h2 <<< 15) % 2 ^ 64) % 2 ^ 64

/-- Function `command_getkey` on the cell with index `i` of the table. -/
def command_getkey (base : List command) (i : Nat) : Option (List Nat) :=
  (base.getD i { name := none, f := none }).name

/-- The `while (tries-- > 0)` loop of `hash_slot`: the index of the cell returned, `none` for
`NULL`. -/
def hash_slot_loop (base : List command) (mask : Nat) : Nat → Nat → Option Nat
  | 0, _ => none
  | tries + 1, h =>
    match command_getkey base (h &&& mask) with
    | none => some (h &&& mask)
    | some _ => hash_slot_loop base mask tries ((h + 65537) % 2 ^ 64)

/-- Function `hash_slot(key, base, max, elem, getkey)` with `getkey = command_getkey`. -/
def hash_slot (char_signed : Bool) (key : List Nat) (base : List command) (max : Nat) :
    Option Nat :=
  if max = 0 then none else hash_slot_loop base (max - 1) max (hash char_signed key)

/-- The `while (tries > 0)` loop of `hash_find`, which never changes `tries`: `none` when the
loop has not returned after `fuel` iterations, else the index of the cell returned (`none` for
`NULL`). -/
def hash_find_loop (key : List Nat) (base : List command) (mask tries : Nat) :
    Nat → Nat → Option (Option Nat)
  | 0, _ => none
  | fuel + 1, h =>
    if tries > 0 then
      match command_getkey base (h &&& mask) with
      | none => some none
      | some check =>
        if strcmp key check = 0 then some (some (h &&& mask))
        else hash_find_loop key base mask tries fuel ((h + 65537) % 2 ^ 64)
    else some none

/-- Function `hash_find(key, base, max, elem, getkey)` with `getkey = command_getkey`, run for at
most `fuel` iterations of its loop. -/
def hash_find (char_signed : Bool) (fuel : Nat) (key : List Nat) (base : List command)
    (max : Nat) : Option (Option Nat) :=
  if max = 0 then some none
  else hash_find_loop key base (max - 1) max fuel (hash char_signed key)

/-- The size of `struct command`: two pointers. -/
def sizeof_command : Nat := 16

/-- The end of `command_register`: "initialize the entry" in the cell `i`. `strdup_ok` says
whether `strdup` succeeds. -/
def command_store (strdup_ok : Bool) (name : List Nat) (f : Option act_fn) (i : Nat)
    (t : command_table) : Int × command_table :=
  (0, { t with command :=
    t.command.set i { name := if strdup_ok then some (cstr name) else none, f := f } })

/-- Function `command_register(name, f)`: `none` when `hash_find` has not returned within `fuel`
iterations, else the return value and the table. -/
def command_register (char_signed : Bool) (fuel : Nat) (realloc_ok strdup_ok : Bool)
    (name : List Nat) (f : Option act_fn) (t : command_table) : Option (Int × command_table) :=
  match hash_find char_signed fuel name t.command t.command_max with
  | none => none
  | some (some i) => some (command_store strdup_ok name f i t)
  | some none =>
    match hash_slot char_signed name t.command t.command_max with
    | some i => some (command_store strdup_ok name f i t)
    | none =>
      let next := if t.command_max ≠ 0 then (t.command_max * 2) % 2 ^ 32 else 1
      let g := grow realloc_ok t.command_max next sizeof_command
      if g.1 ≠ 0 then some (-1, t)
      else
        let t1 : command_table :=
          { command := t.command ++
              List.replicate (g.2 - t.command_max) { name := none, f := none },
            command_max := g.2 }
        match hash_slot char_signed name t1.command t1.command_max with
        | some i => some (command_store strdup_ok name f i t1)
        | none => some (-1, t1)

/-- Function `command_run(name, p)` up to the call `cmd->f(p)`: `none` when `hash_find` has not
returned within `fuel` iterations, else the return value and the function that is called. -/
def command_run (char_signed : Bool) (fuel : Nat) (name : List Nat) (t : command_table) :
    Option (Int × Option act_fn) :=
  match hash_find char_signed fuel name t.command t.command_max with
  | none => none
  | some none => some (-1, none)
  | some (some i) => some (0, (t.command.getD i { name := none, f := none }).f)

/-! ## Definitions: `well.c`, servers and services -/

/-- The string constant `"server.template"`. -/
def server_template_key : List Nat :=
  [115, 101, 114, 118, 101, 114, 46, 116, 101, 109, 112, 108, 97, 116, 101]

/-- The string constant `"ORIGIN"`. -/
def ORIGIN : List Nat := [79, 82, 73, 71, 73, 78]

/-- Function `act_print` on the server at address `p`: queues `Hello` and a newline. -/
def act_print (p : Nat) (w : world) : world :=
  (connection_vprintf p [72, 101, 108, 108, 111, 10] w).2

/-- Function `server_new(fd, origin)`, the server being allocated at address `p` (`calloc` is
taken to succeed). `system_env` is the object the global points to, `objdb_load path` what
`objdb_load` returns, `notice` the text of the legal notice, `run_print p` the call
`command_run("print", s)`. The result is `none` when the program dereferences a null pointer:
`obj_set` is called with `s->env` and reads `o->prop_len` through it. Otherwise it is the
pointer returned (`none` for `NULL`) and the state. -/
def server_new (system_env : object) (objdb_load : List Nat → Option object)
    (realloc_ok malloc_ok : Bool) (notice : List Nat) (run_print : Nat → world → world)
    (p : Nat) (fd : Int) (origin : List Nat) (w : world) : Option (Option Nat × world) :=
  let w1 := RETAIN p (w.store p (.server server_zero))
  let w2 := connection_init p fd w1
  let env := match obj_get system_env server_template_key with
    | some template => objdb_load template
    | none => some obj_new
  match env with
  | none => none
  | some e =>
    let r := obj_set realloc_ok malloc_ok e ORIGIN origin
    let w3 := match w2.heap p with
      | .server s => w2.store p (.server { s with env := some r.2 })
      | _ => w2
    if r.1 ≠ 0 then some (none, RELEASE server_free_sockbase p w3)
    else
      let w4 := (sockadd fd p EVENT_READ .server_event .server_free_sockbase w3).2
      let w5 := (connection_vprintf p notice w4).2
      some (some p, run_print p w5)

/-- Function `service_event(fd, sockbase, event)`: `accept_ret` is what `accept4` returns, `host`
the text `host/port` built for the peer, `q` the address of the server `server_new` allocates;
the other parameters are those of `server_new`. The result is `none` when `server_new`
dereferences a null pointer. -/
def service_event (system_env : object) (objdb_load : List Nat → Option object)
    (realloc_ok malloc_ok : Bool) (notice : List Nat) (run_print : Nat → world → world)
    (accept_ret : Int) (host : List Nat) (q : Nat) (event : Nat) (w : world) : Option world :=
  if event &&& EVENT_READ ≠ 0 then
    if accept_ret = INVALID_SOCKET then some w
    else
      match server_new system_env objdb_load realloc_ok malloc_ok notice run_print q accept_ret
          host w with
      | none => none
      | some (none, w1) => some (sockclose accept_ret w1)
      | some (some _, w1) => some w1
  else some w

/-- One entry of the address list `getaddrinfo` returns, with what the calls made for it
return: `socket`, `bind`, `listen`, and the address `calloc` gives the service. -/
structure addr_try where
  fd : Int
  bind_ret : Int
  listen_ret : Int
  p : Nat
deriving DecidableEq, Repr

/-- The `for (cur = res; cur; cur = cur->ai_next)` loop of `service_open`. -/
def service_open_loop : List addr_try → world → world
  | [], w => w
  | a :: res, w =>
    if a.fd = INVALID_SOCKET then service_open_loop res w
    else if a.bind_ret = -1 ∨ a.listen_ret = -1 then service_open_loop res (sockclose a.fd w)
    else
      let w1 := RETAIN a.p (w.store a.p
        (.service { sockbase := { fd := 0, rc := 0, event := none, free := none } }))
      let w2 := match w1.heap a.p with
        | .service s => w1.store a.p (.service { s with sockbase := { s.sockbase with fd := a.fd } })
        | _ => w1
      service_open_loop res
        (sockadd a.fd a.p EVENT_READ .service_event .service_free_sockbase w2).2

/-- Function `service_open(hostport)`: `getaddrinfo_ret` is what `getaddrinfo` returns and `res`
the list it yields. Returns the status and the state. -/
def service_open (getaddrinfo_ret : Int) (res : List addr_try) (w : world) : Int × world :=
  if getaddrinfo_ret ≠ 0 then (-1, w) else (0, service_open_loop res w)

/-! ## Definitions: `c_decode` in place -/

/-- The loop of `c_decode` when `dst` and `src` are the same pointer into the memory `mem`, as in
`obj_load`: `pos` bytes have been read and `dstlen` written. An iteration reads from `pos` on
and then stores one byte at `dstlen`; `src` advances by as many bytes as `srclen` drops. The
loop is cut after `fuel` iterations. Returns the memory, `pos` and `dstlen`. -/
def c_decode_inplace_loop (dstmax : Nat) :
    Nat → List Nat → Nat → Nat → Nat → Option (List Nat × Nat × Nat)
  | 0, mem, pos, _, dstlen => some (mem, pos, dstlen)
  | fuel + 1, mem, pos, srclen, dstlen =>
    if srclen > 0 ∧ (mem.drop pos).headD 0 ≠ 0 then
      if dstlen + 1 ≥ dstmax then none
      else
        match c_decode_body (mem.drop pos) srclen with
        | none => none
        | some (_, srclen1, b) =>
          c_decode_inplace_loop dstmax fuel (mem.set dstlen b) (pos + (srclen - srclen1)) srclen1
            (dstlen + 1)
    else some (mem, pos, dstlen)

/-- Function `c_decode(mem, dstmax, mem, srclen)`, destination and source being the same: the
memory afterwards, the terminator stored, and the length returned; `none` is -1. -/
def c_decode_inplace (dstmax : Nat) (mem : List Nat) (srclen : Nat) : Option (List Nat × Nat) :=
  (c_decode_inplace_loop dstmax srclen mem 0 srclen 0).map
    (fun r => (r.1.set r.2.2 0, r.2.2))

/-! ## Definitions: the callbacks of a dispatch -/

/-- What registration establishes (`RETAIN` and `sockadd` in `server_new` and `service_open`): a
registered entry of the table sits at the index of its descriptor and points to a handle whose
event function is set and whose count is at least 1. -/
def handles_wf (w : world) : Prop :=
  ∀ i p, (w.sockets i).ptr = some p →
    (w.sockets i).fd = (i : Int) ∧
      ∃ b f, (w.heap p).base = some b ∧ b.event = some f ∧ 1 ≤ b.rc

/-- The entries of the descriptors `select` reported in `rfds` or `wfds` are in `v1` what they
are in `v`. -/
def ready_same (rfds wfds : List Int) (v v1 : world) : Prop :=
  ∀ i : Nat, ((i : Int) ∈ rfds ∨ (i : Int) ∈ wfds) → v1.sockets i = v.sockets i

/-- What an event callback invoked for the handle at `p` does, from `v` to `v1`: registration
stays as `handles_wf` says, the entries of the reported descriptors are left alone (entries of
other descriptors may be registered: `accept` yields a descriptor that was not open during
`select`), and the count of the handle at `p` is left as found (no retain or release of its
own). -/
def callback_ok (rfds wfds : List Int) (p : Nat) (v v1 : world) : Prop :=
  handles_wf v1 ∧ ready_same rfds wfds v v1 ∧ handle_rc v1 p = handle_rc v p

/-- One invocation of the event callback for the call `c = (fd, ptr, event)`, bracketed as in
`sockpoll`: `RETAIN`, one application of the function stored in the handle, and the count
lowered again with nothing freed. `none` when the handle has no event function to call. -/
def invoke_once (run_event : event_fn → Int → Nat → Nat → world → world)
    (c : Int × Nat × Nat) (v : world) : Option world :=
  match (((RETAIN c.2.1 v).heap c.2.1).base).bind (fun b => b.event) with
  | none => none
  | some f =>
    some (RELEASE (fun _ u => u) c.2.1 (run_event f c.1 c.2.1 c.2.2 (RETAIN c.2.1 v)))

/-- The invocations for the calls of a list, one after the other. -/
def invoke_all (run_event : event_fn → Int → Nat → Nat → world → world) :
    List (Int × Nat × Nat) → world → Option world
  | [], v => some v
  | c :: cs, v =>
    match invoke_once run_event c v with
    | none => none
    | some v1 => invoke_all run_event cs v1

/-- The step from `v` to `v1` changes no handle's count and no handle's event function. -/
def handles_same (v v1 : world) : Prop :=
  ∀ q, ((v1.heap q).base).map (fun b => (b.rc, b.event))
    = ((v.heap q).base).map (fun b => (b.rc, b.event))

/-- The step from `v` to `v1` changes the heap at the address `p` only, and not the table. -/
def heap_frame (p : Nat) (v v1 : world) : Prop :=
  v1.sockets = v.sockets ∧ ∀ q, q ≠ p → v1.heap q = v.heap q

/-- Registration as `handles_wf` says, but for what the entries that point to `p` find there. -/
def handles_wf_off (p : Nat) (w : world) : Prop :=
  ∀ i q, (w.sockets i).ptr = some q →
    (w.sockets i).fd = (i : Int) ∧
      (q ≠ p → ∃ b f, (w.heap q).base = some b ∧ b.event = some f ∧ 1 ≤ b.rc)

/-! ## Lemmas and theorems -/
theorem cstr_nil : cstr [] = [] := rfl

theorem cstr_cons (b : Nat) (s : List Nat) :
    cstr (b :: s) = if b = 0 then [] else b :: cstr s := by
  unfold cstr
  by_cases h : b = 0 <;> simp [List.takeWhile, h]

theorem cstr_idem (s : List Nat) : cstr (cstr s) = cstr s := by
  induction s with
  | nil => rfl
  | cons b s ih =>
    by_cases h : b = 0
    · simp [cstr_cons, h, cstr_nil]
    · simp [cstr_cons, h, ih]

theorem cstr_append_zero (s r : List Nat) : cstr (cstr s ++ 0 :: r) = cstr s := by
  induction s with
  | nil => simp [cstr_nil, cstr_cons]
  | cons b s ih =>
    by_cases h : b = 0
    · simp [cstr_cons, h]
    · simp [cstr_cons, h, ih]

theorem strcmp_neg (a b : List Nat) : strcmp b a = - strcmp a b := by
  induction a generalizing b with
  | nil => cases b <;> simp [strcmp]
  | cons x a ih =>
    cases b with
    | nil => simp [strcmp]
    | cons y b =>
      simp only [strcmp]
      by_cases hxy : x = y
      · subst hxy
        by_cases h0 : x = 0
        · simp [h0]
        · simp [h0, ih]
      · have : y ≠ x := fun h => hxy h.symm
        simp [hxy, this]

theorem strcmp_self (a : List Nat) : strcmp a a = 0 := by
  induction a with
  | nil => rfl
  | cons x a ih => simp [strcmp, ih]

theorem strcmp_cstr_left (a b : List Nat) : strcmp (cstr a) b = strcmp a b := by
  induction a generalizing b with
  | nil => rfl
  | cons x a ih =>
    by_cases h0 : x = 0
    · subst h0
      cases b with
      | nil => simp [cstr_cons, strcmp]
      | cons y b =>
        by_cases hy : y = 0
        · simp [cstr_cons, strcmp, hy]
        · have : ¬ (0 = y) := fun h => hy h.symm
          simp [cstr_cons, strcmp, this]
    · cases b with
      | nil => simp [cstr_cons, strcmp, h0]
      | cons y b =>
        simp only [cstr_cons, h0, if_false, strcmp, ih]

theorem strcmp_cstr_right (a b : List Nat) : strcmp a (cstr b) = strcmp a b := by
  rw [strcmp_neg, strcmp_cstr_left, ← strcmp_neg]

theorem strcmp_eq_zero_iff (a b : List Nat) : strcmp a b = 0 ↔ cstr a = cstr b := by
  induction a generalizing b with
  | nil =>
    cases b with
    | nil => simp [strcmp]
    | cons y b =>
      by_cases hy : y = 0
      · simp [strcmp, cstr_cons, cstr_nil, hy]
      · simp [strcmp, cstr_cons, cstr_nil, hy]
  | cons x a ih =>
    cases b with
    | nil =>
      by_cases hx : x = 0
      · simp [strcmp, cstr_cons, cstr_nil, hx]
      · simp [strcmp, cstr_cons, cstr_nil, hx]
    | cons y b =>
      simp only [strcmp, cstr_cons]
      by_cases hxy : x = y
      · subst hxy
        by_cases h0 : x = 0
        · simp [h0]
        · simp [h0, ih]
      · by_cases hx : x = 0
        · have hy : y ≠ 0 := fun h => hxy (by rw [hx, h])
          simp [hxy, hx, hy]
          omega
        · by_cases hy : y = 0
          · simp [hxy, hx, hy]
          · simp [hxy, hx, hy]
            omega

theorem strcmp_trans (a b c : List Nat) :
    (strcmp a b ≤ 0 → strcmp b c ≤ 0 → strcmp a c ≤ 0) ∧
    (strcmp a b < 0 → strcmp b c ≤ 0 → strcmp a c < 0) ∧
    (strcmp a b ≤ 0 → strcmp b c < 0 → strcmp a c < 0) := by
  induction a generalizing b c with
  | nil =>
    cases b with
    | nil => cases c <;> simp [strcmp]
    | cons y b =>
      cases c with
      | nil => simp [strcmp]; omega
      | cons z c =>
        simp only [strcmp]
        by_cases hyz : y = z
        · subst hyz
          by_cases hy : y = 0
          · simp [hy]
          · simp [hy]; omega
        · simp [hyz]; omega
  | cons x a ih =>
    cases b with
    | nil =>
      cases c with
      | nil => simp [strcmp]
      | cons z c => simp [strcmp]; split_ifs <;> omega
    | cons y b =>
      cases c with
      | nil => simp only [strcmp]; split_ifs <;> omega
      | cons z c =>
        simp only [strcmp]
        by_cases hxy : x = y
        · subst hxy
          by_cases hx : x = 0
          · subst hx; simp
          · by_cases hxz : x = z
            · subst hxz
              simp [hx]
              exact ih b c
            · simp [hx, hxz]
              omega
        · by_cases hyz : y = z
          · subst hyz
            by_cases hy : y = 0
            · subst hy; simp [hxy]
            · simp [hxy, hy]
              omega
          · simp only [hxy, hyz, ne_eq, not_false_eq_true, if_true]
            split_ifs <;> omega

theorem bsearch_loop_some (compar : List Nat → List Nat → Int) (key : List Nat)
    (base : List (List Nat)) (fuel l u i : Nat)
    (h : bsearch_loop compar key base fuel l u = some i) :
    l ≤ i ∧ i < u ∧ compar key (base.getD i []) = 0 := by
  induction fuel generalizing l u with
  | zero => simp [bsearch_loop] at h
  | succ fuel ih =>
    rw [bsearch_loop] at h
    by_cases hlu : l < u
    · simp only [hlu, if_true] at h
      by_cases hc : compar key (base.getD ((l + u) / 2) []) < 0
      · simp only [hc, if_true] at h
        have := ih l ((l + u) / 2) h
        omega
      · simp only [hc, if_false] at h
        by_cases hc2 : compar key (base.getD ((l + u) / 2) []) > 0
        · simp only [hc2, if_true] at h
          have := ih ((l + u) / 2 + 1) u h
          omega
        · simp only [hc2, if_false, Option.some.injEq] at h
          subst h
          refine ⟨by omega, by omega, by omega⟩
    · simp [hlu] at h

theorem sorted_getD_lt (base : List (List Nat))
    (hs : base.Pairwise (fun a b => strcmp a b < 0)) (i j : Nat) (hij : i < j)
    (hj : j < base.length) : strcmp (base.getD i []) (base.getD j []) < 0 := by
  rw [List.getD_eq_getElem _ _ (by omega : i < base.length), List.getD_eq_getElem _ _ hj]
  exact List.pairwise_iff_getElem.1 hs i j (by omega) hj hij

theorem bsearch_loop_complete (key : List Nat) (base : List (List Nat))
    (hs : base.Pairwise (fun a b => strcmp a b < 0)) (fuel l u j : Nat)
    (hu : u ≤ base.length) (hf : u - l ≤ fuel) (hl : l ≤ j) (hj : j < u)
    (hk : strcmp key (base.getD j []) = 0) :
    bsearch_loop obj_compar key base fuel l u = some j := by
  induction fuel generalizing l u with
  | zero => omega
  | succ fuel ih =>
    rw [bsearch_loop]
    have hlu : l < u := by omega
    simp only [hlu, if_true, obj_compar]
    by_cases hc : strcmp key (base.getD ((l + u) / 2) []) < 0
    · simp only [hc, if_true]
      apply ih l ((l + u) / 2) (by omega) (by omega) hl
      by_contra hge
      have hge : (l + u) / 2 ≤ j := by omega
      rcases Nat.eq_or_lt_of_le hge with heq | hlt
      · rw [heq] at hc; omega
      · have h1 := sorted_getD_lt base hs _ _ hlt (by omega)
        have h4 := strcmp_neg key (base.getD j [])
        have h5 := (strcmp_trans (base.getD ((l + u) / 2) []) (base.getD j []) key).2.1 h1
          (by omega)
        have h6 := strcmp_neg key (base.getD ((l + u) / 2) [])
        omega
    · simp only [hc, if_false]
      by_cases hc2 : strcmp key (base.getD ((l + u) / 2) []) > 0
      · simp only [hc2, if_true]
        apply ih ((l + u) / 2 + 1) u hu (by omega) _ hj
        by_contra hge
        have hge : j ≤ (l + u) / 2 := by omega
        rcases Nat.eq_or_lt_of_le hge with heq | hlt
        · rw [← heq] at hc2; omega
        · have h1 := sorted_getD_lt base hs _ _ hlt (by omega)
          have h5 := (strcmp_trans key (base.getD j []) (base.getD ((l + u) / 2) [])).2.2
            (by omega) h1
          omega
      · simp only [hc2, if_false, Option.some.injEq]
        have h0 : strcmp key (base.getD ((l + u) / 2) []) = 0 := by omega
        by_contra hne
        rcases Nat.lt_or_gt_of_ne hne with hlt | hgt
        · have h1 := sorted_getD_lt base hs _ _ hlt (by omega)
          have h5 := (strcmp_trans key (base.getD ((l + u) / 2) []) (base.getD j [])).2.2
            (by omega) h1
          omega
        · have h1 := sorted_getD_lt base hs _ _ hgt (by omega)
          have h5 := (strcmp_trans key (base.getD j []) (base.getD ((l + u) / 2) [])).2.2
            (by omega) h1
          omega

theorem obj_lookup_offset_ge (o : object) (name : List Nat) :
    -1 ≤ obj_lookup_offset o name := by
  unfold obj_lookup_offset
  split_ifs
  · omega
  · split <;> omega

theorem obj_lookup_offset_found (o : object) (name : List Nat)
    (h : 0 ≤ obj_lookup_offset o name) :
    (obj_lookup_offset o name).toNat < o.prop.length ∧
      strcmp name (o.prop.getD (obj_lookup_offset o name).toNat []) = 0 := by
  unfold obj_lookup_offset at h ⊢
  split_ifs at h ⊢ with h0
  · omega
  · unfold bsearch at h ⊢
    cases hb : bsearch_loop obj_compar name o.prop o.prop_len 0 o.prop_len with
    | none => rw [hb] at h; simp at h
    | some i =>
      have := bsearch_loop_some _ _ _ _ _ _ _ hb
      simp only [Int.toNat_ofNat]
      exact ⟨this.2.1, this.2.2⟩

theorem obj_lookup_offset_complete (o : object) (name : List Nat)
    (hs : o.prop.Pairwise (fun a b => strcmp a b < 0)) (j : Nat) (hj : j < o.prop.length)
    (hk : strcmp name (o.prop.getD j []) = 0) : obj_lookup_offset o name = (j : Int) := by
  unfold obj_lookup_offset
  have h0 : ¬ o.prop_len = 0 := by unfold object.prop_len; omega
  simp only [h0, if_false]
  unfold bsearch
  rw [bsearch_loop_complete name o.prop hs o.prop_len 0 o.prop_len j (le_refl _) (by omega)
    (by omega) hj hk]

theorem obj_lookup_offset_absent (o : object) (name : List Nat)
    (hs : o.prop.Pairwise (fun a b => strcmp a b < 0)) :
    obj_lookup_offset o name = -1 ↔ ∀ e ∈ o.prop, strcmp name e ≠ 0 := by
  constructor
  · intro h e he hk
    obtain ⟨j, hj, rfl⟩ := List.mem_iff_getElem.1 he
    have := obj_lookup_offset_complete o name hs j hj
      (by rw [List.getD_eq_getElem _ _ hj]; exact hk)
    omega
  · intro h
    by_contra hne
    have hge := obj_lookup_offset_ge o name
    have hf := obj_lookup_offset_found o name (by omega)
    apply h _ _ hf.2
    rw [List.getD_eq_getElem _ _ hf.1]
    exact List.getElem_mem _

instance strcmp_le_total : IsTotal (List Nat) (fun a b => obj_compar a b ≤ 0) :=
  ⟨fun a b => by
    have := strcmp_neg a b
    unfold obj_compar
    omega⟩

instance strcmp_le_trans : IsTrans (List Nat) (fun a b => obj_compar a b ≤ 0) :=
  ⟨fun a b c h1 h2 => (strcmp_trans a b c).1 h1 h2⟩

theorem sorted_iff_map_cstr (l : List (List Nat)) :
    l.Pairwise (fun a b => strcmp a b < 0) ↔
      (l.map cstr).Pairwise (fun a b => strcmp a b < 0) := by
  rw [List.pairwise_map]
  simp only [strcmp_cstr_left, strcmp_cstr_right]

theorem sorted_set (l : List (List Nat)) (hs : l.Pairwise (fun a b => strcmp a b < 0))
    (i : Nat) (hi : i < l.length) (s : List Nat) (h : cstr s = cstr (l.getD i [])) :
    (l.set i s).Pairwise (fun a b => strcmp a b < 0) := by
  rw [sorted_iff_map_cstr] at hs ⊢
  rw [List.map_set, h, List.getD_eq_getElem _ _ hi]
  have : (l.map cstr).set i (cstr l[i]) = l.map cstr := by
    apply List.ext_getElem
    · simp
    · intro n h1 h2
      by_cases hn : i = n
      · subst hn; simp
      · simp [List.getElem_set_ne hn]
  rw [this]
  exact hs

theorem sorted_qsort_append (l : List (List Nat))
    (hs : l.Pairwise (fun a b => strcmp a b < 0)) (s : List Nat)
    (h : ∀ e ∈ l, strcmp s e ≠ 0) :
    (qsort obj_compar (l ++ [s])).Pairwise (fun a b => strcmp a b < 0) := by
  unfold qsort
  have hsorted := List.sorted_insertionSort (fun a b => obj_compar a b ≤ 0) (l ++ [s])
  have hperm := List.perm_insertionSort (fun a b => obj_compar a b ≤ 0) (l ++ [s])
  have hne : (l ++ [s]).Pairwise (fun a b => strcmp a b ≠ 0) := by
    rw [List.pairwise_append]
    refine ⟨hs.imp (fun {a b} hab => by omega), List.pairwise_singleton _ _, ?_⟩
    intro a ha b hb
    rw [List.mem_singleton] at hb
    subst hb
    have := h a ha
    have := strcmp_neg a b
    omega
  have hne2 := (List.Perm.pairwise_iff (R := fun a b => strcmp a b ≠ 0)
    (fun {x y} hxy => by have := strcmp_neg x y; omega) hperm).2 hne
  have := List.Pairwise.and hsorted hne2
  exact this.imp (fun {a b} hab => by
    have h1 : obj_compar a b ≤ 0 := hab.1
    have h2 := hab.2
    unfold obj_compar at h1
    omega)

theorem obj_new_wf : obj_wf obj_new := List.Pairwise.nil

theorem strcmp_alloc (name value x : List Nat) :
    strcmp (cstr name ++ [0] ++ (cstr value ++ [0])) x = strcmp name x := by
  rw [← strcmp_cstr_left, List.append_assoc, List.singleton_append, cstr_append_zero,
    strcmp_cstr_left]

theorem obj_set_grow_prop (r : Bool) (o o1 : object) (h : obj_set_grow r o = some o1) :
    o1.prop = o.prop := by
  unfold obj_set_grow at h
  split_ifs at h
  · rw [← Option.some.inj h]
  · rw [← Option.some.inj h]

theorem obj_set_wf (r m : Bool) (o : object) (name value : List Nat) (h : obj_wf o) :
    obj_wf (obj_set r m o name value).2 := by
  unfold obj_set
  by_cases hofs : obj_lookup_offset o name ≥ 0
  · simp only [hofs, if_true]
    cases m
    · exact h
    · simp only [obj_alloc_buffer, if_true]
      have hf := obj_lookup_offset_found o name hofs
      apply sorted_set _ h _ hf.1
      rw [List.append_assoc, List.singleton_append, cstr_append_zero]
      exact (strcmp_eq_zero_iff _ _).1 hf.2
  · simp only [hofs, if_false]
    have habs : ∀ e ∈ o.prop, strcmp name e ≠ 0 :=
      (obj_lookup_offset_absent o name h).1 (by have := obj_lookup_offset_ge o name; omega)
    cases hg : obj_set_grow r o with
    | none => exact h
    | some o1 =>
      have h1 := obj_set_grow_prop r o o1 hg
      cases m
      · simp only [obj_alloc_buffer, Bool.false_eq_true, if_false]
        unfold obj_wf; rw [h1]; exact h
      · simp only [obj_alloc_buffer, if_true]
        unfold obj_wf
        simp only [h1]
        apply sorted_qsort_append _ h
        intro e he
        rw [strcmp_alloc]
        exact habs e he

theorem sorted_getD_ne (base : List (List Nat))
    (hs : base.Pairwise (fun a b => strcmp a b < 0)) (i j : Nat) (hij : i ≠ j)
    (hi : i < base.length) (hj : j < base.length) :
    strcmp (base.getD i []) (base.getD j []) ≠ 0 := by
  rcases Nat.lt_or_gt_of_ne hij with h | h
  · have := sorted_getD_lt base hs i j h hj
    omega
  · have := sorted_getD_lt base hs j i h hi
    have := strcmp_neg (base.getD i []) (base.getD j [])
    omega

theorem strcmp_congr_zero (k a b : List Nat) (h : strcmp k a = 0) :
    strcmp k b = strcmp a b := by
  rw [← strcmp_cstr_left k b, (strcmp_eq_zero_iff k a).1 h, strcmp_cstr_left]

theorem obj_get_eq_some (o : object) (name e : List Nat) (h : obj_wf o) (he : e ∈ o.prop)
    (hk : strcmp name e = 0) : obj_get o name = some (e.drop (strlen e + 1)) := by
  obtain ⟨j, hj, rfl⟩ := List.mem_iff_getElem.1 he
  have := obj_lookup_offset_complete o name h j hj
    (by rw [List.getD_eq_getElem _ _ hj]; exact hk)
  unfold obj_get
  simp only [this]
  have hn : ¬ ((j : Int) < 0) := by omega
  simp only [hn, if_false, Int.toNat_ofNat, List.getD_eq_getElem _ _ hj]

theorem obj_get_eq_none (o : object) (name : List Nat) (h : obj_wf o)
    (hk : ∀ e ∈ o.prop, strcmp name e ≠ 0) : obj_get o name = none := by
  have := (obj_lookup_offset_absent o name h).2 hk
  unfold obj_get
  simp [this]

theorem obj_set_fail (r m : Bool) (o : object) (name value : List Nat)
    (h : (obj_set r m o name value).1 ≠ 0) :
    (obj_set r m o name value).1 = -1 ∧ (obj_set r m o name value).2.prop = o.prop := by
  unfold obj_set at h ⊢
  by_cases hofs : obj_lookup_offset o name ≥ 0
  · simp only [hofs, if_true] at h ⊢
    cases m
    · exact ⟨rfl, rfl⟩
    · exact absurd rfl h
  · simp only [hofs, if_false] at h ⊢
    cases hg : obj_set_grow r o with
    | none => exact ⟨rfl, rfl⟩
    | some o1 =>
      have h1 := obj_set_grow_prop r o o1 hg
      rw [hg] at h
      cases m
      · exact ⟨rfl, h1⟩
      · exact absurd rfl h
theorem obj_set_mem (r m : Bool) (o : object) (name value : List Nat) (hwf : obj_wf o)
    (h : (obj_set r m o name value).1 = 0) (e : List Nat) :
    e ∈ (obj_set r m o name value).2.prop ↔
      e = cstr name ++ [0] ++ (cstr value ++ [0]) ∨ (e ∈ o.prop ∧ strcmp name e ≠ 0) := by
  unfold obj_set at h ⊢
  by_cases hofs : obj_lookup_offset o name ≥ 0
  · simp only [hofs, if_true] at h ⊢
    cases m
    · have h2 : (-1 : Int) = 0 := h
      omega
    · simp only [obj_alloc_buffer, if_true]
      have hf := obj_lookup_offset_found o name hofs
      generalize (obj_lookup_offset o name).toNat = i at hf
      constructor
      · intro he
        obtain ⟨j, hj, rfl⟩ := List.mem_iff_getElem.1 he
        rw [List.length_set] at hj
        by_cases hij : i = j
        · subst hij; left; simp
        · right
          rw [List.getElem_set_ne hij]
          refine ⟨List.getElem_mem _, ?_⟩
          have h1 := sorted_getD_ne o.prop hwf i j hij hf.1 hj
          rw [strcmp_congr_zero name _ _ hf.2, ← List.getD_eq_getElem _ [] hj]
          exact h1
      · rintro (rfl | ⟨he, hne⟩)
        · exact List.mem_set _ _ hf.1 _
        · obtain ⟨j, hj, rfl⟩ := List.mem_iff_getElem.1 he
          have hij : i ≠ j := by
            rintro rfl
            rw [List.getD_eq_getElem _ _ hj] at hf
            exact hne hf.2
          rw [List.mem_iff_getElem]
          exact ⟨j, by rw [List.length_set]; exact hj, List.getElem_set_ne hij _⟩
  · simp only [hofs, if_false] at h ⊢
    have habs : ∀ e ∈ o.prop, strcmp name e ≠ 0 :=
      (obj_lookup_offset_absent o name hwf).1 (by have := obj_lookup_offset_ge o name; omega)
    cases hg : obj_set_grow r o with
    | none =>
      rw [hg] at h
      have h2 : (-1 : Int) = 0 := h
      omega
    | some o1 =>
      have h1 := obj_set_grow_prop r o o1 hg
      rw [hg] at h
      cases m
      · have h2 : (-1 : Int) = 0 := h
        omega
      · simp only [obj_alloc_buffer, if_true, qsort]
        rw [(List.perm_insertionSort _ _).mem_iff, h1, List.mem_append, List.mem_singleton]
        constructor
        · rintro (he | he)
          · exact Or.inr ⟨he, habs e he⟩
          · exact Or.inl he
        · rintro (he | he)
          · exact Or.inr he
          · exact Or.inl he.1

theorem to_byte_digit (r : Int) (h1 : -7 ≤ r) (h2 : r ≤ 7) : to_byte (48 + r) ≠ 0 := by
  unfold to_byte
  have : (48 + r) % 256 = 48 + r := Int.emod_eq_of_lt (by omega) (by omega)
  rw [this]
  omega

theorem tmod8_bounds (c : Int) : -7 ≤ Int.tmod c 8 ∧ Int.tmod c 8 ≤ 7 := by
  rcases c with m | m
  · have : Int.tmod (Int.ofNat m) 8 = ((m % 8 : Nat) : Int) := rfl
    rw [this]; omega
  · have : Int.tmod (Int.negSucc m) 8 = -(((m + 1) % 8 : Nat) : Int) := rfl
    rw [this]; omega

theorem c_encode_char_ne_zero (sgn : Bool) (b : Nat) : ∀ x ∈ c_encode_char sgn b, x ≠ 0 := by
  intro x hx
  unfold c_encode_char at hx
  simp only at hx
  split_ifs at hx with h1 h2 h3 h4 h5 h6 h7 h8 h9
  all_goals try (simp at hx; omega)
  · simp only [List.mem_singleton] at hx
    subst hx
    unfold isprint at h9
    unfold char_val at h9
    simp only [Bool.and_eq_true, decide_eq_true_eq] at h9
    split_ifs at h9 <;> omega
  · simp only [List.mem_cons, List.mem_singleton, List.not_mem_nil, or_false] at hx
    rcases hx with rfl | rfl | rfl | rfl
    · omega
    · exact to_byte_digit _ (tmod8_bounds _).1 (tmod8_bounds _).2
    · exact to_byte_digit _ (tmod8_bounds _).1 (tmod8_bounds _).2
    · exact to_byte_digit _ (tmod8_bounds _).1 (tmod8_bounds _).2

theorem c_encode_char_length (sgn : Bool) (b : Nat) : (c_encode_char sgn b).length ≤ 4 := by
  unfold c_encode_char
  simp only
  split_ifs <;> simp

theorem c_encode_loop_eq (sgn : Bool) (dstmax n : Nat) (src dst out : List Nat)
    (h : c_encode_loop sgn dstmax n src dst = some out) :
    out = dst ++ ((cstr src).take n).flatMap (c_encode_char sgn) := by
  induction n generalizing src dst with
  | zero => simp [c_encode_loop] at h; simp [h]
  | succ n ih =>
    cases src with
    | nil => simp [c_encode_loop] at h; simp [h, cstr_nil]
    | cons c src =>
      rw [c_encode_loop] at h
      by_cases hc : c = 0
      · simp [hc] at h; simp [h, hc, cstr_cons]
      · simp only [hc, if_false] at h
        split_ifs at h
        rw [ih _ _ h]
        simp [cstr_cons, hc, List.flatMap_cons]

theorem c_encode_loop_some (sgn : Bool) (dstmax n : Nat) (src dst : List Nat)
    (h : dst.length + 4 * n + 2 ≤ dstmax) :
    ∃ out, c_encode_loop sgn dstmax n src dst = some out := by
  induction n generalizing src dst with
  | zero => exact ⟨dst, by simp [c_encode_loop]⟩
  | succ n ih =>
    cases src with
    | nil => exact ⟨dst, by simp [c_encode_loop]⟩
    | cons c src =>
      rw [c_encode_loop]
      by_cases hc : c = 0
      · exact ⟨dst, by simp [hc]⟩
      · simp only [hc, if_false]
        have hlt : ¬ (dst.length + 4 + 1 ≥ dstmax) := by omega
        simp only [hlt, if_false]
        apply ih
        have := c_encode_char_length sgn c
        simp only [List.length_append]
        omega

theorem c_encode_str_spec (sgn : Bool) (s : List Nat) :
    c_encode sgn (4 * strlen s + 6) s (strlen s) = some (c_encode_str sgn s) := by
  obtain ⟨out, h⟩ := c_encode_loop_some sgn (4 * strlen s + 6) (strlen s) s [] (by simp)
  unfold c_encode_str c_encode
  rw [h]
  rfl

theorem c_encode_eq_str (sgn : Bool) (dstmax : Nat) (s out : List Nat)
    (h : c_encode sgn dstmax s (strlen s) = some out) : out = c_encode_str sgn s := by
  have h1 := c_encode_loop_eq _ _ _ _ _ _ h
  have h2 := c_encode_loop_eq _ _ _ _ _ _ (c_encode_str_spec sgn s)
  rw [h1, h2]

theorem c_encode_str_ne_zero (sgn : Bool) (s : List Nat) : ∀ x ∈ c_encode_str sgn s, x ≠ 0 := by
  have h2 := c_encode_loop_eq _ _ _ _ _ _ (c_encode_str_spec sgn s)
  rw [h2]
  intro x hx
  simp only [List.nil_append, List.mem_flatMap] at hx
  obtain ⟨b, _, hb⟩ := hx
  exact c_encode_char_ne_zero sgn b x hb

theorem cstr_of_ne_zero (s r : List Nat) (h : ∀ x ∈ s, x ≠ 0) : cstr (s ++ 0 :: r) = s := by
  induction s with
  | nil => simp [cstr_cons]
  | cons b s ih =>
    have hb : b ≠ 0 := h b (List.mem_cons_self _ _)
    simp only [List.cons_append, cstr_cons, hb, if_false]
    rw [ih (fun x hx => h x (List.mem_cons_of_mem _ hx))]

theorem c_decode_octal_le (k c : Nat) (v : Int) (src : List Nat) (n : Nat) :
    (c_decode_octal k c v src n).2.2 ≤ n := by
  induction k generalizing c v src n with
  | zero => simp [c_decode_octal]
  | succ k ih =>
    rw [c_decode_octal]
    simp only
    split_ifs
    · have := ih (src.headD 0) (v * 8 + ((c : Int) - 48)) src.tail (n - 1)
      omega
    · exact le_refl _
    · exact le_refl _

theorem c_decode_hex_le (k : Nat) (src : List Nat) (n : Nat) :
    (c_decode_hex k src n).2 ≤ n := by
  induction k generalizing src n with
  | zero => simp [c_decode_hex]
  | succ k ih =>
    rw [c_decode_hex]
    split_ifs
    · have := ih src.tail (n - 1)
      omega
    · simp
    · exact le_refl _

theorem c_decode_escape_le (c : Nat) (src : List Nat) (n : Nat) (r : List Nat × Nat × Nat)
    (h : c_decode_escape c src n = some r) : r.2.1 ≤ n := by
  have ho := c_decode_octal_le 3 c 0 src n
  have hh := c_decode_hex_le 63 src n
  unfold c_decode_escape at h
  generalize c_decode_octal 3 c 0 src n = ro at h ho
  generalize c_decode_hex 63 src n = rh at h hh
  by_cases h1 : 48 ≤ c ∧ c ≤ 55
  · rw [if_pos h1] at h
    rw [← Option.some.inj h]; exact ho
  rw [if_neg h1] at h
  by_cases h2 : c = 120
  · rw [if_pos h2] at h
    cases hs : strtol16 rh.1 with
    | none => rw [hs] at h; exact absurd h (by simp)
    | some v =>
      rw [hs] at h
      rw [← Option.some.inj h]; exact hh
  rw [if_neg h2] at h
  by_cases h92 : c = 92
  · rw [if_pos h92] at h; rw [← Option.some.inj h]
  rw [if_neg h92] at h
  by_cases h97 : c = 97
  · rw [if_pos h97] at h; rw [← Option.some.inj h]
  rw [if_neg h97] at h
  by_cases h98 : c = 98
  · rw [if_pos h98] at h; rw [← Option.some.inj h]
  rw [if_neg h98] at h
  by_cases h102 : c = 102
  · rw [if_pos h102] at h; rw [← Option.some.inj h]
  rw [if_neg h102] at h
  by_cases h110 : c = 110
  · rw [if_pos h110] at h; rw [← Option.some.inj h]
  rw [if_neg h110] at h
  by_cases h114 : c = 114
  · rw [if_pos h114] at h; rw [← Option.some.inj h]
  rw [if_neg h114] at h
  by_cases h116 : c = 116
  · rw [if_pos h116] at h; rw [← Option.some.inj h]
  rw [if_neg h116] at h
  by_cases h118 : c = 118
  · rw [if_pos h118] at h; rw [← Option.some.inj h]
  rw [if_neg h118] at h
  exact absurd h (by simp)

theorem c_decode_body_lt (src : List Nat) (n : Nat) (r : List Nat × Nat × Nat) (hn : 0 < n)
    (h : c_decode_body src n = some r) : r.2.1 < n := by
  unfold c_decode_body at h
  split_ifs at h
  · have := c_decode_escape_le _ _ _ _ h
    omega
  · simp only [Option.some.injEq] at h
    subst h
    simp only
    omega

theorem c_decode_loop_succ (dstmax fuel : Nat) (src : List Nat) (srclen : Nat) (dst : List Nat)
    (h : srclen ≤ fuel) :
    c_decode_loop dstmax (fuel + 1) src srclen dst = c_decode_loop dstmax fuel src srclen dst := by
  induction fuel generalizing src srclen dst with
  | zero =>
    have : srclen = 0 := by omega
    subst this
    simp [c_decode_loop]
  | succ fuel ih =>
    rw [c_decode_loop]
    conv_rhs => rw [c_decode_loop]
    by_cases hc : srclen > 0 ∧ src.headD 0 ≠ 0
    · rw [if_pos hc, if_pos hc]
      split_ifs
      · rfl
      · cases hb : c_decode_body src srclen with
        | none => rfl
        | some r =>
          obtain ⟨s1, n1, b1⟩ := r
          have := c_decode_body_lt _ _ _ hc.1 hb
          exact ih _ _ _ (by simp only at this; omega)
    · rw [if_neg hc, if_neg hc]

/-- Fuel beyond `srclen` does not change what `c_decode_loop` computes. -/
theorem c_decode_loop_fuel (dstmax fuel : Nat) (src : List Nat) (srclen : Nat) (dst : List Nat)
    (h : srclen ≤ fuel) :
    c_decode_loop dstmax fuel src srclen dst = c_decode_loop dstmax srclen src srclen dst := by
  induction fuel with
  | zero =>
    have : srclen = 0 := by omega
    subst this
    rfl
  | succ fuel ih =>
    rcases Nat.eq_or_lt_of_le h with heq | hlt
    · rw [heq]
    · rw [c_decode_loop_succ _ _ _ _ _ (by omega), ih (by omega)]

theorem obj_iter_next_lt (o : object) (i : Nat) (h : i < o.prop.length) :
    obj_iter_next ⟨o, i⟩ =
      some (⟨o, i + 1⟩, o.prop.getD i [], (o.prop.getD i []).drop (strlen (o.prop.getD i []) + 1)) := by
  unfold obj_iter_next object.prop_len
  have : ¬ (i ≥ o.prop.length) := by omega
  simp only [this, if_false]

theorem obj_iter_next_ge (o : object) (i : Nat) (h : o.prop.length ≤ i) :
    obj_iter_next ⟨o, i⟩ = none := by
  unfold obj_iter_next object.prop_len
  simp only [ge_iff_le, h, if_true]

theorem drop_eq_getD_cons (l : List (List Nat)) (i : Nat) (h : i < l.length) :
    l.drop i = l.getD i [] :: l.drop (i + 1) := by
  rw [List.getD_eq_getElem _ _ h]
  exact List.drop_eq_getElem_cons h

theorem obj_iter_all_eq (o : object) (fuel i : Nat) :
    obj_iter_all fuel ⟨o, i⟩ =
      ((o.prop.drop i).take fuel).map (fun s => (s, s.drop (strlen s + 1))) := by
  induction fuel generalizing i with
  | zero => simp [obj_iter_all]
  | succ fuel ih =>
    rw [obj_iter_all]
    by_cases h : i < o.prop.length
    · rw [obj_iter_next_lt o i h]
      simp only
      rw [ih, drop_eq_getD_cons _ _ h]
      simp
    · rw [obj_iter_next_ge o i (by omega)]
      simp only
      rw [List.drop_eq_nil_of_le (by omega)]
      simp

theorem obj_save_line_eq (sgn : Bool) (name value buf : List Nat)
    (h : obj_save_line sgn name value = some buf) :
    cstr buf = c_encode_str sgn name ++ [61] ++ c_encode_str sgn value ++ [10] := by
  unfold obj_save_line at h
  simp only at h
  cases h1 : c_encode sgn (to_size_t ((obj_line_buf_max : Int) - 1)) name (strlen name) with
  | none => rw [h1] at h; simp at h
  | some out1 =>
    rw [h1] at h
    simp only at h
    split_ifs at h
    cases h2 : c_encode sgn
        (to_size_t ((obj_line_buf_max : Int) - 1 - (out1.length : Int) - 1)) value
        (strlen value) with
    | none => rw [h2] at h; simp at h
    | some out2 =>
      rw [h2] at h
      simp only at h
      split_ifs at h
      simp only [Option.some.injEq] at h
      subst h
      rw [c_encode_eq_str _ _ _ _ h1, c_encode_eq_str _ _ _ _ h2]
      have : c_encode_str sgn name ++ [61] ++ c_encode_str sgn value ++ [10, 0] =
          (c_encode_str sgn name ++ [61] ++ c_encode_str sgn value ++ [10]) ++ 0 :: [] := by
        simp
      rw [this]
      apply cstr_of_ne_zero
      intro x hx
      simp only [List.mem_append, List.mem_singleton] at hx
      rcases hx with ((hx | hx) | hx) | hx
      · exact c_encode_str_ne_zero _ _ x hx
      · omega
      · exact c_encode_str_ne_zero _ _ x hx
      · omega

theorem cstr_END_LINE : cstr END_LINE = END_LINE := by decide

theorem obj_save_loop_eq (sgn : Bool) (o : object) (fuel i : Nat) (f out : List Nat)
    (hf : o.prop.length - i ≤ fuel)
    (h : obj_save_loop sgn fuel ⟨o, i⟩ f = (0, out)) :
    out = f ++ (o.prop.drop i).flatMap (fun s =>
      c_encode_str sgn s ++ [61] ++ c_encode_str sgn (s.drop (strlen s + 1)) ++ [10])
      ++ END_LINE := by
  induction fuel generalizing i f with
  | zero =>
    simp only [obj_save_loop, fputs, cstr_END_LINE, Prod.mk.injEq, true_and] at h
    rw [List.drop_eq_nil_of_le (by omega)]
    simp [h]
  | succ fuel ih =>
    rw [obj_save_loop] at h
    by_cases hi : i < o.prop.length
    · rw [obj_iter_next_lt o i hi] at h
      simp only at h
      cases hl : obj_save_line sgn (o.prop.getD i [])
          ((o.prop.getD i []).drop (strlen (o.prop.getD i []) + 1)) with
      | none =>
        rw [hl] at h
        simp only [Prod.mk.injEq] at h
        omega
      | some buf =>
        rw [hl] at h
        simp only at h
        rw [ih (i + 1) _ (by omega) h, drop_eq_getD_cons _ _ hi]
        simp only [fputs, obj_save_line_eq _ _ _ _ hl, List.flatMap_cons, List.append_assoc]
    · rw [obj_iter_next_ge o i (by omega)] at h
      simp only [fputs, cstr_END_LINE, Prod.mk.injEq, true_and] at h
      rw [List.drop_eq_nil_of_le (by omega)]
      simp [h]

/-- Fuel beyond the number of entries left does not change what `obj_save_loop` computes. -/
theorem obj_save_loop_fuel (sgn : Bool) (o : object) (fuel i : Nat) (f : List Nat)
    (hf : o.prop.length - i ≤ fuel) :
    obj_save_loop sgn fuel ⟨o, i⟩ f = obj_save_loop sgn (o.prop.length - i) ⟨o, i⟩ f := by
  induction fuel generalizing i f with
  | zero =>
    have : o.prop.length - i = 0 := by omega
    rw [this]
  | succ fuel ih =>
    by_cases hi : i < o.prop.length
    · have hlen : o.prop.length - i = (o.prop.length - (i + 1)) + 1 := by omega
      rw [hlen, obj_save_loop, obj_save_loop, obj_iter_next_lt o i hi]
      simp only
      cases obj_save_line sgn (o.prop.getD i [])
          ((o.prop.getD i []).drop (strlen (o.prop.getD i []) + 1)) with
      | none => rfl
      | some buf => exact ih (i + 1) _ (by omega)
    · have : o.prop.length - i = 0 := by omega
      rw [this, obj_save_loop, obj_save_loop, obj_iter_next_ge o i (by omega)]

theorem strcmp_alloc_right (x name value : List Nat) :
    strcmp x (cstr name ++ [0] ++ (cstr value ++ [0])) = strcmp x name := by
  rw [strcmp_neg, strcmp_alloc, ← strcmp_neg]

theorem obj_set_calls_wf (o : object) (calls : List (Bool × Bool × List Nat × List Nat))
    (h : obj_wf o) : obj_wf (obj_set_calls o calls) := by
  induction calls generalizing o with
  | nil => exact h
  | cons c cs ih => exact ih _ (obj_set_wf _ _ _ _ _ h)

theorem obj_set_mem_imp (r m : Bool) (o : object) (name value : List Nat) (hwf : obj_wf o)
    (e : List Nat) (he : e ∈ (obj_set r m o name value).2.prop) :
    e = cstr name ++ [0] ++ (cstr value ++ [0]) ∨ e ∈ o.prop := by
  by_cases h : (obj_set r m o name value).1 = 0
  · rcases (obj_set_mem r m o name value hwf h e).1 he with h1 | h1
    · exact Or.inl h1
    · exact Or.inr h1.1
  · rw [(obj_set_fail r m o name value h).2] at he
    exact Or.inr he

theorem obj_set_calls_mem (o : object) (calls : List (Bool × Bool × List Nat × List Nat))
    (h : obj_wf o) (e : List Nat) (he : e ∈ (obj_set_calls o calls).prop) :
    e ∈ o.prop ∨ ∃ c ∈ calls, e = cstr c.2.2.1 ++ [0] ++ (cstr c.2.2.2 ++ [0]) := by
  induction calls generalizing o with
  | nil => exact Or.inl he
  | cons c cs ih =>
    rcases ih _ (obj_set_wf _ _ _ _ _ h) he with h1 | ⟨c', hc', h1⟩
    · rcases obj_set_mem_imp _ _ _ _ _ h e h1 with h2 | h2
      · exact Or.inr ⟨c, List.mem_cons_self _ _, h2⟩
      · exact Or.inl h2
    · exact Or.inr ⟨c', List.mem_cons_of_mem _ hc', h1⟩

theorem alloc_drop (name value : List Nat) :
    (cstr name ++ [0] ++ (cstr value ++ [0])).drop
      (strlen (cstr name ++ [0] ++ (cstr value ++ [0])) + 1) = cstr value ++ [0] := by
  unfold strlen
  rw [List.append_assoc, List.singleton_append, cstr_append_zero]
  have : cstr name ++ 0 :: (cstr value ++ [0]) = (cstr name ++ [0]) ++ (cstr value ++ [0]) := by
    simp
  rw [this]
  exact List.drop_left' (by simp)

/-- C1 (code at the failing input): the byte 0x01 is written as backslash `1` `0` `0`, the
octal digits least significant first, and `c_decode` reads that text back, most significant
digit first, as the byte 0x40; the text followed by one more character loses that character. -/
theorem c1_roundtrip_breaks_on_octal_escape (char_signed : Bool) :
    c_encode char_signed 16 [1] 1 = some [92, 49, 48, 48] ∧
      c_decode 16 [92, 49, 48, 48] 4 = some [64] ∧
      c_encode char_signed 16 [1, 65] 2 = some [92, 49, 48, 48, 65] ∧
      c_decode 16 [92, 49, 48, 48, 65] 5 = some [64] := by
  cases char_signed <;> decide

/-- C2: on an object built by `obj_set` calls from `obj_new`, after `obj_set(o,k,v1)` and a
successful `obj_set(o,k,v2)`, `obj_get(o,k)` points at the string `v2`;
and `obj_get` returns `NULL` for a key that no call named, before and after the two calls
(with no calls at all the object is the fresh one). -/
theorem c2_get_after_set (calls : List (Bool × Bool × List Nat × List Nat))
    (r1 m1 r2 m2 : Bool) (k v1 v2 k' : List Nat)
    (h2 : (obj_set r2 m2 (obj_set r1 m1 (obj_set_calls obj_new calls) k v1).2 k v2).1 = 0) :
    obj_get (obj_set r2 m2 (obj_set r1 m1 (obj_set_calls obj_new calls) k v1).2 k v2).2 k
        = some (cstr v2 ++ [0]) ∧
      ((∀ c ∈ calls, cstr c.2.2.1 ≠ cstr k') →
        obj_get (obj_set_calls obj_new calls) k' = none) ∧
      ((∀ c ∈ calls, cstr c.2.2.1 ≠ cstr k') → cstr k ≠ cstr k' →
        obj_get (obj_set r2 m2 (obj_set r1 m1 (obj_set_calls obj_new calls) k v1).2 k v2).2 k'
          = none) := by
  have hwf := obj_set_calls_wf obj_new calls obj_new_wf
  have hwf1 := obj_set_wf r1 m1 _ k v1 hwf
  have hwf2 := obj_set_wf r2 m2 _ k v2 hwf1
  have hold : (∀ c ∈ calls, cstr c.2.2.1 ≠ cstr k') →
      ∀ e ∈ (obj_set_calls obj_new calls).prop, strcmp k' e ≠ 0 := by
    intro hk e he
    rcases obj_set_calls_mem obj_new calls obj_new_wf e he with h | ⟨c, hc, rfl⟩
    · simp [obj_new] at h
    · rw [strcmp_alloc_right]
      intro h0
      exact hk c hc ((strcmp_eq_zero_iff _ _).1 h0).symm
  refine ⟨?_, ?_, ?_⟩
  · have hmem := (obj_set_mem r2 m2 _ k v2 hwf1 h2 (cstr k ++ [0] ++ (cstr v2 ++ [0]))).2
      (Or.inl rfl)
    rw [obj_get_eq_some _ k _ hwf2 hmem (by rw [strcmp_alloc_right, strcmp_self]), alloc_drop]
  · intro hk
    exact obj_get_eq_none _ _ hwf (hold hk)
  · intro hk hne
    apply obj_get_eq_none _ _ hwf2
    intro e he
    have hkk : strcmp k' k ≠ 0 := fun h0 => hne ((strcmp_eq_zero_iff _ _).1 h0).symm
    rcases obj_set_mem_imp _ _ _ _ _ hwf1 e he with rfl | he1
    · rw [strcmp_alloc_right]; exact hkk
    · rcases obj_set_mem_imp _ _ _ _ _ hwf e he1 with rfl | he0
      · rw [strcmp_alloc_right]; exact hkk
      · exact hold hk e he0

/-- Witness of C2: after `b=1`, setting `a` to `1` and then to `2` makes `obj_get` of `a` return
`2`, and `z`, never set, is not found. -/
theorem c2_get_after_set_witness :
    obj_get (obj_set true true (obj_set true true
        (obj_set_calls obj_new [(true, true, [98], [49])]) [97] [49]).2 [97] [50]).2 [97]
        = some (cstr [50] ++ [0]) ∧
      ((∀ c ∈ [((true, true, [98], [49]) : Bool × Bool × List Nat × List Nat)],
          cstr c.2.2.1 ≠ cstr [122]) →
        obj_get (obj_set_calls obj_new [(true, true, [98], [49])]) [122] = none) ∧
      ((∀ c ∈ [((true, true, [98], [49]) : Bool × Bool × List Nat × List Nat)],
          cstr c.2.2.1 ≠ cstr [122]) → cstr [97] ≠ cstr [122] →
        obj_get (obj_set true true (obj_set true true
          (obj_set_calls obj_new [(true, true, [98], [49])]) [97] [49]).2 [97] [50]).2 [122]
          = none) :=
  c2_get_after_set [(true, true, [98], [49])] true true true true [97] [49] [50] [122]
    (by decide)

/-- C3: after any sequence of `obj_set` calls from `obj_new` the entries are strictly ascending
by `strcmp` of their keys, no key occurs twice, and calling `obj_iter_next` from `obj_iter_new`
until it returns 0 yields the entries in that order, each with its value pointer. -/
theorem c3_sorted_and_iterated_in_order (calls : List (Bool × Bool × List Nat × List Nat))
    (extra : Nat) :
    (obj_set_calls obj_new calls).prop.Pairwise (fun a b => strcmp a b < 0) ∧
      ((obj_set_calls obj_new calls).prop.map cstr).Nodup ∧
      obj_iter_all ((obj_set_calls obj_new calls).prop_len + extra)
          (obj_iter_new (obj_set_calls obj_new calls))
        = (obj_set_calls obj_new calls).prop.map (fun s => (s, s.drop (strlen s + 1))) ∧
      (obj_iter_all ((obj_set_calls obj_new calls).prop_len + extra)
          (obj_iter_new (obj_set_calls obj_new calls))).Pairwise
        (fun a b => strcmp a.1 b.1 < 0) := by
  have hwf := obj_set_calls_wf obj_new calls obj_new_wf
  have hiter : obj_iter_all ((obj_set_calls obj_new calls).prop_len + extra)
      (obj_iter_new (obj_set_calls obj_new calls))
      = (obj_set_calls obj_new calls).prop.map (fun s => (s, s.drop (strlen s + 1))) := by
    unfold obj_iter_new
    rw [obj_iter_all_eq, List.drop_zero, List.take_of_length_le]
    unfold object.prop_len
    omega
  refine ⟨hwf, ?_, hiter, ?_⟩
  · unfold List.Nodup
    rw [List.pairwise_map]
    exact List.Pairwise.imp (fun {a b} hab heq => by
      have := (strcmp_eq_zero_iff a b).2 heq
      omega) hwf
  · rw [hiter, List.pairwise_map]
    exact hwf

/-- C4: when `obj_save` returns 0 on an object built by `obj_set` calls from `obj_new`, the
stream has grown by exactly one line `c_encode(key)=c_encode(value)\n` per entry, in the order
of the entries, which is ascending by key, followed by `%%END%%\n`; for `a=100`, `b=200` the
bytes are those of `a=100\nb=200\n%%END%%\n`. -/
theorem c4_save_format (char_signed : Bool)
    (calls : List (Bool × Bool × List Nat × List Nat)) (f out : List Nat)
    (h : obj_save char_signed (obj_set_calls obj_new calls) f = (0, out)) :
    out = f ++ (obj_set_calls obj_new calls).prop.flatMap (fun s =>
        c_encode_str char_signed s ++ [61] ++ c_encode_str char_signed (s.drop (strlen s + 1))
          ++ [10]) ++ END_LINE ∧
      (obj_set_calls obj_new calls).prop.Pairwise (fun a b => strcmp a b < 0) ∧
      obj_save char_signed (obj_set_calls obj_new
          [(true, true, [97], [49, 48, 48]), (true, true, [98], [50, 48, 48])]) []
        = (0, [97, 61, 49, 48, 48, 10, 98, 61, 50, 48, 48, 10, 37, 37, 69, 78, 68, 37, 37, 10]) := by
  refine ⟨?_, obj_set_calls_wf obj_new calls obj_new_wf, ?_⟩
  · have := obj_save_loop_eq char_signed (obj_set_calls obj_new calls)
      (obj_set_calls obj_new calls).prop_len 0 f out
      (by unfold object.prop_len; omega) h
    rw [List.drop_zero] at this
    exact this
  · cases char_signed <;> decide

/-- Witness of C4: the object holding `b=200` alone, saved to the empty stream. -/
theorem c4_save_format_witness :
    [98, 61, 50, 48, 48, 10, 37, 37, 69, 78, 68, 37, 37, 10]
        = [] ++ (obj_set_calls obj_new [(true, true, [98], [50, 48, 48])]).prop.flatMap (fun s =>
          c_encode_str true s ++ [61] ++ c_encode_str true (s.drop (strlen s + 1))
            ++ [10]) ++ END_LINE ∧
      (obj_set_calls obj_new [(true, true, [98], [50, 48, 48])]).prop.Pairwise
        (fun a b => strcmp a b < 0) ∧
      obj_save true (obj_set_calls obj_new
          [(true, true, [97], [49, 48, 48]), (true, true, [98], [50, 48, 48])]) []
        = (0, [97, 61, 49, 48, 48, 10, 98, 61, 50, 48, 48, 10, 37, 37, 69, 78, 68, 37, 37, 10]) :=
  c4_save_format true [(true, true, [98], [50, 48, 48])] []
    [98, 61, 50, 48, 48, 10, 37, 37, 69, 78, 68, 37, 37, 10] (by decide)

/-- C5 (code at the failing input): the object holding the key `a` with the one-byte value
0x01 is saved as `a=\100\n%%END%%\n`; `obj_load` of these bytes succeeds, and in the object it
returns `a` has the value `@` (0x40), not 0x01. -/
theorem c5_save_load_changes_value (char_signed : Bool) :
    obj_save char_signed (obj_set_calls obj_new [(true, true, [97], [1])]) []
        = (0, [97, 61, 92, 49, 48, 48, 10, 37, 37, 69, 78, 68, 37, 37, 10]) ∧
      obj_get (obj_set_calls obj_new [(true, true, [97], [1])]) [97] = some [1, 0] ∧
      (obj_load heap_ok [97, 61, 92, 49, 48, 48, 10, 37, 37, 69, 78, 68, 37, 37, 10]).map
        (fun o => obj_get o [97]) = some (some [64, 0]) := by
  cases char_signed <;> decide

theorem fgets_loop_append (n : Nat) (f : List Nat) :
    (fgets_loop n f).1 ++ (fgets_loop n f).2 = f := by
  induction n generalizing f with
  | zero => simp [fgets_loop]
  | succ n ih =>
    cases f with
    | nil => simp [fgets_loop]
    | cons c f =>
      rw [fgets_loop]
      split_ifs
      · simp
      · simp [ih f]

theorem fgets_loop_ne_nil (n : Nat) (f : List Nat) (hn : 0 < n) (hf : f ≠ []) :
    (fgets_loop n f).1 ≠ [] := by
  cases n with
  | zero => omega
  | succ n =>
    cases f with
    | nil => exact absurd rfl hf
    | cons c f =>
      rw [fgets_loop]
      split_ifs <;> simp

theorem fgets_loop_strrchr (n : Nat) (f : List Nat) (e : Nat)
    (h : strrchr ((fgets_loop n f).1 ++ [0]) 10 = some e) :
    ∃ body, (fgets_loop n f).1 = body ++ [10] ∧ (∀ x ∈ body, x ≠ 0 ∧ x ≠ 10) ∧
      e = body.length := by
  induction n generalizing f e with
  | zero => simp [fgets_loop, strrchr] at h
  | succ n ih =>
    cases f with
    | nil => simp [fgets_loop, strrchr] at h
    | cons c f =>
      rw [fgets_loop] at h ⊢
      by_cases hc : c = 10
      · subst hc
        simp only [if_true] at h ⊢
        refine ⟨[], rfl, by simp, ?_⟩
        simpa [strrchr, eq_comm] using h
      · simp only [hc, if_false] at h ⊢
        simp only [List.cons_append, strrchr, List.append_eq] at h
        by_cases h0 : c = 0
        · simp [h0] at h
        · simp only [h0, if_false] at h
          cases hr : strrchr ((fgets_loop n f).1 ++ [0]) 10 with
          | none => rw [hr] at h; simp [hc] at h
          | some i =>
            rw [hr] at h
            simp only [Option.some.injEq] at h
            obtain ⟨body, hb1, hb2, hb3⟩ := ih f i hr
            refine ⟨c :: body, by rw [hb1]; rfl, ?_, by simp; omega⟩
            intro x hx
            rcases List.mem_cons.1 hx with rfl | hx
            · exact ⟨h0, hc⟩
            · exact hb2 x hx

theorem stream_lines_cons_line (body rest : List Nat) (h : ∀ x ∈ body, x ≠ 10) :
    stream_lines (body ++ 10 :: rest) = (body ++ [10]) :: stream_lines rest := by
  induction body with
  | nil => simp [stream_lines]
  | cons c body ih =>
    have hc : c ≠ 10 := h c (List.mem_cons_self _ _)
    have := ih (fun x hx => h x (List.mem_cons_of_mem _ hx))
    simp only [List.cons_append, stream_lines, hc, if_false, List.append_eq, this]

theorem set_length_append (body r : List Nat) (x y : Nat) :
    (body ++ x :: r).set body.length y = body ++ y :: r := by
  induction body with
  | nil => rfl
  | cons c body ih => simp [ih]

theorem strchr_split (body r : List Nat) (h0 : ∀ x ∈ body, x ≠ 0) (v : Nat)
    (h : strchr (body ++ 0 :: r) 61 = some v) :
    ∃ k val, body = k ++ 61 :: val ∧ (∀ x ∈ k, x ≠ 61) ∧ v = k.length := by
  induction body generalizing v with
  | nil => simp [strchr] at h
  | cons c body ih =>
    simp only [List.cons_append, strchr, List.append_eq] at h
    by_cases hc : c = 61
    · subst hc
      simp only [if_true, Option.some.injEq] at h
      exact ⟨[], body, rfl, by simp, by simpa [eq_comm] using h⟩
    · have hc0 : c ≠ 0 := h0 c (List.mem_cons_self _ _)
      simp only [hc, hc0, if_false] at h
      cases hs : strchr (body ++ 0 :: r) 61 with
      | none => rw [hs] at h; simp at h
      | some i =>
        rw [hs] at h
        simp only [Option.map_some', Option.some.injEq] at h
        obtain ⟨k, val, hb, hk, hi⟩ := ih (fun x hx => h0 x (List.mem_cons_of_mem _ hx)) i hs
        refine ⟨c :: k, val, by rw [hb]; rfl, ?_, by simp; omega⟩
        intro x hx
        rcases List.mem_cons.1 hx with rfl | hx
        · exact hc
        · exact hk x hx

theorem strrchr_isSome_of_line (alloc : Bool × Bool) (buf : List Nat) (o : object)
    (r : Bool × object) (h : obj_load_line alloc buf o = some r) :
    ∃ e, strrchr buf 10 = some e := by
  unfold obj_load_line at h
  cases hs : strrchr buf 10 with
  | none => rw [hs] at h; simp at h
  | some e => exact ⟨e, rfl⟩

theorem strlen_of_ne_zero (s r : List Nat) (h : ∀ x ∈ s, x ≠ 0) :
    strlen (s ++ 0 :: r) = s.length := by
  unfold strlen
  rw [cstr_of_ne_zero s r h]

theorem cstr_END_TAG : cstr END_TAG = END_TAG := by decide

theorem obj_load_line_body (alloc : Bool × Bool) (body : List Nat) (o : object)
    (r : Bool × object) (e : Nat) (hb : ∀ x ∈ body, x ≠ 0 ∧ x ≠ 10)
    (he : strrchr (body ++ [10] ++ [0]) 10 = some e) (hlen : e = body.length)
    (h : obj_load_line alloc (body ++ [10] ++ [0]) o = some r) :
    (r.1 = true → body = END_TAG ∧ r.2 = o) ∧
      (r.1 = false → body ≠ END_TAG ∧ ∃ k val, body = k ++ 61 :: val ∧ (∀ x ∈ k, x ≠ 61) ∧
        c_decode (k.length + 1) (k ++ 0 :: (val ++ [0, 0])) (k.length + 1) ≠ none ∧
        c_decode (val.length + 1) (val ++ [0, 0]) (val.length + 1) ≠ none) := by
  have hb0 : ∀ x ∈ body, x ≠ 0 := fun x hx => (hb x hx).1
  unfold obj_load_line at h
  rw [he] at h
  simp only at h
  subst hlen
  have hset : (body ++ [10] ++ [0]).set body.length 0 = body ++ 0 :: [0] := by
    rw [List.append_assoc, List.singleton_append, set_length_append]
  rw [hset] at h
  by_cases hend : strcmp END_TAG (body ++ 0 :: [0]) = 0
  · rw [if_pos hend] at h
    have h1 := (strcmp_eq_zero_iff _ _).1 hend
    rw [cstr_of_ne_zero body [0] hb0, cstr_END_TAG] at h1
    rw [← Option.some.inj h]
    exact ⟨fun _ => ⟨h1.symm, rfl⟩, fun hf => by simp at hf⟩
  · rw [if_neg hend] at h
    have hne : body ≠ END_TAG := by
      intro heq
      apply hend
      rw [(strcmp_eq_zero_iff _ _), cstr_of_ne_zero body [0] hb0, cstr_END_TAG, heq]
    cases hs : strchr (body ++ 0 :: [0]) 61 with
    | none => rw [hs] at h; simp at h
    | some v =>
      rw [hs] at h
      simp only at h
      obtain ⟨k, val, hkv, hk, hv⟩ := strchr_split body [0] hb0 v hs
      subst hv
      have hk0 : ∀ x ∈ k, x ≠ 0 := fun x hx => hb0 x (by rw [hkv]; simp [hx])
      have hval0 : ∀ x ∈ val, x ≠ 0 := fun x hx => hb0 x (by rw [hkv]; simp [hx])
      have hset2 : (body ++ 0 :: [0]).set k.length 0 = k ++ 0 :: (val ++ [0, 0]) := by
        rw [hkv, List.append_assoc, List.cons_append, set_length_append]
      rw [hset2] at h
      have hdrop : (k ++ 0 :: (val ++ [0, 0])).drop (k.length + 1) = val ++ [0, 0] := by
        have : k ++ 0 :: (val ++ [0, 0]) = (k ++ [0]) ++ (val ++ [0, 0]) := by simp
        rw [this]
        exact List.drop_left' (by simp)
      rw [hdrop, strlen_of_ne_zero k _ hk0] at h
      have hsl : strlen (val ++ [0, 0]) = val.length := strlen_of_ne_zero val [0] hval0
      rw [hsl] at h
      cases hd1 : c_decode (k.length + 1) (k ++ 0 :: (val ++ [0, 0])) (k.length + 1) with
      | none => rw [hd1] at h; simp at h
      | some name =>
        rw [hd1] at h
        simp only at h
        cases hd2 : c_decode (val.length + 1) (val ++ [0, 0]) (val.length + 1) with
        | none => rw [hd2] at h; simp at h
        | some value =>
          rw [hd2] at h
          simp only at h
          split_ifs at h
          rw [← Option.some.inj h]
          refine ⟨fun hf => by simp at hf, fun _ => ⟨hne, k, val, hkv, hk, ?_, ?_⟩⟩
          · rw [hd1]; exact Option.some_ne_none _
          · rw [hd2]; exact Option.some_ne_none _

theorem fgets_some (f : List Nat) (hf : f ≠ []) :
    fgets obj_line_buf_max f =
      some ((fgets_loop (obj_line_buf_max - 1) f).1 ++ [0],
        (fgets_loop (obj_line_buf_max - 1) f).2) := by
  unfold fgets
  rw [if_neg hf]

theorem obj_load_loop_some (heap : Nat → Bool × Bool) (fuel : Nat) (f : List Nat) (o : object)
    (line : Nat) (o' : object) (h : obj_load_loop heap fuel f o line = some o') :
    ∃ pre rest, stream_lines f = pre ++ END_LINE :: rest ∧
      ∀ l ∈ pre, l ≠ END_LINE ∧ ∃ k val, l = k ++ 61 :: val ++ [10] ∧ (∀ x ∈ k, x ≠ 61) ∧
        c_decode (k.length + 1) (k ++ 0 :: (val ++ [0, 0])) (k.length + 1) ≠ none ∧
        c_decode (val.length + 1) (val ++ [0, 0]) (val.length + 1) ≠ none := by
  induction fuel generalizing f o line with
  | zero => simp [obj_load_loop] at h
  | succ fuel ih =>
    rw [obj_load_loop] at h
    by_cases hf : f = []
    · subst hf
      simp [fgets] at h
    · rw [fgets_some f hf] at h
      simp only at h
      cases hl : obj_load_line (heap (line + 1))
          ((fgets_loop (obj_line_buf_max - 1) f).1 ++ [0]) o with
      | none => rw [hl] at h; simp at h
      | some r =>
        rw [hl] at h
        obtain ⟨e, he⟩ := strrchr_isSome_of_line _ _ _ _ hl
        obtain ⟨body, hb1, hb2, hb3⟩ := fgets_loop_strrchr _ _ _ he
        have happ := fgets_loop_append (obj_line_buf_max - 1) f
        rw [hb1] at hl he happ
        have hline := obj_load_line_body _ body o r e hb2 he hb3 hl
        generalize (fgets_loop (obj_line_buf_max - 1) f).2 = rest1 at h happ
        have hlines : stream_lines f = (body ++ [10]) :: stream_lines rest1 := by
          rw [← happ, List.append_assoc, List.singleton_append]
          exact stream_lines_cons_line _ _ (fun x hx => (hb2 x hx).2)
        obtain ⟨fin, o1⟩ := r
        cases fin with
        | true =>
          have := (hline.1 rfl).1
          refine ⟨[], stream_lines rest1, ?_, by simp⟩
          rw [hlines, this]
          rfl
        | false =>
          simp only at h
          obtain ⟨pre, rest, hp1, hp2⟩ := ih _ _ _ h
          obtain ⟨hne, k, val, hkv, hk, hd1, hd2⟩ := hline.2 rfl
          refine ⟨(body ++ [10]) :: pre, rest, by rw [hlines, hp1, List.cons_append], ?_⟩
          intro l hl'
          rcases List.mem_cons.1 hl' with rfl | hl'
          · refine ⟨?_, k, val, by rw [hkv], hk, hd1, hd2⟩
            intro heq
            apply hne
            have : body ++ [10] = END_TAG ++ [10] := heq
            exact List.append_cancel_right this
          · exact hp2 l hl'

theorem fgets_loop_rest_lt (n : Nat) (f : List Nat) (hn : 0 < n) (hf : f ≠ []) :
    (fgets_loop n f).2.length < f.length := by
  have h1 := fgets_loop_append n f
  have h2 := fgets_loop_ne_nil n f hn hf
  have h3 : ((fgets_loop n f).1 ++ (fgets_loop n f).2).length = f.length := by rw [h1]
  rw [List.length_append] at h3
  have : 0 < (fgets_loop n f).1.length := List.length_pos.2 h2
  omega

theorem obj_load_loop_succ (heap : Nat → Bool × Bool) (fuel : Nat) (f : List Nat) (o : object)
    (line : Nat) (h : f.length ≤ fuel) :
    obj_load_loop heap (fuel + 1) f o line = obj_load_loop heap fuel f o line := by
  induction fuel generalizing f o line with
  | zero =>
    have : f = [] := List.length_eq_zero.1 (by omega)
    subst this
    simp [obj_load_loop, fgets]
  | succ fuel ih =>
    rw [obj_load_loop]
    conv_rhs => rw [obj_load_loop]
    by_cases hf : f = []
    · subst hf
      simp [fgets]
    · rw [fgets_some f hf]
      simp only
      have hlt := fgets_loop_rest_lt (obj_line_buf_max - 1) f (by decide) hf
      cases obj_load_line (heap (line + 1))
          ((fgets_loop (obj_line_buf_max - 1) f).1 ++ [0]) o with
      | none => rfl
      | some r =>
        obtain ⟨fin, o1⟩ := r
        cases fin with
        | true => rfl
        | false => exact ih _ _ _ (by omega)

/-- Fuel beyond the length of the stream does not change what `obj_load_loop` computes. -/
theorem obj_load_loop_fuel (heap : Nat → Bool × Bool) (fuel : Nat) (f : List Nat) (o : object)
    (line : Nat) (h : f.length ≤ fuel) :
    obj_load_loop heap fuel f o line = obj_load_loop heap f.length f o line := by
  induction fuel with
  | zero =>
    have : f.length = 0 := by omega
    rw [this]
  | succ fuel ih =>
    rcases Nat.eq_or_lt_of_le h with heq | hlt
    · rw [heq]
    · rw [obj_load_loop_succ _ _ _ _ _ (by omega), ih (by omega)]

/-- C6 (claim as stated is false): the stream `%%END%%\nx=1\n` ends with the line `x=1\n`, not
with the marker line, and `obj_load` returns an object for it. -/
theorem c6_trailing_lines_accepted :
    ¬ ∀ (heap : Nat → Bool × Bool) (f : List Nat),
      (stream_lines f).getLast? ≠ some END_LINE → obj_load heap f = none := by
  intro h
  have h1 := h heap_ok (END_LINE ++ [120, 61, 49, 10]) (by decide)
  revert h1
  decide

/-- C6 (amended): a stream none of whose lines is exactly `%%END%%\n`, the empty stream
included, makes `obj_load` return `NULL`. -/
theorem c6_no_end_line_fails (heap : Nat → Bool × Bool) (f : List Nat)
    (h : ∀ l ∈ stream_lines f, l ≠ END_LINE) : obj_load heap f = none := by
  cases hl : obj_load heap f with
  | none => rfl
  | some o =>
    obtain ⟨pre, rest, hp, _⟩ := obj_load_loop_some heap _ _ _ _ _ hl
    exact absurd rfl (h END_LINE (by rw [hp]; simp))

/-- Witness of C6 (amended): the stream `a=1\n` has no marker line and is rejected. -/
theorem c6_no_end_line_fails_witness :
    (∀ l ∈ stream_lines [97, 61, 49, 10], l ≠ END_LINE) ∧
      obj_load heap_ok [97, 61, 49, 10] = none :=
  ⟨by decide, c6_no_end_line_fails heap_ok [97, 61, 49, 10] (by decide)⟩

/-- C7: when `obj_load` returns an object, the stream has a first `%%END%%\n` line and every
line before it ends in a newline, has a first `=` splitting it into a key half and a value
half, and both `c_decode` calls made for it (on the key half and on the value half, each with
the memory that follows it in the line buffer) succeed; otherwise `obj_load` returns `NULL`. -/
theorem c7_load_all_or_nothing (heap : Nat → Bool × Bool) (f : List Nat) (o : object)
    (h : obj_load heap f = some o) :
    ∃ pre rest, stream_lines f = pre ++ END_LINE :: rest ∧
      ∀ l ∈ pre, l ≠ END_LINE ∧ ∃ k val, l = k ++ 61 :: val ++ [10] ∧ (∀ x ∈ k, x ≠ 61) ∧
        c_decode (k.length + 1) (k ++ 0 :: (val ++ [0, 0])) (k.length + 1) ≠ none ∧
        c_decode (val.length + 1) (val ++ [0, 0]) (val.length + 1) ≠ none :=
  obj_load_loop_some heap _ _ _ _ _ h

/-- Witness of C7: the stream `a=1\n%%END%%\n` loads. -/
theorem c7_load_all_or_nothing_witness :
    ∃ pre rest, stream_lines [97, 61, 49, 10, 37, 37, 69, 78, 68, 37, 37, 10]
        = pre ++ END_LINE :: rest ∧
      ∀ l ∈ pre, l ≠ END_LINE ∧ ∃ k val, l = k ++ 61 :: val ++ [10] ∧ (∀ x ∈ k, x ≠ 61) ∧
        c_decode (k.length + 1) (k ++ 0 :: (val ++ [0, 0])) (k.length + 1) ≠ none ∧
        c_decode (val.length + 1) (val ++ [0, 0]) (val.length + 1) ≠ none :=
  c7_load_all_or_nothing heap_ok [97, 61, 49, 10, 37, 37, 69, 78, 68, 37, 37, 10]
    (obj_set true true obj_new [97, 0] [49, 0]).2 (by decide)

theorem store_heap_same (w : world) (p : Nat) (o : heap_obj) : (w.store p o).heap p = o := by
  simp [world.store]

theorem sockset_heap (fd : Int) (events : Nat) (w : world) :
    (sockset fd events w).2.heap = w.heap := by
  unfold sockset
  split_ifs <;> rfl

theorem to_int_small (n : Nat) (h : n < 2 ^ 31) : to_int n = (n : Int) := by
  unfold to_int
  have h1 : n % 2 ^ 32 = n := Nat.mod_eq_of_lt (by omega)
  rw [h1, if_pos h]

/-- C8 (claim as stated is false): on a freshly initialised connection (`outbuf_len` 0,
`outbuf_max` 16384) a text of 16385 bytes makes `connection_vprintf` return -1 and leaves
`outbuf_len` at 16384, not at 0. -/
theorem c8_overflow_changes_outbuf_len :
    (server_at (connection_init 7 4 (world_init.store 7 (.server server_zero))) 7).map
        (fun s => s.c.outbuf_len) = some 0 ∧
      (connection_vprintf 7 (List.replicate 16385 65)
        (connection_init 7 4 (world_init.store 7 (.server server_zero)))).1 = -1 ∧
      (server_at (connection_vprintf 7 (List.replicate 16385 65)
        (connection_init 7 4 (world_init.store 7 (.server server_zero)))).2 7).map
        (fun s => s.c.outbuf_len) = some 16384 := by
  decide!

/-- C8 (amended): for a connection with `outbuf_len ≤ outbuf_max` and a text longer than the
remaining output capacity, `connection_vprintf` returns -1 and leaves `outbuf_len` equal to
`outbuf_max`: the buffer is marked full. -/
theorem c8_overflow_marks_buffer_full (p : Nat) (text : List Nat) (w : world) (s : server)
    (hp : w.heap p = .server s) (hmax : s.c.outbuf_max < 2 ^ 31)
    (hlen : s.c.outbuf_len ≤ s.c.outbuf_max)
    (h : text.length > s.c.outbuf_max - s.c.outbuf_len) :
    (connection_vprintf p text w).1 = -1 ∧
      (server_at (connection_vprintf p text w).2 p).map (fun s => s.c.outbuf_len)
        = some s.c.outbuf_max := by
  unfold connection_vprintf
  rw [hp]
  simp only
  rw [to_int_small _ hmax, to_int_small _ (by omega)]
  by_cases hrem : (s.c.outbuf_max : Int) - (s.c.outbuf_len : Int) > 0
  · rw [if_pos hrem]
    have hnot : ¬ ((text.length : Int) ≤ (s.c.outbuf_max : Int) - (s.c.outbuf_len : Int)) := by
      omega
    simp only [hnot, if_false]
    refine ⟨trivial, ?_⟩
    unfold server_at
    rw [sockset_heap, store_heap_same]
    rfl
  · rw [if_neg hrem]
    refine ⟨rfl, ?_⟩
    unfold server_at
    simp only [hp, Option.map_some', Option.some.injEq]
    omega

/-- Witness of C8 (amended): a connection holding 3 of 4 bytes, and a text of 5 bytes. -/
theorem c8_overflow_marks_buffer_full_witness :
    (connection_vprintf 7 [65, 66, 67, 68, 69] (world_init.store 7 (.server
        { server_zero with c := { server_zero.c with outbuf_len := 3, outbuf_max := 4 } }))).1
        = -1 ∧
      (server_at (connection_vprintf 7 [65, 66, 67, 68, 69] (world_init.store 7 (.server
        { server_zero with c := { server_zero.c with outbuf_len := 3, outbuf_max := 4 } }))).2
        7).map (fun s => s.c.outbuf_len)
        = some ({ server_zero with
            c := { server_zero.c with outbuf_len := 3, outbuf_max := 4 } } : server).c.outbuf_max :=
  c8_overflow_marks_buffer_full 7 [65, 66, 67, 68, 69] _ _ (store_heap_same _ _ _)
    (by decide) (by decide) (by decide)

theorem RETAIN_sockets (p : Nat) (w : world) : (RETAIN p w).sockets = w.sockets := by
  unfold RETAIN
  cases (w.heap p).base <;> rfl

theorem RELEASE_sockets (do_free : Nat → world → world)
    (hf : ∀ q v, (do_free q v).sockets = v.sockets) (p : Nat) (w : world) :
    (RELEASE do_free p w).sockets = w.sockets := by
  unfold RELEASE
  cases (w.heap p).base with
  | none => rfl
  | some b =>
    simp only
    split_ifs
    · rw [hf]; rfl
    · rfl

theorem ready_kept_of_sockets_eq (rfds wfds : List Int) (v v1 : world) (hv : sockets_wf v)
    (h : v1.sockets = v.sockets) : ready_kept rfds wfds v v1 := by
  refine ⟨?_, fun i _ => by rw [h]⟩
  intro i p hp
  rw [h] at hp ⊢
  exact hv i p hp

theorem ready_kept_trans (rfds wfds : List Int) (a b c : world) (h1 : ready_kept rfds wfds a b)
    (h2 : ready_kept rfds wfds b c) : ready_kept rfds wfds a c :=
  ⟨h2.1, fun i hi => by rw [h2.2 i hi, h1.2 i hi]⟩

theorem RELEASE_kept (rfds wfds : List Int) (do_free : Nat → world → world)
    (hf : ∀ q v, sockets_wf v → ready_kept rfds wfds v (do_free q v)) (p : Nat) (w : world)
    (hw : sockets_wf w) : ready_kept rfds wfds w (RELEASE do_free p w) := by
  unfold RELEASE
  cases (w.heap p).base with
  | none => exact ready_kept_of_sockets_eq _ _ _ _ hw rfl
  | some b =>
    simp only
    have h3 : ready_kept rfds wfds w
        (w.store p ((w.heap p).set_base { b with rc := b.rc - 1 })) :=
      ready_kept_of_sockets_eq _ _ _ _ hw rfl
    split_ifs
    · exact ready_kept_trans _ _ _ _ _ h3 (hf p _ h3.1)
    · exact h3

theorem sockpoll_step_kept (run_event : event_fn → Int → Nat → Nat → world → world)
    (run_free : free_fn → Nat → world → world) (rfds wfds : List Int)
    (hev : ∀ f fd p ev v, sockets_wf v → ready_kept rfds wfds v (run_event f fd p ev v))
    (hfr : ∀ f p v, sockets_wf v → ready_kept rfds wfds v (run_free f p v)) (i : Nat)
    (w : world) (hw : sockets_wf w) :
    ready_kept rfds wfds w (sockpoll_step run_event run_free rfds wfds i w).1 := by
  have hrefl : ready_kept rfds wfds w w := ready_kept_of_sockets_eq _ _ _ _ hw rfl
  unfold sockpoll_step
  cases (w.sockets i).ptr with
  | none => exact hrefl
  | some p =>
    simp only
    by_cases hfd : (w.sockets i).fd = INVALID_SOCKET
    · rw [if_pos hfd]; exact hrefl
    · rw [if_neg hfd]
      generalize ((if FD_ISSET (w.sockets i).fd rfds then EVENT_READ else 0) |||
        (if FD_ISSET (w.sockets i).fd wfds then EVENT_WRITE else 0)) = event
      by_cases hz : event ≠ 0
      · rw [if_pos hz]
        simp only
        have h1 : ready_kept rfds wfds w (RETAIN p w) :=
          ready_kept_of_sockets_eq _ _ _ _ hw (RETAIN_sockets p w)
        have h2 : ready_kept rfds wfds w
            (match ((RETAIN p w).heap p).base.bind (fun b => b.event) with
              | none => RETAIN p w
              | some f => run_event f (w.sockets i).fd p event (RETAIN p w)) := by
          cases ((RETAIN p w).heap p).base.bind (fun b => b.event) with
          | none => exact h1
          | some f => exact ready_kept_trans _ _ _ _ _ h1 (hev f _ p event _ h1.1)
        apply ready_kept_trans _ _ _ _ _ h2
        apply RELEASE_kept _ _ _ _ _ _ h2.1
        intro q v hv
        cases (v.heap q).base.bind (fun b => b.free) with
        | none => exact ready_kept_of_sockets_eq _ _ _ _ hv rfl
        | some f => exact hfr f q v hv
      · rw [if_neg hz]; exact hrefl

theorem sockpoll_step_call (run_event : event_fn → Int → Nat → Nat → world → world)
    (run_free : free_fn → Nat → world → world) (rfds wfds : List Int) (i : Nat) (w : world) :
    (sockpoll_step run_event run_free rfds wfds i w).2 = sockpoll_call w.sockets rfds wfds i := by
  unfold sockpoll_step sockpoll_call
  cases (w.sockets i).ptr with
  | none => rfl
  | some p =>
    simp only
    by_cases hfd : (w.sockets i).fd = INVALID_SOCKET
    · rw [if_pos hfd, if_pos hfd]
    · rw [if_neg hfd, if_neg hfd]
      generalize ((if FD_ISSET (w.sockets i).fd rfds then EVENT_READ else 0) |||
        (if FD_ISSET (w.sockets i).fd wfds then EVENT_WRITE else 0)) = event
      by_cases hz : event ≠ 0
      · rw [if_pos hz, if_pos hz]
      · rw [if_neg hz, if_neg hz]

theorem sockpoll_call_not_ready (rfds wfds : List Int) (v : world) (hv : sockets_wf v)
    (i : Nat) (h : ¬ ((i : Int) ∈ rfds ∨ (i : Int) ∈ wfds)) :
    sockpoll_call v.sockets rfds wfds i = none := by
  unfold sockpoll_call
  cases hp : (v.sockets i).ptr with
  | none => rfl
  | some p =>
    simp only
    rw [hv i p hp]
    have h1 : (i : Int) ∉ rfds := fun h1 => h (Or.inl h1)
    have h2 : (i : Int) ∉ wfds := fun h2 => h (Or.inr h2)
    simp [FD_ISSET, h1, h2]

theorem sockpoll_call_kept (rfds wfds : List Int) (w v : world) (hw : sockets_wf w)
    (h : ready_kept rfds wfds w v) (i : Nat) :
    sockpoll_call v.sockets rfds wfds i = sockpoll_call w.sockets rfds wfds i := by
  by_cases hr : (i : Int) ∈ rfds ∨ (i : Int) ∈ wfds
  · unfold sockpoll_call
    rw [h.2 i hr]
  · rw [sockpoll_call_not_ready _ _ _ h.1 i hr, sockpoll_call_not_ready _ _ _ hw i hr]

theorem sockpoll_loop_trace (run_event : event_fn → Int → Nat → Nat → world → world)
    (run_free : free_fn → Nat → world → world) (rfds wfds : List Int)
    (hev : ∀ f fd p ev v, sockets_wf v → ready_kept rfds wfds v (run_event f fd p ev v))
    (hfr : ∀ f p v, sockets_wf v → ready_kept rfds wfds v (run_free f p v)) (n i : Nat)
    (w v : world) (hw : sockets_wf w) (hv : ready_kept rfds wfds w v) :
    (sockpoll_loop run_event run_free rfds wfds n i v).2
      = (List.range' i n).filterMap (sockpoll_call w.sockets rfds wfds) := by
  induction n generalizing i v with
  | zero => rfl
  | succ n ih =>
    rw [sockpoll_loop]
    simp only
    have h1 := sockpoll_step_kept run_event run_free rfds wfds hev hfr i v hv.1
    rw [ih (i + 1) _ (ready_kept_trans _ _ _ _ _ hv h1), sockpoll_step_call,
      sockpoll_call_kept _ _ _ _ hw hv, List.range'_succ, List.filterMap_cons]
    cases sockpoll_call w.sockets rfds wfds i <;> rfl

theorem event_bits_ne_zero (a b : Bool) :
    ((if a then EVENT_READ else 0) ||| (if b then EVENT_WRITE else 0)) ≠ 0 ↔
      (a = true ∨ b = true) := by
  cases a <;> cases b <;> decide

theorem filter_filterMap_fst (g : Nat → Option (Int × Nat × Nat))
    (hg : ∀ j c, g j = some c → c.1 = (j : Int)) (i : Nat) (l : List Nat) (hl : l.Nodup) :
    (l.filterMap g).filter (fun c => decide (c.1 = (i : Int)))
      = if i ∈ l then (g i).toList else [] := by
  induction l with
  | nil => rfl
  | cons j l ih =>
    have hnd := List.nodup_cons.1 hl
    rw [List.filterMap_cons]
    by_cases hji : j = i
    · subst hji
      have hnot : j ∉ l := hnd.1
      have ih' := ih hnd.2
      rw [if_neg hnot] at ih'
      cases hgj : g j with
      | none => simp [ih']
      | some c =>
        have := hg j c hgj
        simp [List.filter_cons, this, ih']
    · have ih' := ih hnd.2
      cases hgj : g j with
      | none =>
        simp only [ih', List.mem_cons]
        have : (i = j ∨ i ∈ l) ↔ i ∈ l := by
          constructor
          · rintro (h | h)
            · exact absurd h.symm hji
            · exact h
          · exact Or.inr
        simp only [this]
      | some c =>
        have hc := hg j c hgj
        have hne : ¬ (c.1 = (i : Int)) := by rw [hc]; omega
        simp only [List.filter_cons, hne, decide_False, ih', List.mem_cons]
        have : (i = j ∨ i ∈ l) ↔ i ∈ l := by
          constructor
          · rintro (h | h)
            · exact absurd h.symm hji
            · exact h
          · exact Or.inr
        simp [this]

theorem sockclose_sockets (fd : Int) (w : world) : (sockclose fd w).sockets = w.sockets := by
  unfold sockclose
  split_ifs <;> rfl

theorem sockclr_sockets (fd : Int) (events : Nat) (w : world) :
    (sockclr fd events w).2.sockets = w.sockets := by
  unfold sockclr
  split_ifs <;> rfl

theorem server_close_sockets (p : Nat) (w : world) : (server_close p w).sockets = w.sockets := by
  unfold server_close
  cases w.heap p with
  | unmapped => rfl
  | service s => rfl
  | server s =>
    simp only
    split_ifs
    · show (sockclose _ _).sockets = _
      rw [sockclose_sockets]
    · rfl

theorem server_event_write_sockets (e : Int) (fd : Int) (p : Nat) (w : world) :
    (server_event_write e fd p w).1.sockets = w.sockets := by
  unfold server_event_write
  cases w.heap p with
  | unmapped => rfl
  | service s => rfl
  | server s =>
    simp only
    split_ifs
    all_goals first
      | exact server_close_sockets p w
      | rfl
      | (show (sockclr _ _ _).2.sockets = _; rw [sockclr_sockets]; rfl)

theorem server_event_read_sockets (e : Int) (data : List Nat) (p : Nat) (w : world) :
    (server_event_read e data p w).sockets = w.sockets := by
  unfold server_event_read
  cases w.heap p with
  | unmapped => rfl
  | service s => rfl
  | server s =>
    simp only
    split_ifs
    · exact server_close_sockets p w
    · exact server_close_sockets p w
    · rfl
    · rfl

theorem server_event_sockets (wr rd : Int) (data : List Nat) (fd : Int) (p : Nat) (event : Nat)
    (w : world) : (server_event wr rd data fd p event w).sockets = w.sockets := by
  unfold server_event
  simp only
  split_ifs
  · exact server_event_write_sockets _ _ _ _
  · rw [server_event_read_sockets]; exact server_event_write_sockets _ _ _ _
  · exact server_event_write_sockets _ _ _ _
  · rfl
  · exact server_event_read_sockets _ _ _ _
  · rfl

theorem run_server_event_sockets (wr rd : Int) (data : List Nat) (f : event_fn) (fd : Int)
    (p : Nat) (event : Nat) (w : world) :
    (run_server_event wr rd data f fd p event w).sockets = w.sockets := by
  cases f
  · exact server_event_sockets _ _ _ _ _ _ _
  · rfl

theorem run_server_free_sockets (f : free_fn) (p : Nat) (w : world) :
    (run_server_free f p w).sockets = w.sockets := by
  cases f
  · show (server_free p w).sockets = _
    unfold server_free
    simp only
    cases (server_close p w).heap p with
    | unmapped => exact server_close_sockets p w
    | service s => exact server_close_sockets p w
    | server s => exact server_close_sockets p w
  · rfl

/-- C10 (code at the failing input): on `server_one`, descriptor 4 is readable and `read`
returns 0, or -1. The dispatch invokes the callback once and closes the descriptor, and when
it ends the handle's count is 1 as before, `free` has been called on nothing, and the server is
still allocated, its descriptor field invalid and its environment object at count 1. -/
theorem c10_close_never_frees_server :
    (server_at server_one 10).map (fun s => s.c.sockbase.rc) = some 1 ∧
      (server_one_polled 0).2.2 = [(4, 10, EVENT_READ)] ∧
      (server_one_polled 0).2.1.closed = [4] ∧
      (server_one_polled 0).2.1.freed = [] ∧
      (server_at (server_one_polled 0).2.1 10).map (fun s => (s.c.sockbase.rc, s.c.sockbase.fd,
        s.env.map (fun o => o.rc))) = some (1, -1, some 1) ∧
      (server_one_polled (-1)).2.1.closed = [4] ∧
      (server_one_polled (-1)).2.1.freed = [] ∧
      (server_at (server_one_polled (-1)).2.1 10).map (fun s => (s.c.sockbase.rc,
        s.c.sockbase.fd, s.env.map (fun o => o.rc))) = some (1, -1, some 1) := by
  decide!

/-! ### The encoder and the decoder byte by byte -/

/-- What `c_encode` appends for one byte below 128, whatever the signedness of `char`: the
two-character escapes, the byte itself when printable, else backslash and the three octal
digits of the byte, least significant first. -/
theorem c_encode_char_ascii (char_signed : Bool) :
    ∀ b : Fin 128, c_encode_char char_signed b.val =
      (if b.val = 92 then [92, 92] else if b.val = 7 then [92, 97] else if b.val = 8 then [92, 98]
       else if b.val = 12 then [92, 102] else if b.val = 10 then [92, 110]
       else if b.val = 13 then [92, 114] else if b.val = 9 then [92, 116]
       else if b.val = 11 then [92, 118]
       else if 32 ≤ b.val ∧ b.val ≤ 126 then [b.val]
       else [92, 48 + b.val % 8, 48 + b.val / 8 % 8, 48 + b.val / 64 % 8]) := by
  cases char_signed <;> decide!

/-- With an unsigned `char` every byte from 128 on is written as backslash and its three octal
digits, least significant first. -/
theorem c_encode_char_unsigned_high :
    ∀ b : Fin 128, c_encode_char false (128 + b.val) =
      [92, 48 + (128 + b.val) % 8, 48 + (128 + b.val) / 8 % 8, 48 + (128 + b.val) / 64 % 8] := by
  decide!

/-- C12 (code at the failing input): with a signed `char` the byte 0x80 has the value -128, and
`c_encode` writes backslash `0` `0` `.`; the third character is `'0' + (-2)`, not the octal
digit `2` of 128, which is what an unsigned `char` gives. Below 128 the digits are as claimed. -/
theorem c12_signed_char_breaks_octal_digits :
    c_encode true 16 [128] 1 = some [92, 48, 48, 46] ∧
      [92, 48 + 128 % 8, 48 + 128 / 8 % 8, 48 + 128 / 64 % 8] = [92, 48, 48, 50] ∧
      c_encode false 16 [128] 1 = some [92, 48, 48, 50] ∧
      c_encode true 16 [255] 1 = some [92, 47, 48, 48] ∧
      c_encode true 16 [1] 1 = some [92, 48 + 1 % 8, 48 + 1 / 8 % 8, 48 + 1 / 64 % 8] := by
  decide

/-- C13 (code at the failing input): `c_decode` reads backslash `d0` `d1` `d2` with the first
digit most significant, as `64*d0 + 8*d1 + d2` reduced to a byte; backslash `1` `0` `0` gives
the byte 64, where `d0 + 8*d1 + 64*d2` is 1. -/
theorem c13_octal_read_most_significant_first :
    c_decode 16 [92, 49, 48, 48] 4 = some [64] ∧
      ∀ d0 d1 d2 : Fin 8, c_decode 16 [92, 48 + d0.val, 48 + d1.val, 48 + d2.val] 4
        = some [(64 * d0.val + 8 * d1.val + d2.val) % 256] := by
  decide!

/-- C14 (code at the failing input): for backslash `x` `4` `1` the hex loop consumes the two
digits and `strtol` is then applied to what follows them, which is the end of the text, so the
byte stored is 0, not 0x41; likewise for the one-digit text backslash `x` `4`; followed by
`g12` the escape swallows the `g` and yields 0x12, the value of the text after it. -/
theorem c14_hex_escape_parses_text_after_digits :
    c_decode 16 [92, 120, 52, 49] 4 = some [0] ∧ c_decode 16 [92, 120, 52] 3 = some [0] ∧
      c_decode 16 [92, 120, 52, 49, 103, 49, 50] 7 = some [18, 49, 50] := by
  decide

/-- C15 (code at the failing input): for the one-byte input `a` and `dstmax = 5 = 4*1 + 1` the
remaining capacity before the byte is 5, which is not less than 5 and holds a four-byte unit
and the terminator, yet `c_encode` returns -1; with `dstmax = 6` it succeeds. -/
theorem c15_guard_rejects_exact_fit (char_signed : Bool) :
    c_encode char_signed 5 [97] 1 = none ∧ c_encode char_signed 6 [97] 1 = some [97] ∧
      c_encode char_signed 9 [1, 1] 2 = none := by
  cases char_signed <;> decide

theorem escapable_lt (b : Nat) (h : escapable b = true) : b < 128 ∧ b ≠ 0 := by
  unfold escapable at h
  simp only [Bool.or_eq_true, Bool.and_eq_true, decide_eq_true_eq] at h
  omega

theorem c_decode_escape_two (x b : Nat) (m : List Nat) (k : Nat)
    (h : (x = 92 ∧ b = 92) ∨ (x = 97 ∧ b = 7) ∨ (x = 98 ∧ b = 8) ∨ (x = 102 ∧ b = 12) ∨
      (x = 110 ∧ b = 10) ∨ (x = 114 ∧ b = 13) ∨ (x = 116 ∧ b = 9) ∨ (x = 118 ∧ b = 11)) :
    c_decode_escape x m k = some (m, k, b) := by
  rcases h with h | h | h | h | h | h | h | h <;>
    (obtain ⟨hx, hb⟩ := h; subst hx; subst hb; rfl)

theorem c_encode_char_escapable (sgn : Bool) (b : Nat) (h : escapable b = true) :
    (c_encode_char sgn b = [b] ∧ b ≠ 92) ∨
      ∃ x, c_encode_char sgn b = [92, x] ∧
        ((x = 92 ∧ b = 92) ∨ (x = 97 ∧ b = 7) ∨ (x = 98 ∧ b = 8) ∨ (x = 102 ∧ b = 12) ∨
          (x = 110 ∧ b = 10) ∨ (x = 114 ∧ b = 13) ∨ (x = 116 ∧ b = 9) ∨ (x = 118 ∧ b = 11)) := by
  have key : ∀ c : Fin 128, escapable c.val = true →
      (c_encode_char sgn c.val = [c.val] ∧ c.val ≠ 92) ∨
      ∃ x, c_encode_char sgn c.val = [92, x] ∧
        ((x = 92 ∧ c.val = 92) ∨ (x = 97 ∧ c.val = 7) ∨ (x = 98 ∧ c.val = 8) ∨
          (x = 102 ∧ c.val = 12) ∨ (x = 110 ∧ c.val = 10) ∨ (x = 114 ∧ c.val = 13) ∨
          (x = 116 ∧ c.val = 9) ∨ (x = 118 ∧ c.val = 11)) := by
    intro c hc
    have ht := c_encode_char_ascii sgn c
    have hc' := hc
    unfold escapable at hc'
    simp only [Bool.or_eq_true, Bool.and_eq_true, decide_eq_true_eq] at hc'
    by_cases h92 : c.val = 92
    · right; rw [if_pos h92] at ht; exact ⟨92, ht, Or.inl ⟨rfl, h92⟩⟩
    rw [if_neg h92] at ht
    by_cases h7 : c.val = 7
    · right; rw [if_pos h7] at ht; exact ⟨97, ht, Or.inr (Or.inl ⟨rfl, h7⟩)⟩
    rw [if_neg h7] at ht
    by_cases h8 : c.val = 8
    · right; rw [if_pos h8] at ht; exact ⟨98, ht, Or.inr (Or.inr (Or.inl ⟨rfl, h8⟩))⟩
    rw [if_neg h8] at ht
    by_cases h12 : c.val = 12
    · right; rw [if_pos h12] at ht
      exact ⟨102, ht, Or.inr (Or.inr (Or.inr (Or.inl ⟨rfl, h12⟩)))⟩
    rw [if_neg h12] at ht
    by_cases h10 : c.val = 10
    · right; rw [if_pos h10] at ht
      exact ⟨110, ht, Or.inr (Or.inr (Or.inr (Or.inr (Or.inl ⟨rfl, h10⟩))))⟩
    rw [if_neg h10] at ht
    by_cases h13 : c.val = 13
    · right; rw [if_pos h13] at ht
      exact ⟨114, ht, Or.inr (Or.inr (Or.inr (Or.inr (Or.inr (Or.inl ⟨rfl, h13⟩)))))⟩
    rw [if_neg h13] at ht
    by_cases h9 : c.val = 9
    · right; rw [if_pos h9] at ht
      exact ⟨116, ht, Or.inr (Or.inr (Or.inr (Or.inr (Or.inr (Or.inr (Or.inl ⟨rfl, h9⟩))))))⟩
    rw [if_neg h9] at ht
    by_cases h11 : c.val = 11
    · right; rw [if_pos h11] at ht
      exact ⟨118, ht, Or.inr (Or.inr (Or.inr (Or.inr (Or.inr (Or.inr (Or.inr ⟨rfl, h11⟩))))))⟩
    rw [if_neg h11] at ht
    have hp : 32 ≤ c.val ∧ c.val ≤ 126 := by omega
    rw [if_pos hp] at ht
    exact Or.inl ⟨ht, h92⟩
  exact key ⟨b, (escapable_lt b h).1⟩ h

theorem c_decode_loop_step_escapable (sgn : Bool) (dd fuel b : Nat) (m : List Nat) (k : Nat)
    (dst : List Nat) (hb : escapable b = true) (hd : dst.length + 1 < dd) :
    c_decode_loop dd (fuel + 1) (c_encode_char sgn b ++ m) ((c_encode_char sgn b).length + k) dst
      = c_decode_loop dd fuel m k (dst ++ [b]) := by
  have hb0 := (escapable_lt b hb).2
  have hnot : ¬ (dst.length + 1 ≥ dd) := by omega
  rcases c_encode_char_escapable sgn b hb with ⟨he, h92⟩ | ⟨x, he, hx⟩
  · rw [he, c_decode_loop]
    have hc : (([b] ++ m).length > 0 ∨ True) ∧ ([b].length + k > 0 ∧ ([b] ++ m).headD 0 ≠ 0) :=
      ⟨Or.inr trivial, by simp, by simpa using hb0⟩
    rw [if_pos hc.2, if_neg hnot]
    have hbody : c_decode_body ([b] ++ m) ([b].length + k) = some (m, k, b) := by
      unfold c_decode_body
      have : ¬ (([b] ++ m).headD 0 = 92) := by simpa using h92
      rw [if_neg this]
      simp
    rw [hbody]
  · rw [he, c_decode_loop]
    have hc : [92, x].length + k > 0 ∧ ([92, x] ++ m).headD 0 ≠ 0 := ⟨by simp, by simp⟩
    rw [if_pos hc, if_neg hnot]
    have hbody : c_decode_body ([92, x] ++ m) ([92, x].length + k) = some (m, k, b) := by
      unfold c_decode_body
      have h1 : ([92, x] ++ m).headD 0 = 92 := rfl
      have h2 : ¬ ([92, x].length + k - 1 = 0) := by simp
      rw [if_pos h1, if_neg h2]
      have h3 : ([92, x] ++ m).tail.headD 0 = x := rfl
      have h4 : ([92, x] ++ m).tail.tail = m := rfl
      have h5 : [92, x].length + k - 1 - 1 = k := by simp
      rw [h3, h4, h5]
      exact c_decode_escape_two x b m k hx
    rw [hbody]

theorem c_decode_loop_escapable (sgn : Bool) (dd : Nat) (s : List Nat) :
    ∀ (fuel : Nat) (dst : List Nat), (∀ b ∈ s, escapable b = true) → s.length ≤ fuel →
      dst.length + s.length + 1 ≤ dd →
      c_decode_loop dd fuel (s.flatMap (c_encode_char sgn)) (s.flatMap (c_encode_char sgn)).length
        dst = some (dst ++ s) := by
  induction s with
  | nil =>
    intro fuel dst _ _ _
    cases fuel with
    | zero => simp [c_decode_loop]
    | succ fuel => simp [c_decode_loop]
  | cons b s ih =>
    intro fuel dst hs hf hd
    cases fuel with
    | zero => simp at hf
    | succ fuel =>
      have hb := hs b (List.mem_cons_self _ _)
      rw [List.flatMap_cons, List.length_append,
        c_decode_loop_step_escapable sgn dd fuel b _ _ dst hb (by simp at hd; omega),
        ih fuel (dst ++ [b]) (fun c hc => hs c (List.mem_cons_of_mem _ hc))
          (by simp at hf; omega) (by simp at hd ⊢; omega)]
      simp

theorem flatMap_encode_length (sgn : Bool) (s : List Nat) (hs : ∀ b ∈ s, escapable b = true) :
    s.length ≤ (s.flatMap (c_encode_char sgn)).length := by
  induction s with
  | nil => simp
  | cons b s ih =>
    have hb := hs b (List.mem_cons_self _ _)
    have hl : 1 ≤ (c_encode_char sgn b).length := by
      rcases c_encode_char_escapable sgn b hb with ⟨he, _⟩ | ⟨x, he, _⟩ <;> rw [he] <;> simp
    have := ih (fun c hc => hs c (List.mem_cons_of_mem _ hc))
    simp only [List.flatMap_cons, List.length_append, List.length_cons]
    omega

theorem cstr_eq_self (s : List Nat) (h : ∀ b ∈ s, b ≠ 0) : cstr s = s := by
  have := cstr_of_ne_zero s [] h
  induction s with
  | nil => rfl
  | cons b s ih =>
    have hb : b ≠ 0 := h b (List.mem_cons_self _ _)
    rw [cstr_cons, if_neg hb, ih (fun c hc => h c (List.mem_cons_of_mem _ hc))
      (cstr_of_ne_zero s [] (fun c hc => h c (List.mem_cons_of_mem _ hc)))]

/-- C16: for a byte sequence made of printable ASCII bytes (backslash included) and the seven
control characters 7 to 13, with room for the worst case in both destinations, `c_encode`
writes the concatenation of the per-byte texts, a newline being backslash `n`, and `c_decode`
of that text returns the sequence itself. -/
theorem c16_escapable_roundtrip (char_signed : Bool) (s : List Nat) (de dd : Nat)
    (hs : ∀ b ∈ s, escapable b = true) (hde : 4 * s.length + 2 ≤ de) (hdd : s.length + 1 ≤ dd) :
    c_encode char_signed de s s.length = some (s.flatMap (c_encode_char char_signed)) ∧
      c_encode_char char_signed 10 = [92, 110] ∧
      c_decode dd (s.flatMap (c_encode_char char_signed))
        (s.flatMap (c_encode_char char_signed)).length = some s := by
  refine ⟨?_, by cases char_signed <;> decide, ?_⟩
  · obtain ⟨out, h⟩ := c_encode_loop_some char_signed de s.length s [] (by simp; omega)
    have h2 := c_encode_loop_eq _ _ _ _ _ _ h
    rw [cstr_eq_self s (fun b hb => (escapable_lt b (hs b hb)).2), List.take_length,
      List.nil_append] at h2
    unfold c_encode
    rw [h, h2]
  · unfold c_decode
    have := c_decode_loop_escapable char_signed dd s
      (s.flatMap (c_encode_char char_signed)).length [] hs
      (flatMap_encode_length char_signed s hs) (by simp; omega)
    simpa using this

/-- Witness of C16: the text `a`, newline, backslash, `b`. -/
theorem c16_escapable_roundtrip_witness :
    c_encode true 18 [97, 10, 92, 98] [97, 10, 92, 98].length
        = some ([97, 10, 92, 98].flatMap (c_encode_char true)) ∧
      c_encode_char true 10 = [92, 110] ∧
      c_decode 5 ([97, 10, 92, 98].flatMap (c_encode_char true))
        ([97, 10, 92, 98].flatMap (c_encode_char true)).length = some [97, 10, 92, 98] :=
  c16_escapable_roundtrip true [97, 10, 92, 98] 18 5 (by decide) (by decide) (by decide)

/-! ### The buffers of a connection -/

/-- C17 (code at the failing input): on a freshly initialised connection (`outbuf_len` 0,
`outbuf_max` 16384) a text of exactly 16384 bytes, 16383 times `A` and then `B`, makes
`connection_vprintf` return 16384, a success, and sets `outbuf_len` to 16384; the last of
these bytes in the buffer is the NUL that `vsnprintf` stored, not the `B` of the text. -/
theorem c17_exact_fit_loses_last_byte :
    (connection_vprintf 7 (List.replicate 16383 65 ++ [66])
        (connection_init 7 4 (world_init.store 7 (.server server_zero)))).1 = 16384 ∧
      (List.replicate 16383 65 ++ [66]).getD 16383 7 = 66 ∧
      (server_at (connection_vprintf 7 (List.replicate 16383 65 ++ [66])
        (connection_init 7 4 (world_init.store 7 (.server server_zero)))).2 7).map
        (fun s => (s.c.outbuf_len, s.c.outbuf.getD 16382 7, s.c.outbuf.getD 16383 7))
        = some (16384, 65, 0) := by
  decide!

theorem to_unsigned_small (n : Nat) (h : n < 2 ^ 32) : to_unsigned (n : Int) = n := by
  unfold to_unsigned
  have h1 : ((n : Int) % 2 ^ 32) = (n : Int) := Int.emod_eq_of_lt (by omega) (by omega)
  rw [h1]
  rfl

theorem sockclr_heap (fd : Int) (events : Nat) (w : world) :
    (sockclr fd events w).2.heap = w.heap := by
  unfold sockclr
  split_ifs <;> rfl

theorem server_at_store (w : world) (p : Nat) (s : server) :
    server_at (w.store p (.server s)) p = some s := by
  unfold server_at
  rw [store_heap_same]

theorem server_at_heap (w : world) (p : Nat) (s : server) (h : server_at w p = some s) :
    w.heap p = .server s := by
  unfold server_at at h
  cases hw : w.heap p with
  | unmapped => rw [hw] at h; cases h
  | service s => rw [hw] at h; cases h
  | server s2 => rw [hw] at h; cases h; rfl

theorem server_at_congr (w v : world) (p : Nat) (h : v.heap = w.heap) :
    server_at v p = server_at w p := by
  unfold server_at
  rw [h]

theorem connection_init_inv (p : Nat) (fd : Int) (w : world) (s0 : server)
    (h : server_at w p = some s0) :
    ∃ s, server_at (connection_init p fd w) p = some s ∧ conn_inv s := by
  have hw := server_at_heap w p s0 h
  unfold connection_init
  rw [hw]
  simp only
  rw [server_at_store]
  exact ⟨_, rfl, rfl, rfl, Nat.zero_le _, Nat.zero_le _⟩

theorem server_close_at (p : Nat) (w : world) (s : server) (h : server_at w p = some s) :
    ∃ b, server_at (server_close p w) p = some { s with c := { s.c with sockbase := b } } := by
  have hw := server_at_heap w p s h
  unfold server_close
  rw [hw]
  simp only
  by_cases hfd : s.c.sockbase.fd ≠ INVALID_SOCKET
  · rw [if_pos hfd, server_at_store]
    exact ⟨_, rfl⟩
  · rw [if_neg hfd]
    exact ⟨s.c.sockbase, h⟩

theorem connection_vprintf_inv (p : Nat) (text : List Nat) (w : world) (s : server)
    (h : server_at w p = some s) (hi : conn_inv s) :
    ∃ s1, server_at (connection_vprintf p text w).2 p = some s1 ∧ conn_inv s1 := by
  have hw := server_at_heap w p s h
  obtain ⟨h1, h2, h3, h4⟩ := hi
  unfold connection_vprintf
  rw [hw]
  simp only
  rw [to_int_small _ (by omega), to_int_small _ (by omega)]
  by_cases hrem : (s.c.outbuf_max : Int) - (s.c.outbuf_len : Int) > 0
  · rw [if_pos hrem]
    simp only
    rw [server_at_congr _ _ p (sockset_heap _ _ _), server_at_store]
    by_cases he : (text.length : Int) ≤ (s.c.outbuf_max : Int) - (s.c.outbuf_len : Int)
    · rw [if_pos he]
      refine ⟨_, rfl, h1, h2, h3, ?_⟩
      have hu : to_unsigned ((s.c.outbuf_len : Int) + (text.length : Int))
          = s.c.outbuf_len + text.length := by
        have := to_unsigned_small (s.c.outbuf_len + text.length) (by omega)
        rw [← this]
        push_cast
        rfl
      show to_unsigned ((s.c.outbuf_len : Int) + (text.length : Int)) ≤ 16384
      rw [hu]
      omega
    · rw [if_neg he]
      refine ⟨_, rfl, h1, h2, h3, ?_⟩
      show s.c.outbuf_max ≤ 16384
      omega
  · rw [if_neg hrem]
    exact ⟨s, h, h1, h2, h3, h4⟩

theorem to_unsigned_of_nonneg (z : Int) (n : Nat) (h0 : 0 ≤ z) (h1 : z ≤ (n : Int))
    (hn : n < 2 ^ 32) : to_unsigned z = z.toNat ∧ z.toNat ≤ n := by
  obtain ⟨m, rfl⟩ := Int.eq_ofNat_of_zero_le h0
  have hm : m ≤ n := by omega
  rw [to_unsigned_small m (by omega)]
  exact ⟨rfl, hm⟩

/-- The `EVENT_WRITE` part of `server_event` on a server whose buffer is not empty, `write`
returning `e` with `0 ≤ e ≤ outbuf_len`: the state is the server with the remainder moved to
the front and the length reduced, and the WRITE interest cleared when nothing is left. -/
theorem server_event_write_ok (e : Int) (fd : Int) (p : Nat) (w : world) (s : server)
    (h : server_at w p = some s) (hn : s.c.outbuf_len ≠ 0) (hmax : s.c.outbuf_len < 2 ^ 31)
    (he0 : 0 ≤ e) (he : e ≤ (s.c.outbuf_len : Int)) :
    server_event_write e fd p w =
      (let w1 := w.store p (.server { s with c := { s.c with
          outbuf := if e.toNat < s.c.outbuf_len then
            mem_write s.c.outbuf 0 ((s.c.outbuf.drop e.toNat).take (s.c.outbuf_len - e.toNat))
            else s.c.outbuf,
          outbuf_len := s.c.outbuf_len - e.toNat } })
       if s.c.outbuf_len - e.toNat = 0 then ((sockclr fd EVENT_WRITE w1).2, false)
       else (w1, false)) := by
  have hw := server_at_heap w p s h
  obtain ⟨m, rfl⟩ := Int.eq_ofNat_of_zero_le he0
  have hm : m ≤ s.c.outbuf_len := by omega
  unfold server_event_write
  rw [hw]
  simp only
  rw [if_pos hn, if_neg (by omega), to_int_small _ hmax]
  have hu : to_unsigned ((s.c.outbuf_len : Int) - (m : Int)) = s.c.outbuf_len - m := by
    have := to_unsigned_small (s.c.outbuf_len - m) (by omega)
    rw [← this]
    congr 1
    omega
  rw [hu]
  simp only [Int.toNat_ofNat, Nat.cast_lt]

theorem server_event_write_inv (e : Int) (fd : Int) (p : Nat) (w : world) (s : server)
    (h : server_at w p = some s) (hi : conn_inv s)
    (he : s.c.outbuf_len ≠ 0 → e ≤ (s.c.outbuf_len : Int)) :
    ∃ s1, server_at (server_event_write e fd p w).1 p = some s1 ∧ conn_inv s1 ∧
      s1.c.buflen = s.c.buflen := by
  obtain ⟨h1, h2, h3, h4⟩ := hi
  by_cases hn : s.c.outbuf_len ≠ 0
  · by_cases he0 : 0 ≤ e
    · rw [server_event_write_ok e fd p w s h hn (by omega) he0 (he hn)]
      simp only
      by_cases hz : s.c.outbuf_len - e.toNat = 0
      · rw [if_pos hz]
        simp only
        rw [server_at_congr _ _ p (sockclr_heap _ _ _), server_at_store]
        exact ⟨_, rfl, ⟨h1, h2, h3, by show s.c.outbuf_len - e.toNat ≤ 16384; omega⟩, rfl⟩
      · rw [if_neg hz]
        simp only
        rw [server_at_store]
        exact ⟨_, rfl, ⟨h1, h2, h3, by show s.c.outbuf_len - e.toNat ≤ 16384; omega⟩, rfl⟩
    · have hw := server_at_heap w p s h
      unfold server_event_write
      rw [hw]
      simp only
      rw [if_pos hn, if_pos (by omega)]
      simp only
      obtain ⟨b, hb⟩ := server_close_at p w s h
      exact ⟨_, hb, ⟨h1, h2, h3, h4⟩, rfl⟩
  · have hw := server_at_heap w p s h
    unfold server_event_write
    rw [hw]
    simp only
    rw [if_neg hn]
    exact ⟨s, h, ⟨h1, h2, h3, h4⟩, rfl⟩

theorem server_event_read_inv (e : Int) (data : List Nat) (p : Nat) (w : world) (s : server)
    (h : server_at w p = some s) (hi : conn_inv s)
    (he : to_int s.c.bufmax - to_int s.c.buflen > 0 → e ≤ to_int s.c.bufmax - to_int s.c.buflen) :
    ∃ s1, server_at (server_event_read e data p w) p = some s1 ∧ conn_inv s1 := by
  have hw := server_at_heap w p s h
  obtain ⟨h1, h2, h3, h4⟩ := hi
  rw [to_int_small _ (by omega), to_int_small _ (by omega)] at he
  unfold server_event_read
  rw [hw]
  simp only
  rw [to_int_small _ (by omega), to_int_small _ (by omega)]
  by_cases hrem : (s.c.bufmax : Int) - (s.c.buflen : Int) > 0
  · rw [if_pos hrem]
    obtain ⟨b, hb⟩ := server_close_at p w s h
    by_cases hneg : e < 0
    · rw [if_pos hneg]
      exact ⟨_, hb, ⟨h1, h2, h3, h4⟩⟩
    rw [if_neg hneg]
    by_cases hz : e = 0
    · rw [if_pos hz]
      exact ⟨_, hb, ⟨h1, h2, h3, h4⟩⟩
    rw [if_neg hz, server_at_store]
    have hu := to_unsigned_of_nonneg ((s.c.buflen : Int) + e) 512 (by omega)
      (by have := he hrem; push_cast; omega) (by decide)
    refine ⟨_, rfl, ⟨h1, h2, ?_, h4⟩⟩
    show to_unsigned ((s.c.buflen : Int) + e) ≤ 512
    rw [hu.1]
    exact hu.2
  · rw [if_neg hrem]
    exact ⟨s, h, ⟨h1, h2, h3, h4⟩⟩

theorem conn_step_inv (p : Nat) (op : conn_op) (w : world) (s : server)
    (h : server_at w p = some s) (hi : conn_inv s) (hh : conn_op_honest p op w = true) :
    ∃ s1, server_at (conn_step p op w) p = some s1 ∧ conn_inv s1 := by
  cases op with
  | vprintf text => exact connection_vprintf_inv p text w s h hi
  | event write_ret read_ret data fd event =>
    simp only [conn_op_honest] at hh
    rw [h] at hh
    simp only [Bool.and_eq_true, Bool.or_eq_true, decide_eq_true_eq] at hh
    obtain ⟨hwr, hrd⟩ := hh
    show ∃ s1, server_at (server_event write_ret read_ret data fd p event w) p = some s1 ∧
      conn_inv s1
    unfold server_event
    have key : ∀ (r : world × Bool) (s2 : server), server_at r.1 p = some s2 → conn_inv s2 →
        s2.c.buflen = s.c.buflen →
        ∃ s1, server_at (if r.2 = true then r.1
          else if event &&& EVENT_READ ≠ 0 then server_event_read read_ret data p r.1
          else r.1) p = some s1 ∧ conn_inv s1 := by
      intro r s2 hr hi2 hbl
      by_cases hr2 : r.2 = true
      · rw [if_pos hr2]; exact ⟨s2, hr, hi2⟩
      rw [if_neg hr2]
      by_cases hev : event &&& EVENT_READ ≠ 0
      · rw [if_pos hev]
        have hrd2 : to_int s2.c.bufmax - to_int s2.c.buflen > 0 →
            read_ret ≤ to_int s2.c.bufmax - to_int s2.c.buflen := by
          rw [hbl, hi2.1, ← hi.1]
          intro hpos
          rcases hrd with hrd | hrd
          · omega
          · exact hrd
        exact server_event_read_inv read_ret data p r.1 s2 hr hi2 hrd2
      · rw [if_neg hev]; exact ⟨s2, hr, hi2⟩
    by_cases hev : event &&& EVENT_WRITE ≠ 0
    · simp only [if_pos hev]
      have hwr2 : s.c.outbuf_len ≠ 0 → write_ret ≤ (s.c.outbuf_len : Int) := by
        intro hn
        rcases hwr with (hwr | hwr) | hwr
        · exact absurd hwr hev
        · exact absurd hwr hn
        · exact hwr
      obtain ⟨s2, hs2, hi2, hbl⟩ := server_event_write_inv write_ret fd p w s h hi hwr2
      exact key _ s2 hs2 hi2 hbl
    · simp only [if_neg hev]
      exact key (w, false) s h hi rfl

theorem conn_run_inv (p : Nat) (ops : List conn_op) :
    ∀ (w : world) (s : server), server_at w p = some s → conn_inv s →
      conn_run_honest p ops w = true →
      ∃ s1, server_at (conn_run p ops w) p = some s1 ∧ conn_inv s1 := by
  induction ops with
  | nil => intro w s h hi _; exact ⟨s, h, hi⟩
  | cons op ops ih =>
    intro w s h hi hh
    unfold conn_run_honest at hh
    rw [Bool.and_eq_true] at hh
    obtain ⟨s1, hs1, hi1⟩ := conn_step_inv p op w s h hi hh.1
    exact ih _ s1 hs1 hi1 hh.2

/-- C18: on a server whose connection went through `connection_init`, after any sequence of
`connection_vprintf` calls and `server_event` dispatches in which `write` and `read` return
at most the byte count they were asked for, the connection satisfies `buflen ≤ bufmax` and
`outbuf_len ≤ outbuf_max` (the lengths are `unsigned`, so never negative). -/
theorem c18_buffer_bounds_invariant (p : Nat) (fd : Int) (w : world) (s0 : server)
    (ops : List conn_op) (h0 : server_at w p = some s0)
    (hh : conn_run_honest p ops (connection_init p fd w) = true) :
    ∃ s, server_at (conn_run p ops (connection_init p fd w)) p = some s ∧
      connection_bounded s.c := by
  obtain ⟨s1, hs1, hi1⟩ := connection_init_inv p fd w s0 h0
  obtain ⟨s, hs, h1, h2, h3, h4⟩ := conn_run_inv p ops _ s1 hs1 hi1 hh
  exact ⟨s, hs, by unfold connection_bounded; omega⟩

/-- Witness of C18: a new server on descriptor 4 that queues `hi`, gets two bytes written
and five read, then queues `x`. -/
theorem c18_buffer_bounds_invariant_witness :
    ∃ s, server_at (conn_run 7 [.vprintf [104, 105], .event 2 5 [1, 2, 3, 4, 5] 4 3,
        .vprintf [120]] (connection_init 7 4 (world_init.store 7 (.server server_zero)))) 7
        = some s ∧ connection_bounded s.c :=
  c18_buffer_bounds_invariant 7 4 (world_init.store 7 (.server server_zero)) server_zero
    [.vprintf [104, 105], .event 2 5 [1, 2, 3, 4, 5] 4 3, .vprintf [120]]
    (server_at_store _ _ _) (by decide!)

/-- With an empty output buffer the `EVENT_WRITE` part of `server_event` is skipped by its
test `if (c->outbuf_len)`: no `write` is made and `sockclr` is not called. On the state after
`connection_vprintf` of an empty text (buffer empty, descriptor 4 in `sockets_wfds`) the event
leaves both as they are. -/
theorem server_event_write_empty_buffer :
    (server_at (connection_vprintf 7 []
        (connection_init 7 4 (world_init.store 7 (.server server_zero)))).2 7).map
        (fun s => s.c.outbuf_len) = some 0 ∧
      FD_ISSET 4 (connection_vprintf 7 []
        (connection_init 7 4 (world_init.store 7 (.server server_zero)))).2.sockets_wfds = true ∧
      (server_at (server_event 0 0 [] 4 7 EVENT_WRITE (connection_vprintf 7 []
        (connection_init 7 4 (world_init.store 7 (.server server_zero)))).2) 7).map
        (fun s => s.c.outbuf_len) = some 0 ∧
      FD_ISSET 4 (server_event 0 0 [] 4 7 EVENT_WRITE (connection_vprintf 7 []
        (connection_init 7 4 (world_init.store 7 (.server server_zero)))).2).sockets_wfds
        = true := by
  decide!

theorem FD_CLR_not_mem (fd : Int) (l : List Int) : fd ∉ FD_CLR fd l := by
  unfold FD_CLR
  simp

theorem FD_CLR_subset (fd x : Int) (l : List Int) (h : x ∉ l) : x ∉ FD_CLR fd l := by
  unfold FD_CLR
  intro hx
  exact h (List.mem_filter.mp hx).1

theorem sockclr_write_wfds (fd : Int) (w : world) (h1 : fd ≠ INVALID_SOCKET)
    (h2 : fd < (SOCKMAX : Int)) : fd ∉ (sockclr fd EVENT_WRITE w).2.sockets_wfds := by
  unfold sockclr
  rw [if_neg (by omega)]
  exact FD_CLR_not_mem fd _

theorem server_close_wfds (p : Nat) (w : world) (x : Int) (h : x ∉ w.sockets_wfds) :
    x ∉ (server_close p w).sockets_wfds := by
  unfold server_close
  cases w.heap p with
  | unmapped => exact h
  | service s => exact h
  | server s =>
    simp only
    by_cases hfd : s.c.sockbase.fd ≠ INVALID_SOCKET
    · rw [if_pos hfd]
      unfold sockclose
      rw [if_pos hfd]
      exact FD_CLR_subset _ _ _ h
    · rw [if_neg hfd]
      exact h

/-- The `EVENT_READ` part of `server_event` leaves the output buffer alone and adds no
descriptor to `sockets_wfds`. -/
theorem server_event_read_outbuf (e : Int) (data : List Nat) (p : Nat) (w : world) (s : server)
    (h : server_at w p = some s) :
    (∃ s1, server_at (server_event_read e data p w) p = some s1 ∧
      s1.c.outbuf = s.c.outbuf ∧ s1.c.outbuf_len = s.c.outbuf_len) ∧
    ∀ x, x ∉ w.sockets_wfds → x ∉ (server_event_read e data p w).sockets_wfds := by
  have hw := server_at_heap w p s h
  obtain ⟨b, hb⟩ := server_close_at p w s h
  unfold server_event_read
  rw [hw]
  simp only
  by_cases hrem : to_int s.c.bufmax - to_int s.c.buflen > 0
  · rw [if_pos hrem]
    by_cases hneg : e < 0
    · rw [if_pos hneg]
      exact ⟨⟨_, hb, rfl, rfl⟩, fun x hx => server_close_wfds p w x hx⟩
    rw [if_neg hneg]
    by_cases hz : e = 0
    · rw [if_pos hz]
      exact ⟨⟨_, hb, rfl, rfl⟩, fun x hx => server_close_wfds p w x hx⟩
    rw [if_neg hz, server_at_store]
    exact ⟨⟨_, rfl, rfl, rfl⟩, fun x hx => hx⟩
  · rw [if_neg hrem]
    exact ⟨⟨s, h, rfl, rfl⟩, fun x hx => hx⟩

theorem mem_write_front (buf : List Nat) (n e : Nat) (hn : n ≤ buf.length) :
    (mem_write buf 0 ((buf.drop e).take (n - e))).take (n - e) = (buf.take n).drop e := by
  unfold mem_write
  have hl : ((buf.drop e).take (n - e)).length = n - e := by
    rw [List.length_take, List.length_drop]
    omega
  rw [List.take_zero, List.nil_append, List.take_append_of_le_length (by omega),
    List.take_of_length_le (by omega), List.drop_take]

/-- C19: a WRITABLE event on a registered descriptor (different from `INVALID_SOCKET`, below
`SOCKMAX`) whose connection holds `n ≥ 1` queued bytes, so that `write` is called, `write`
accepting `e` bytes with `0 ≤ e ≤ n`: afterwards the first `n - e` bytes of the output buffer
are the last `n - e` queued bytes in order, `outbuf_len` is `n - e`, and when that is zero the
descriptor is no longer in `sockets_wfds`. -/
theorem c19_write_event_moves_remainder (write_ret read_ret : Int) (data : List Nat) (fd : Int)
    (p event : Nat) (w : world) (s : server) (hs : server_at w p = some s)
    (hev : event &&& EVENT_WRITE ≠ 0) (hn : 1 ≤ s.c.outbuf_len)
    (hcap : s.c.outbuf_len ≤ s.c.outbuf.length) (hmax : s.c.outbuf_len < 2 ^ 31)
    (he0 : 0 ≤ write_ret) (he : write_ret ≤ (s.c.outbuf_len : Int))
    (hfd : fd ≠ INVALID_SOCKET) (hfd2 : fd < (SOCKMAX : Int)) :
    ∃ s1, server_at (server_event write_ret read_ret data fd p event w) p = some s1 ∧
      s1.c.outbuf_len = s.c.outbuf_len - write_ret.toNat ∧
      s1.c.outbuf.take s1.c.outbuf_len = (s.c.outbuf.take s.c.outbuf_len).drop write_ret.toNat ∧
      (s1.c.outbuf_len = 0 →
        FD_ISSET fd (server_event write_ret read_ret data fd p event w).sockets_wfds = false) := by
  have key : ∀ (v : world) (s2 : server), server_at v p = some s2 →
      s2.c.outbuf_len = s.c.outbuf_len - write_ret.toNat →
      s2.c.outbuf.take (s.c.outbuf_len - write_ret.toNat)
        = (s.c.outbuf.take s.c.outbuf_len).drop write_ret.toNat →
      (s.c.outbuf_len - write_ret.toNat = 0 → fd ∉ v.sockets_wfds) →
      ∃ s1, server_at (if event &&& EVENT_READ ≠ 0 then server_event_read read_ret data p v
          else v) p = some s1 ∧
        s1.c.outbuf_len = s.c.outbuf_len - write_ret.toNat ∧
        s1.c.outbuf.take s1.c.outbuf_len
          = (s.c.outbuf.take s.c.outbuf_len).drop write_ret.toNat ∧
        (s1.c.outbuf_len = 0 →
          FD_ISSET fd (if event &&& EVENT_READ ≠ 0 then server_event_read read_ret data p v
            else v).sockets_wfds = false) := by
    intro v s2 hv hlen hbuf hw
    by_cases hr : event &&& EVENT_READ ≠ 0
    · rw [if_pos hr]
      obtain ⟨⟨s1, hs1, hb1, hl1⟩, hsub⟩ := server_event_read_outbuf read_ret data p v s2 hv
      refine ⟨s1, hs1, by rw [hl1, hlen], by rw [hl1, hlen, hb1, hbuf], ?_⟩
      intro hz
      unfold FD_ISSET
      exact decide_eq_false (hsub fd (hw (by rw [← hlen, ← hl1]; exact hz)))
    · rw [if_neg hr]
      refine ⟨s2, hv, hlen, by rw [hlen, hbuf], ?_⟩
      intro hz
      unfold FD_ISSET
      exact decide_eq_false (hw (by rw [← hlen]; exact hz))
  unfold server_event
  rw [if_pos hev, server_event_write_ok write_ret fd p w s hs (by omega) hmax he0 he]
  simp only
  have hbuf : (if write_ret.toNat < s.c.outbuf_len then
        mem_write s.c.outbuf 0
          ((s.c.outbuf.drop write_ret.toNat).take (s.c.outbuf_len - write_ret.toNat))
        else s.c.outbuf).take (s.c.outbuf_len - write_ret.toNat)
      = (s.c.outbuf.take s.c.outbuf_len).drop write_ret.toNat := by
    by_cases hlt : write_ret.toNat < s.c.outbuf_len
    · rw [if_pos hlt]
      exact mem_write_front _ _ _ hcap
    · rw [if_neg hlt]
      have h0 : s.c.outbuf_len - write_ret.toNat = 0 := by omega
      rw [h0, List.take_zero]
      symm
      apply List.drop_eq_nil_of_le
      rw [List.length_take]
      omega
  by_cases hz : s.c.outbuf_len - write_ret.toNat = 0
  · rw [if_pos hz]
    simp only [Bool.false_eq_true, if_false]
    exact key _ _ ((server_at_congr _ _ p (sockclr_heap _ _ _)).trans (server_at_store _ _ _))
      rfl hbuf (fun _ => sockclr_write_wfds fd _ hfd hfd2)
  · rw [if_neg hz]
    simp only [Bool.false_eq_true, if_false]
    exact key _ _ (server_at_store _ _ _) rfl hbuf (fun h => absurd h hz)

/-- Witness of C19: the three bytes `abc` queued on descriptor 4, `write` accepts
two of them. -/
theorem c19_write_event_moves_remainder_witness :
    ∃ s1, server_at (server_event 2 0 [] 4 7 EVENT_WRITE
        (world_init.store 7 (.server server_abc))) 7 = some s1 ∧
      s1.c.outbuf_len = server_abc.c.outbuf_len - (2 : Int).toNat ∧
      s1.c.outbuf.take s1.c.outbuf_len
        = (server_abc.c.outbuf.take server_abc.c.outbuf_len).drop (2 : Int).toNat ∧
      (s1.c.outbuf_len = 0 →
        FD_ISSET 4 (server_event 2 0 [] 4 7 EVENT_WRITE
          (world_init.store 7 (.server server_abc))).sockets_wfds = false) :=
  c19_write_event_moves_remainder 2 0 [] 4 7 EVENT_WRITE (world_init.store 7 (.server server_abc))
    server_abc (server_at_store _ _ _) (by decide) (by decide) (by decide!) (by decide)
    (by decide) (by decide) (by decide) (by decide)

/-! ### The reference count during a dispatch -/

theorem base_set_base (o : heap_obj) (b b1 : sockbase) (h : o.base = some b) :
    (o.set_base b1).base = some b1 := by
  cases o with
  | unmapped => cases h
  | server s => rfl
  | service s => rfl

theorem handle_rc_congr (w v : world) (p : Nat) (h : v.heap = w.heap) :
    handle_rc v p = handle_rc w p := by
  unfold handle_rc
  rw [h]

theorem handle_rc_store (w : world) (p : Nat) (s s1 : server) (h : w.heap p = .server s)
    (hrc : s1.c.sockbase.rc = s.c.sockbase.rc) :
    handle_rc (w.store p (.server s1)) p = handle_rc w p := by
  unfold handle_rc
  rw [store_heap_same, h]
  show some s1.c.sockbase.rc = some s.c.sockbase.rc
  rw [hrc]

theorem server_close_rc (p : Nat) (w : world) :
    handle_rc (server_close p w) p = handle_rc w p := by
  unfold server_close
  cases hw : w.heap p with
  | unmapped => rfl
  | service s => rfl
  | server s =>
    simp only
    by_cases hfd : s.c.sockbase.fd ≠ INVALID_SOCKET
    · rw [if_pos hfd]
      unfold handle_rc
      rw [store_heap_same, hw]
      rfl
    · rw [if_neg hfd]

theorem server_event_write_rc (e : Int) (fd : Int) (p : Nat) (w : world) :
    handle_rc (server_event_write e fd p w).1 p = handle_rc w p := by
  unfold server_event_write
  cases hw : w.heap p with
  | unmapped => rfl
  | service s => rfl
  | server s =>
    simp only
    by_cases hn : s.c.outbuf_len ≠ 0
    · rw [if_pos hn]
      by_cases he : e < 0
      · rw [if_pos he]
        exact server_close_rc p w
      · rw [if_neg he]
        split_ifs
        all_goals first
          | (show handle_rc (sockclr _ _ _).2 p = _
             rw [handle_rc_congr _ _ p (sockclr_heap _ _ _)]
             exact handle_rc_store w p s _ hw rfl)
          | (show handle_rc (world.store _ _ _) p = _
             exact handle_rc_store w p s _ hw rfl)
    · rw [if_neg hn]

theorem server_event_read_rc (e : Int) (data : List Nat) (p : Nat) (w : world) :
    handle_rc (server_event_read e data p w) p = handle_rc w p := by
  unfold server_event_read
  cases hw : w.heap p with
  | unmapped => rfl
  | service s => rfl
  | server s =>
    simp only
    split_ifs
    · exact server_close_rc p w
    · exact server_close_rc p w
    · exact handle_rc_store w p s _ hw rfl
    · rfl

/-- The callback `server_event` does no retain and no release: it leaves the reference count
of its handle as it is. -/
theorem server_event_rc (wr rd : Int) (data : List Nat) (fd : Int) (p : Nat) (event : Nat)
    (w : world) : handle_rc (server_event wr rd data fd p event w) p = handle_rc w p := by
  unfold server_event
  simp only
  split_ifs
  · exact server_event_write_rc _ _ _ _
  · rw [server_event_read_rc]; exact server_event_write_rc _ _ _ _
  · exact server_event_write_rc _ _ _ _
  · rfl
  · exact server_event_read_rc _ _ _ _
  · rfl

theorem RETAIN_rc (p : Nat) (w : world) (b : sockbase) (h : (w.heap p).base = some b) :
    RETAIN p w = w.store p ((w.heap p).set_base { b with rc := b.rc + 1 }) ∧
      handle_rc (RETAIN p w) p = some (b.rc + 1) ∧
      ((RETAIN p w).heap p).base = some { b with rc := b.rc + 1 } := by
  have hR : RETAIN p w = w.store p ((w.heap p).set_base { b with rc := b.rc + 1 }) := by
    unfold RETAIN
    rw [h]
  refine ⟨hR, ?_, ?_⟩
  · unfold handle_rc
    rw [hR, store_heap_same, base_set_base _ _ _ h]
    rfl
  · rw [hR, store_heap_same, base_set_base _ _ _ h]

/-- Macro `RELEASE` applies `do_free` exactly when the decremented count is zero. -/
theorem RELEASE_eq (do_free : Nat → world → world) (p : Nat) (w : world) (b : sockbase)
    (h : (w.heap p).base = some b) :
    (b.rc - 1 ≠ 0 →
      RELEASE do_free p w = w.store p ((w.heap p).set_base { b with rc := b.rc - 1 })) ∧
    (b.rc - 1 = 0 →
      RELEASE do_free p w
        = do_free p (w.store p ((w.heap p).set_base { b with rc := b.rc - 1 }))) := by
  unfold RELEASE
  rw [h]
  simp only
  constructor
  · intro hne; rw [if_neg hne]
  · intro he; rw [if_pos he]

/-- C20: in the dispatch of `sockpoll` for a ready, registered handle whose count is `rc ≥ 1`
and whose event callback leaves the count as it finds it, the callback runs on the state after
`RETAIN`, in which the count is `rc + 1`; the state after the dispatch is the one the callback
left with the count set back to `rc`, the free callback not having been applied; the count is
`rc` again, which is not negative. -/
theorem c20_dispatch_brackets_refcount
    (run_event : event_fn → Int → Nat → Nat → world → world)
    (run_free : free_fn → Nat → world → world) (rfds wfds : List Int) (i : Nat) (w : world)
    (p : Nat) (b : sockbase) (f : event_fn)
    (hp : (w.sockets i).ptr = some p) (hfd : (w.sockets i).fd ≠ INVALID_SOCKET)
    (hready : FD_ISSET (w.sockets i).fd rfds = true ∨ FD_ISSET (w.sockets i).fd wfds = true)
    (hb : (w.heap p).base = some b) (hrc : 1 ≤ b.rc) (hf : b.event = some f)
    (hcb : ∀ ev, handle_rc (run_event f (w.sockets i).fd p ev (RETAIN p w)) p
      = handle_rc (RETAIN p w) p) :
    ∃ ev b2,
      (sockpoll_step run_event run_free rfds wfds i w).2 = some ((w.sockets i).fd, p, ev) ∧
      handle_rc (RETAIN p w) p = some (b.rc + 1) ∧
      ((run_event f (w.sockets i).fd p ev (RETAIN p w)).heap p).base = some b2 ∧
      b2.rc = b.rc + 1 ∧
      (sockpoll_step run_event run_free rfds wfds i w).1
        = (run_event f (w.sockets i).fd p ev (RETAIN p w)).store p
            (((run_event f (w.sockets i).fd p ev (RETAIN p w)).heap p).set_base
              { b2 with rc := b2.rc - 1 }) ∧
      handle_rc (sockpoll_step run_event run_free rfds wfds i w).1 p = some b.rc ∧
      0 ≤ b.rc := by
  obtain ⟨hR, hRrc, hRbase⟩ := RETAIN_rc p w b hb
  have hne : ((if FD_ISSET (w.sockets i).fd rfds then EVENT_READ else 0) |||
      (if FD_ISSET (w.sockets i).fd wfds then EVENT_WRITE else 0)) ≠ 0 := by
    rcases hready with h | h
    · rw [h]
      cases FD_ISSET (w.sockets i).fd wfds <;> decide
    · rw [h]
      cases FD_ISSET (w.sockets i).fd rfds <;> decide
  refine ⟨(if FD_ISSET (w.sockets i).fd rfds then EVENT_READ else 0) |||
      (if FD_ISSET (w.sockets i).fd wfds then EVENT_WRITE else 0), ?_⟩
  generalize hev : ((if FD_ISSET (w.sockets i).fd rfds then EVENT_READ else 0) |||
      (if FD_ISSET (w.sockets i).fd wfds then EVENT_WRITE else 0)) = ev at hne ⊢
  have hcb2 := hcb ev
  rw [hRrc] at hcb2
  unfold handle_rc at hcb2
  cases hb2 : ((run_event f (w.sockets i).fd p ev (RETAIN p w)).heap p).base with
  | none => rw [hb2] at hcb2; cases hcb2
  | some b2 =>
    rw [hb2] at hcb2
    have hrc2 : b2.rc = b.rc + 1 := by
      simpa using hcb2
    have hstep : sockpoll_step run_event run_free rfds wfds i w =
        ((run_event f (w.sockets i).fd p ev (RETAIN p w)).store p
            (((run_event f (w.sockets i).fd p ev (RETAIN p w)).heap p).set_base
              { b2 with rc := b2.rc - 1 }), some ((w.sockets i).fd, p, ev)) := by
      unfold sockpoll_step
      rw [hp]
      simp only
      rw [if_neg hfd, hev, if_pos hne, hRbase]
      simp only [Option.some_bind, hf]
      rw [(RELEASE_eq _ p _ b2 hb2).1 (by omega)]
    rw [hstep]
    refine ⟨b2, rfl, hRrc, rfl, hrc2, rfl, ?_, by omega⟩
    unfold handle_rc
    rw [store_heap_same, base_set_base _ _ _ hb2]
    show some (b2.rc - 1) = some b.rc
    rw [hrc2]
    congr 1
    omega

/-- Witness of C20: the server of `server_one` (count 1, descriptor 4) dispatched for a
readable descriptor, `read` returning three bytes. -/
theorem c20_dispatch_brackets_refcount_witness :
    ∃ ev b2,
      (sockpoll_step (run_server_event 0 3 [104, 105, 10]) run_server_free [4] [] 4
        server_one).2 = some ((server_one.sockets 4).fd, 10, ev) ∧
      handle_rc (RETAIN 10 server_one) 10 = some (1 + 1) ∧
      ((run_server_event 0 3 [104, 105, 10] .server_event (server_one.sockets 4).fd 10 ev
        (RETAIN 10 server_one)).heap 10).base = some b2 ∧
      b2.rc = 1 + 1 ∧
      (sockpoll_step (run_server_event 0 3 [104, 105, 10]) run_server_free [4] [] 4
        server_one).1
        = (run_server_event 0 3 [104, 105, 10] .server_event (server_one.sockets 4).fd 10 ev
            (RETAIN 10 server_one)).store 10
            (((run_server_event 0 3 [104, 105, 10] .server_event (server_one.sockets 4).fd 10 ev
              (RETAIN 10 server_one)).heap 10).set_base { b2 with rc := b2.rc - 1 }) ∧
      handle_rc (sockpoll_step (run_server_event 0 3 [104, 105, 10]) run_server_free [4] [] 4
        server_one).1 10 = some 1 ∧
      (0 : Int) ≤ 1 :=
  c20_dispatch_brackets_refcount (run_server_event 0 3 [104, 105, 10]) run_server_free [4] [] 4
    server_one 10 { fd := 4, rc := 1, event := some .server_event,
                    free := some .server_free_sockbase } .server_event
    (by decide!) (by decide!) (by decide!) (by decide!) (by decide) rfl
    (fun ev => server_event_rc 0 3 [104, 105, 10] _ 10 ev _)

/-! ### The temporary file of a transaction -/

/-- The name buffer after the pattern and one random suffix have been stored: whatever the
buffer held and whatever the random value, the name begins with the nine bytes `/tmp/obj.`. -/
theorem objdb_temp_name_head (tempname : List Nat) (r : Nat) :
    (cstr (snprintf (snprintf tempname 0 PATH_MAX objdb_temp_pattern).1 9 6 (fmt_06u r)).1).take 9
      = [47, 116, 109, 112, 47, 111, 98, 106, 46] := by
  simp [snprintf, mem_write, PATH_MAX, objdb_temp_pattern, cstr]

/-- C21 (code at the failing input): with the root configured as `db` and opened on descriptor
3, `rand` returning 123456 and the first `openat` succeeding, `objdb_start` yields a transaction
whose temporary name is `/tmp/obj.12345`. Its first byte is `/`, as for every buffer and every
random value: the name is absolute, so `openat` and `renameat` ignore the root descriptor and
the file is created in `/tmp`. -/
theorem c21_temp_name_is_absolute :
    (objdb_start true 3 (fun _ _ => .fd 4) (fun _ => 123456) true (List.replicate PATH_MAX 0)
        [97] { objdb_root := some [100, 98], objdb_fd := -1 }).1.map
        (fun t => (t.f, t.tempfile.map cstr))
      = some (some 4, some [47, 116, 109, 112, 47, 111, 98, 106, 46, 49, 50, 51, 52, 53]) ∧
    ∀ (tempname : List Nat) (r : Nat),
      (cstr (snprintf (snprintf tempname 0 PATH_MAX objdb_temp_pattern).1 9 6
        (fmt_06u r)).1).head? = some 47 := by
  refine ⟨by decide!, ?_⟩
  intro tempname r
  have h := objdb_temp_name_head tempname r
  cases hc : cstr (snprintf (snprintf tempname 0 PATH_MAX objdb_temp_pattern).1 9 6
      (fmt_06u r)).1 with
  | nil => rw [hc] at h; cases h
  | cons a t =>
    rw [hc] at h
    simp only [List.take_succ_cons, List.cons.injEq] at h
    rw [List.head?_cons, h.1]

/-- C22 (code at the failing input): `objdb_start` returns a transaction whose stream is `NULL`
when the root is not configured, when `openat` fails with an error other than `EEXIST`, and
when each of the 1001 attempts collides. -/
theorem c22_start_returns_handle_without_stream :
    (objdb_start true 3 (fun _ _ => .fd 4) (fun i => i) true (List.replicate PATH_MAX 0) [97]
        objdb_init).1.map (fun t => t.f) = some none ∧
      (objdb_start true 3 (fun _ _ => .error) (fun i => i) true (List.replicate PATH_MAX 0) [97]
        { objdb_root := some [100, 98], objdb_fd := -1 }).1.map (fun t => t.f) = some none ∧
      (objdb_start true 3 (fun _ _ => .eexist) (fun i => i) true (List.replicate PATH_MAX 0)
        [97] { objdb_root := some [100, 98], objdb_fd := -1 }).1.map (fun t => t.f)
        = some none ∧
      (objdb_start true 3 (fun i _ => if i < 1000 then .eexist else .fd 4) (fun i => i) true
        (List.replicate PATH_MAX 0) [97]
        { objdb_root := some [100, 98], objdb_fd := -1 }).1.map (fun t => t.f)
        = some (some 4) := by
  decide!

/-- C23 (code at the failing input): `snprintf` is given the size 6, so it stores five digits
and the terminator. The random values 123456 and 123457, whose six-digit renderings differ,
give the same temporary name `/tmp/obj.12345`; so do 0 and 1 with `/tmp/obj.00000`. -/
theorem c23_suffix_has_five_digits :
    fmt_06u 123456 = [49, 50, 51, 52, 53, 54] ∧ fmt_06u 123457 = [49, 50, 51, 52, 53, 55] ∧
      cstr (objdb_temp_try (fun _ _ => .fd 4) (fun _ => 123456) 9 0
          (snprintf (List.replicate PATH_MAX 0) 0 PATH_MAX objdb_temp_pattern).1).1
        = [47, 116, 109, 112, 47, 111, 98, 106, 46, 49, 50, 51, 52, 53] ∧
      cstr (objdb_temp_try (fun _ _ => .fd 4) (fun _ => 123457) 9 0
          (snprintf (List.replicate PATH_MAX 0) 0 PATH_MAX objdb_temp_pattern).1).1
        = [47, 116, 109, 112, 47, 111, 98, 106, 46, 49, 50, 51, 52, 53] ∧
      cstr (objdb_temp_try (fun _ _ => .fd 4) (fun _ => 0) 9 0
          (snprintf (List.replicate PATH_MAX 0) 0 PATH_MAX objdb_temp_pattern).1).1
        = [47, 116, 109, 112, 47, 111, 98, 106, 46, 48, 48, 48, 48, 48] ∧
      cstr (objdb_temp_try (fun _ _ => .fd 4) (fun _ => 1) 9 0
          (snprintf (List.replicate PATH_MAX 0) 0 PATH_MAX objdb_temp_pattern).1).1
        = [47, 116, 109, 112, 47, 111, 98, 106, 46, 48, 48, 48, 48, 48] := by
  decide!

/-! ### The encoded text -/

theorem c_encode_char_printable (char_signed : Bool) :
    ∀ b : Fin 256, ∀ x ∈ c_encode_char char_signed b.val, 32 ≤ x ∧ x ≤ 126 := by
  cases char_signed <;> decide!

theorem mem_cstr (s : List Nat) (b : Nat) (h : b ∈ cstr s) : b ∈ s := by
  unfold cstr at h
  exact (List.takeWhile_sublist _).subset h

/-- C24: when `c_encode` succeeds on bytes (values below 256), every byte it wrote before
the terminator is printable in the "C" locale; so none of them is a newline or a NUL. -/
theorem c24_encoded_text_is_printable (char_signed : Bool) (dstmax : Nat) (src : List Nat)
    (srclen : Nat) (out : List Nat) (hb : ∀ b ∈ src, b < 256)
    (h : c_encode char_signed dstmax src srclen = some out) :
    ∀ x ∈ out, isprint (x : Int) = true ∧ x ≠ 10 ∧ x ≠ 0 := by
  intro x hx
  unfold c_encode at h
  have he := c_encode_loop_eq _ _ _ _ _ _ h
  rw [he, List.nil_append, List.mem_flatMap] at hx
  obtain ⟨b, hbm, hxb⟩ := hx
  have hb256 : b < 256 := hb b (mem_cstr src b (List.mem_of_mem_take hbm))
  have hp := c_encode_char_printable char_signed ⟨b, hb256⟩ x hxb
  refine ⟨?_, by omega, by omega⟩
  unfold isprint
  simp only [Bool.and_eq_true, decide_eq_true_eq]
  omega

/-- Witness of C24: the bytes `a`, newline, 0x01, 0xff with a signed `char`; the `/` that
stands for a digit of 0xff is printable. -/
theorem c24_encoded_text_is_printable_witness :
    c_encode true 32 [97, 10, 1, 255] 4
        = some [97, 92, 110, 92, 49, 48, 48, 92, 47, 48, 48] ∧
      (isprint ((47 : Nat) : Int) = true ∧ (47 : Nat) ≠ 10 ∧ (47 : Nat) ≠ 0) :=
  ⟨by decide,
    c24_encoded_text_is_printable true 32 [97, 10, 1, 255] 4
      [97, 92, 110, 92, 49, 48, 48, 92, 47, 48, 48] (by decide) (by decide) 47 (by decide)⟩

/-! ### Servers, services and the descriptor count -/

/-- C25 (code at the failing input): with `server.template` set to `t` in the system
environment and `objdb_load` returning `NULL`, `server_new` does not return `NULL`: it goes on
to `obj_set(s->env, "ORIGIN", origin)` with the null `s->env`, which `obj_lookup_offset`
dereferences. With a template that loads, the same call returns the server. -/
theorem c25_server_new_uses_null_env :
    obj_get (obj_set true true obj_new server_template_key [116]).2 server_template_key
        = some [116, 0] ∧
      (server_new (obj_set true true obj_new server_template_key [116]).2 (fun _ => none)
        true true [] act_print 30 5 [104] world_init).isNone = true ∧
      (server_new (obj_set true true obj_new server_template_key [116]).2
        (fun _ => some obj_new) true true [] act_print 30 5 [104] world_init).map
        (fun r => r.1) = some (some 30) := by
  decide!

/-- C27 (code at the failing input): `sockclose` decrements `sockets_count` for descriptors
that `sockadd` never counted. A `service_open` whose `bind` fails leaves the count at -1. With
one service registered (count 1), a `service_event` whose `server_new` fails because `malloc`
fails closes the accepted descriptor 5 twice, in `server_free` and in `service_event`, and
leaves the count at -1 while the service on descriptor 3 is still registered. -/
theorem c27_count_goes_negative :
    world_init.sockets_count = 0 ∧
      (service_open 0 [{ fd := 3, bind_ret := -1, listen_ret := 0, p := 20 }]
        world_init).2.sockets_count = -1 ∧
      (service_open 0 [{ fd := 3, bind_ret := 0, listen_ret := 0, p := 20 }]
        world_init).2.sockets_count = 1 ∧
      (service_event obj_new (fun _ => none) true false [] act_print 5 [104] 30 EVENT_READ
        (service_open 0 [{ fd := 3, bind_ret := 0, listen_ret := 0, p := 20 }]
          world_init).2).map (fun w => (w.sockets_count, (w.sockets 3).ptr, w.closed))
        = some (-1, some 20, [5, 5]) := by
  decide!

/-! ### The command table -/

theorem hash_find_loop_stuck (key check : List Nat) (base : List command)
    (hc : command_getkey base 0 = some check) (hk : strcmp key check ≠ 0) (tries : Nat)
    (ht : tries > 0) :
    ∀ (fuel h : Nat), hash_find_loop key base 0 tries fuel h = none := by
  intro fuel
  induction fuel with
  | zero => intro h; rfl
  | succ fuel ih =>
    intro h
    rw [hash_find_loop, if_pos ht, Nat.and_zero, hc]
    simp only
    rw [if_neg hk]
    exact ih _

/-- C28 (code at the failing input): after `command_register("print", act_print)` on the empty
table (one cell, holding `print`), `hash_find` for the name `look` has not returned after any
number of iterations: its loop tests `tries > 0` and never changes `tries`. So neither
`command_register("look", ...)` nor `command_run("look", ...)` returns. -/
theorem c28_hash_find_never_returns (char_signed : Bool) (fuel : Nat) :
    command_register char_signed 1 true true [112, 114, 105, 110, 116] (some .act_print)
        command_init
      = some (0, { command := [{ name := some [112, 114, 105, 110, 116],
                                  f := some .act_print }], command_max := 1 }) ∧
    hash_find char_signed fuel [108, 111, 111, 107]
      [{ name := some [112, 114, 105, 110, 116], f := some .act_print }] 1 = none ∧
    command_register char_signed fuel true true [108, 111, 111, 107] (some .act_print)
      { command := [{ name := some [112, 114, 105, 110, 116], f := some .act_print }],
        command_max := 1 } = none ∧
    command_run char_signed fuel [108, 111, 111, 107]
      { command := [{ name := some [112, 114, 105, 110, 116], f := some .act_print }],
        command_max := 1 } = none := by
  have hf : hash_find char_signed fuel [108, 111, 111, 107]
      [{ name := some [112, 114, 105, 110, 116], f := some .act_print }] 1 = none := by
    unfold hash_find
    rw [if_neg (by decide)]
    exact hash_find_loop_stuck [108, 111, 111, 107] [112, 114, 105, 110, 116]
      [{ name := some [112, 114, 105, 110, 116], f := some .act_print }] rfl (by decide) 1
      (by decide) _ _
  refine ⟨by cases char_signed <;> decide!, hf, ?_, ?_⟩
  · unfold command_register
    simp only [hf]
  · unfold command_run
    simp only [hf]

/-! ### Properties other than the one set -/

theorem obj_set_prop_len (r m : Bool) (o : object) (name value : List Nat)
    (h : (obj_set r m o name value).1 = 0) :
    (obj_set r m o name value).2.prop_len
      = if obj_get o name = none then o.prop_len + 1 else o.prop_len := by
  unfold obj_get
  unfold obj_set at h ⊢
  by_cases hofs : obj_lookup_offset o name ≥ 0
  · have hlt : ¬ (obj_lookup_offset o name < 0) := by omega
    simp only [hofs, if_true, hlt, if_false] at h ⊢
    cases m
    · have h2 : (-1 : Int) = 0 := h
      omega
    · simp [obj_alloc_buffer, object.prop_len]
  · have hlt : obj_lookup_offset o name < 0 := by omega
    simp only [hofs, if_false, hlt, if_true] at h ⊢
    cases hg : obj_set_grow r o with
    | none =>
      rw [hg] at h
      have h2 : (-1 : Int) = 0 := h
      omega
    | some o1 =>
      have h1 := obj_set_grow_prop r o o1 hg
      rw [hg] at h
      cases m
      · have h2 : (-1 : Int) = 0 := h
        omega
      · simp [obj_alloc_buffer, object.prop_len, qsort, List.length_insertionSort, h1]

/-- C29: on an object built from `obj_new` by `obj_set` calls, a successful `obj_set(o, k, v)`
leaves `obj_get(o, k')` as it was for every key `k'` different from `k` (the same value, or
still `NULL`), and the number of properties grows by one when `obj_get(o, k)` was `NULL` and
stays the same otherwise. -/
theorem c29_set_leaves_other_keys (calls : List (Bool × Bool × List Nat × List Nat))
    (r m : Bool) (k v k' : List Nat) (hk : cstr k ≠ cstr k')
    (hs : (obj_set r m (obj_set_calls obj_new calls) k v).1 = 0) :
    obj_get (obj_set r m (obj_set_calls obj_new calls) k v).2 k'
        = obj_get (obj_set_calls obj_new calls) k' ∧
      (obj_set r m (obj_set_calls obj_new calls) k v).2.prop_len
        = if obj_get (obj_set_calls obj_new calls) k = none
          then (obj_set_calls obj_new calls).prop_len + 1
          else (obj_set_calls obj_new calls).prop_len := by
  have hwf : obj_wf (obj_set_calls obj_new calls) := obj_set_calls_wf _ _ obj_new_wf
  have hwf2 := obj_set_wf r m _ k v hwf
  refine ⟨?_, obj_set_prop_len r m _ k v hs⟩
  by_cases hex : ∃ e ∈ (obj_set_calls obj_new calls).prop, strcmp k' e = 0
  · obtain ⟨e, he, hke⟩ := hex
    have hne : strcmp k e ≠ 0 := by
      intro h0
      exact hk (((strcmp_eq_zero_iff k e).1 h0).trans ((strcmp_eq_zero_iff k' e).1 hke).symm)
    have he2 : e ∈ (obj_set r m (obj_set_calls obj_new calls) k v).2.prop :=
      (obj_set_mem r m _ k v hwf hs e).2 (Or.inr ⟨he, hne⟩)
    rw [obj_get_eq_some _ k' e hwf2 he2 hke, obj_get_eq_some _ k' e hwf he hke]
  · have hall : ∀ e ∈ (obj_set_calls obj_new calls).prop, strcmp k' e ≠ 0 := by
      intro e he h0
      exact hex ⟨e, he, h0⟩
    have hall2 : ∀ e ∈ (obj_set r m (obj_set_calls obj_new calls) k v).2.prop,
        strcmp k' e ≠ 0 := by
      intro e he
      rcases obj_set_mem_imp r m _ k v hwf e he with h1 | h1
      · rw [h1, strcmp_alloc_right]
        intro h0
        exact hk ((strcmp_eq_zero_iff k' k).1 h0).symm
      · exact hall e h1
    rw [obj_get_eq_none _ k' hwf2 hall2, obj_get_eq_none _ k' hwf hall]

/-- Witness of C29: on the object holding `a` and `b`, setting `c`, then reading `a`. -/
theorem c29_set_leaves_other_keys_witness :
    obj_get (obj_set true true (obj_set_calls obj_new
          [(true, true, [97], [49]), (true, true, [98], [50])]) [99] [51]).2 [97]
        = obj_get (obj_set_calls obj_new
          [(true, true, [97], [49]), (true, true, [98], [50])]) [97] ∧
      (obj_set true true (obj_set_calls obj_new
          [(true, true, [97], [49]), (true, true, [98], [50])]) [99] [51]).2.prop_len
        = if obj_get (obj_set_calls obj_new
            [(true, true, [97], [49]), (true, true, [98], [50])]) [99] = none
          then (obj_set_calls obj_new
            [(true, true, [97], [49]), (true, true, [98], [50])]).prop_len + 1
          else (obj_set_calls obj_new
            [(true, true, [97], [49]), (true, true, [98], [50])]).prop_len :=
  c29_set_leaves_other_keys [(true, true, [97], [49]), (true, true, [98], [50])] true true
    [99] [51] [97] (by decide) (by decide)

/-! ### Decoding: what an escape consumes, decoding in place -/

/-- C26 (code at the failing input): the octal loop of `c_decode` reads one more character
after the third digit and drops it. The text backslash `1` `0` `1` decodes to the byte 0x41
and the text `AB` to itself, but the two texts joined decode to 0x41 followed by `B` only: the
`A` after the escape is lost. Likewise `c_encode` of the byte 0x01 followed by `c_encode` of
`A` decodes to one byte, although the two parts decode to one byte each. -/
theorem c26_octal_escape_swallows_next_byte :
    c_decode 16 [92, 49, 48, 49] 4 = some [65] ∧ c_decode 16 [65, 66] 2 = some [65, 66] ∧
      c_decode 16 ([92, 49, 48, 49] ++ [65, 66]) 6 = some [65, 66] ∧
      c_encode true 16 [1] 1 = some [92, 49, 48, 48] ∧ c_encode true 16 [65] 1 = some [65] ∧
      c_decode 16 [92, 49, 48, 48] 4 = some [64] ∧ c_decode 16 [65] 1 = some [65] ∧
      c_decode 16 ([92, 49, 48, 48] ++ [65]) 5 = some [64] := by
  decide

theorem drop_tail_succ (l : List Nat) (j : Nat) : l.tail.drop j = l.drop (j + 1) := by
  cases l with
  | nil => simp
  | cons a t => simp

theorem c_decode_octal_drop (k c : Nat) (v : Int) (src : List Nat) (n : Nat) :
    (c_decode_octal k c v src n).2.1 = src.drop (n - (c_decode_octal k c v src n).2.2) := by
  induction k generalizing c v src n with
  | zero => simp [c_decode_octal]
  | succ k ih =>
    rw [c_decode_octal]
    simp only
    split_ifs with h1 h2
    · have hle := c_decode_octal_le k (src.headD 0) (v * 8 + ((c : Int) - 48)) src.tail (n - 1)
      rw [ih, drop_tail_succ]
      congr 1
      omega
    · simp
    · simp

theorem c_decode_hex_drop (k : Nat) (src : List Nat) (n : Nat) :
    (c_decode_hex k src n).1 = src.drop (n - (c_decode_hex k src n).2) := by
  induction k generalizing src n with
  | zero => simp [c_decode_hex]
  | succ k ih =>
    rw [c_decode_hex]
    split_ifs with h1 h2
    · have hle := c_decode_hex_le k src.tail (n - 1)
      rw [ih, drop_tail_succ]
      congr 1
      omega
    · have : n - (n - 1) = 1 := by omega
      simp only [this]
      cases src <;> simp
    · simp

theorem c_decode_escape_drop (c : Nat) (src : List Nat) (n : Nat) (r : List Nat × Nat × Nat)
    (h : c_decode_escape c src n = some r) : r.1 = src.drop (n - r.2.1) := by
  have ho := c_decode_octal_drop 3 c 0 src n
  have hh := c_decode_hex_drop 63 src n
  unfold c_decode_escape at h
  generalize c_decode_octal 3 c 0 src n = ro at h ho
  generalize c_decode_hex 63 src n = rh at h hh
  have hsame : ∀ b : Nat, some (src, n, b) = some r → r.1 = src.drop (n - r.2.1) := by
    intro b hb
    rw [← Option.some.inj hb]
    simp
  by_cases h1 : 48 ≤ c ∧ c ≤ 55
  · rw [if_pos h1] at h
    rw [← Option.some.inj h]; exact ho
  rw [if_neg h1] at h
  by_cases h2 : c = 120
  · rw [if_pos h2] at h
    cases hs : strtol16 rh.1 with
    | none => rw [hs] at h; exact absurd h (by simp)
    | some v =>
      rw [hs] at h
      rw [← Option.some.inj h]; exact hh
  rw [if_neg h2] at h
  by_cases h92 : c = 92
  · rw [if_pos h92] at h; exact hsame _ h
  rw [if_neg h92] at h
  by_cases h97 : c = 97
  · rw [if_pos h97] at h; exact hsame _ h
  rw [if_neg h97] at h
  by_cases h98 : c = 98
  · rw [if_pos h98] at h; exact hsame _ h
  rw [if_neg h98] at h
  by_cases h102 : c = 102
  · rw [if_pos h102] at h; exact hsame _ h
  rw [if_neg h102] at h
  by_cases h110 : c = 110
  · rw [if_pos h110] at h; exact hsame _ h
  rw [if_neg h110] at h
  by_cases h114 : c = 114
  · rw [if_pos h114] at h; exact hsame _ h
  rw [if_neg h114] at h
  by_cases h116 : c = 116
  · rw [if_pos h116] at h; exact hsame _ h
  rw [if_neg h116] at h
  by_cases h118 : c = 118
  · rw [if_pos h118] at h; exact hsame _ h
  rw [if_neg h118] at h
  exact absurd h (by simp)

/-- One iteration of `c_decode` leaves `src` advanced by as many bytes as `srclen` dropped. -/
theorem c_decode_body_drop (src : List Nat) (n : Nat) (r : List Nat × Nat × Nat) (hn : 0 < n)
    (h : c_decode_body src n = some r) : r.1 = src.drop (n - r.2.1) := by
  have hlt := c_decode_body_lt src n r hn h
  unfold c_decode_body at h
  split_ifs at h with h1 h2
  · have hd := c_decode_escape_drop _ _ _ _ h
    have hle := c_decode_escape_le _ _ _ _ h
    rw [hd, drop_tail_succ, drop_tail_succ]
    congr 1
    omega
  · simp only [Option.some.injEq] at h
    subst h
    simp only
    have : n - (n - 1) = 1 := by omega
    rw [this]
    cases src <;> simp

theorem take_set_succ (l : List Nat) (d b : Nat) (h : d < l.length) :
    (l.set d b).take (d + 1) = l.take d ++ [b] := by
  induction l generalizing d with
  | nil => simp at h
  | cons a t ih =>
    cases d with
    | zero => simp
    | succ d =>
      simp only [List.length_cons, Nat.add_lt_add_iff_right] at h
      simp [ih d h]

theorem take_set_same (l : List Nat) (d b : Nat) : (l.set d b).take d = l.take d := by
  induction l generalizing d with
  | nil => simp
  | cons a t ih =>
    cases d with
    | zero => simp
    | succ d => simp [ih d]

theorem drop_set_below (l : List Nat) (d b n : Nat) (h : d < n) :
    (l.set d b).drop n = l.drop n := by
  induction l generalizing d n with
  | nil => simp
  | cons a t ih =>
    cases n with
    | zero => omega
    | succ n =>
      cases d with
      | zero => simp
      | succ d => simp [ih d n (by omega)]

theorem headD_ne_zero_lt (l : List Nat) (pos : Nat) (h : (l.drop pos).headD 0 ≠ 0) :
    pos < l.length := by
  by_contra hc
  rw [List.drop_eq_nil_of_le (by omega)] at h
  exact h rfl

/-- The in-place loop and the loop with separate buffers run in step: while the bytes from
`pos` on are those of the original memory `mem0`, at most `pos` bytes have been written and
the first `dst.length` bytes of the memory are `dst`, the two loops give the same bytes, and
the in-place loop ends with no more written than read and the unread bytes intact. -/
theorem c_decode_inplace_loop_sim (dstmax : Nat) (mem0 : List Nat) :
    ∀ (fuel : Nat) (mem : List Nat) (pos srclen : Nat) (dst : List Nat),
      mem.drop pos = mem0.drop pos → dst.length ≤ pos → mem.take dst.length = dst →
      (c_decode_inplace_loop dstmax fuel mem pos srclen dst.length).map
          (fun r => (r.1.take r.2.2, r.2.2))
        = (c_decode_loop dstmax fuel (mem0.drop pos) srclen dst).map
          (fun out => (out, out.length)) ∧
      ∀ r, c_decode_inplace_loop dstmax fuel mem pos srclen dst.length = some r →
        r.2.2 ≤ r.2.1 ∧ r.2.1 ≤ pos + srclen ∧ r.1.drop r.2.1 = mem0.drop r.2.1 ∧
          dst.length ≤ r.2.2 := by
  intro fuel
  induction fuel with
  | zero =>
    intro mem pos srclen dst hd hl ht
    refine ⟨?_, ?_⟩
    · simp only [c_decode_inplace_loop, c_decode_loop, Option.map_some', ht]
    · intro r hr
      simp only [c_decode_inplace_loop, Option.some.injEq] at hr
      subst hr
      exact ⟨hl, Nat.le_add_right _ _, hd, le_refl _⟩
  | succ fuel ih =>
    intro mem pos srclen dst hd hl ht
    rw [c_decode_inplace_loop, c_decode_loop, hd]
    by_cases hc : srclen > 0 ∧ (mem0.drop pos).headD 0 ≠ 0
    · rw [if_pos hc, if_pos hc]
      by_cases hfull : dst.length + 1 ≥ dstmax
      · rw [if_pos hfull, if_pos hfull]
        exact ⟨rfl, fun r hr => absurd hr (by simp)⟩
      · rw [if_neg hfull, if_neg hfull]
        cases hb : c_decode_body (mem0.drop pos) srclen with
        | none => exact ⟨rfl, fun r hr => absurd hr (by simp)⟩
        | some t =>
          obtain ⟨s1, n1, b⟩ := t
          have hlt : n1 < srclen := c_decode_body_lt _ _ _ hc.1 hb
          have hs1 : s1 = mem0.drop (pos + (srclen - n1)) := by
            have := c_decode_body_drop _ _ _ hc.1 hb
            simp only at this
            rw [this, List.drop_drop]
          have hpos : pos < mem.length := by
            apply headD_ne_zero_lt
            rw [hd]
            exact hc.2
          have hd2 : (mem.set dst.length b).drop (pos + (srclen - n1))
              = mem0.drop (pos + (srclen - n1)) := by
            rw [drop_set_below _ _ _ _ (by omega)]
            have h1 : mem.drop (pos + (srclen - n1)) = (mem.drop pos).drop (srclen - n1) := by
              rw [List.drop_drop]
            have h2 : mem0.drop (pos + (srclen - n1)) = (mem0.drop pos).drop (srclen - n1) := by
              rw [List.drop_drop]
            rw [h1, h2, hd]
          have ht2 : (mem.set dst.length b).take (dst ++ [b]).length = dst ++ [b] := by
            rw [List.length_append, List.length_singleton, take_set_succ _ _ _ (by omega), ht]
          have hl2 : (dst ++ [b]).length ≤ pos + (srclen - n1) := by
            rw [List.length_append, List.length_singleton]
            omega
          have key := ih (mem.set dst.length b) (pos + (srclen - n1)) n1 (dst ++ [b]) hd2 hl2 ht2
          rw [List.length_append, List.length_singleton, ← hs1] at key
          simp only
          refine ⟨key.1, ?_⟩
          intro r hr
          obtain ⟨k1, k2, k3, k4⟩ := key.2 r hr
          exact ⟨k1, by omega, k3, by omega⟩
    · rw [if_neg hc, if_neg hc]
      refine ⟨?_, ?_⟩
      · simp only [Option.map_some', ht]
      · intro r hr
        simp only [Option.some.injEq] at hr
        subst hr
        exact ⟨hl, Nat.le_add_right _ _, hd, le_refl _⟩

theorem cstr_drop (s : List Nat) (k : Nat) (h : k ≤ strlen s) :
    strlen (s.drop k) = strlen s - k := by
  unfold strlen at h ⊢
  induction s generalizing k with
  | nil => simp [cstr]
  | cons a t ih =>
    cases k with
    | zero => simp
    | succ k =>
      rw [cstr_cons] at h ⊢
      by_cases ha : a = 0
      · rw [if_pos ha] at h
        simp at h
      · rw [if_neg ha] at h ⊢
        simp only [List.length_cons, List.drop_succ_cons] at h ⊢
        rw [ih k (by omega)]
        omega

theorem strlen_pos_of_headD (s : List Nat) (h : s.headD 0 ≠ 0) : 1 ≤ strlen s := by
  cases s with
  | nil => exact absurd rfl h
  | cons a t =>
    unfold strlen
    rw [cstr_cons, if_neg (by simpa using h)]
    simp

/-- When `srclen` is the length of the string at `src` plus one and the capacity is at least
what has been written plus `srclen`, the overflow test of `c_decode` never fires: the result
does not depend on the capacity. -/
theorem c_decode_loop_capacity (d1 d2 : Nat) :
    ∀ (fuel : Nat) (src : List Nat) (srclen : Nat) (dst : List Nat),
      (srclen = strlen src + 1 ∨ srclen = 0) → dst.length + srclen ≤ d1 →
      dst.length + srclen ≤ d2 →
      c_decode_loop d1 fuel src srclen dst = c_decode_loop d2 fuel src srclen dst := by
  intro fuel
  induction fuel with
  | zero => intro src srclen dst _ _ _; rfl
  | succ fuel ih =>
    intro src srclen dst hs h1 h2
    rw [c_decode_loop, c_decode_loop]
    by_cases hc : srclen > 0 ∧ src.headD 0 ≠ 0
    · rw [if_pos hc, if_pos hc]
      have hpos := strlen_pos_of_headD src hc.2
      have hsl : srclen = strlen src + 1 := by
        rcases hs with h | h
        · exact h
        · omega
      rw [if_neg (by omega), if_neg (by omega)]
      cases hb : c_decode_body src srclen with
      | none => rfl
      | some t =>
        obtain ⟨s1, n1, b⟩ := t
        have hlt : n1 < srclen := c_decode_body_lt _ _ _ hc.1 hb
        have hs1 : s1 = src.drop (srclen - n1) := c_decode_body_drop _ _ _ hc.1 hb
        simp only
        apply ih
        · by_cases hn : n1 = 0
          · exact Or.inr hn
          · left
            rw [hs1, cstr_drop _ _ (by omega)]
            omega
        · rw [List.length_append, List.length_singleton]; omega
        · rw [List.length_append, List.length_singleton]; omega
    · rw [if_neg hc, if_neg hc]

/-- C30: `c_decode` with destination and source the same memory gives the bytes and the
length that `c_decode` gives with separate buffers; after any number of iterations of the
in-place loop no more bytes have been written than read, and the bytes not yet read are
those of the input. The length returned is at most `srclen`. With `srclen` and the capacity
both the length of the text plus one, as in `obj_load`, a larger capacity gives the same
result: the overflow test never fails the call. -/
theorem c30_decode_in_place (dstmax fuel : Nat) (mem : List Nat) (srclen d : Nat) :
    (c_decode_inplace dstmax mem srclen).map (fun r => (r.1.take r.2, r.2))
        = (c_decode dstmax mem srclen).map (fun out => (out, out.length)) ∧
      (match c_decode_inplace_loop dstmax fuel mem 0 srclen 0 with
        | none => True
        | some r => r.2.2 ≤ r.2.1 ∧ r.2.1 ≤ srclen ∧ r.1.drop r.2.1 = mem.drop r.2.1) ∧
      (match c_decode dstmax mem srclen with
        | none => True
        | some out => out.length ≤ srclen) ∧
      c_decode (strlen mem + 1 + d) mem (strlen mem + 1)
        = c_decode (strlen mem + 1) mem (strlen mem + 1) := by
  have hsim := fun f => c_decode_inplace_loop_sim dstmax mem f mem 0 srclen [] rfl
    (Nat.le_refl _) rfl
  simp only [List.length_nil, List.drop_zero, Nat.zero_add] at hsim
  have h1 := (hsim srclen).1
  refine ⟨?_, ?_, ?_, ?_⟩
  · unfold c_decode_inplace c_decode
    rw [← h1]
    cases c_decode_inplace_loop dstmax srclen mem 0 srclen 0 with
    | none => rfl
    | some r => simp [take_set_same]
  · cases hr : c_decode_inplace_loop dstmax fuel mem 0 srclen 0 with
    | none => trivial
    | some r =>
      obtain ⟨k1, k2, k3, _⟩ := (hsim fuel).2 r hr
      exact ⟨k1, k2, k3⟩
  · unfold c_decode
    cases hr : c_decode_inplace_loop dstmax srclen mem 0 srclen 0 with
    | none =>
      rw [hr] at h1
      cases hc : c_decode_loop dstmax srclen mem srclen [] with
      | none => trivial
      | some out => rw [hc] at h1; cases h1
    | some r =>
      obtain ⟨k1, k2, _, _⟩ := (hsim srclen).2 r hr
      rw [hr] at h1
      cases hc : c_decode_loop dstmax srclen mem srclen [] with
      | none => trivial
      | some out =>
        rw [hc] at h1
        simp only [Option.map_some', Option.some.injEq, Prod.mk.injEq] at h1
        show out.length ≤ srclen
        omega
  · unfold c_decode
    exact c_decode_loop_capacity _ _ _ _ _ _ (Or.inl rfl) (by simp) (by simp)

/-! ### The length returned and the capacity -/

/-- While fewer than `dstmax` bytes have been written, the loop of `c_encode` ends with fewer
than `dstmax` bytes written: the test before each byte leaves room for its four characters and
the terminator. -/
theorem c_encode_loop_length_lt (char_signed : Bool) (dstmax : Nat) :
    ∀ (n : Nat) (src dst out : List Nat),
      c_encode_loop char_signed dstmax n src dst = some out → dst.length < dstmax →
      out.length < dstmax := by
  intro n
  induction n with
  | zero =>
    intro src dst out h hd
    rw [c_encode_loop] at h
    rw [← Option.some.inj h]
    exact hd
  | succ n ih =>
    intro src dst out h hd
    cases src with
    | nil =>
      rw [c_encode_loop] at h
      rw [← Option.some.inj h]
      exact hd
    | cons c src =>
      rw [c_encode_loop] at h
      by_cases hc : c = 0
      · rw [if_pos hc] at h
        rw [← Option.some.inj h]
        exact hd
      · rw [if_neg hc] at h
        by_cases hfull : dst.length + 4 + 1 ≥ dstmax
        · rw [if_pos hfull] at h
          exact absurd h (by simp)
        · rw [if_neg hfull] at h
          apply ih _ _ _ h
          have := c_encode_char_length char_signed c
          rw [List.length_append]
          omega

/-- While fewer than `dstmax` bytes have been written, the loop of `c_decode` ends with fewer
than `dstmax` bytes written: the test before each byte leaves room for it and the terminator. -/
theorem c_decode_loop_length_lt (dstmax : Nat) :
    ∀ (fuel : Nat) (src : List Nat) (srclen : Nat) (dst out : List Nat),
      c_decode_loop dstmax fuel src srclen dst = some out → dst.length < dstmax →
      out.length < dstmax := by
  intro fuel
  induction fuel with
  | zero =>
    intro src srclen dst out h hd
    rw [c_decode_loop] at h
    rw [← Option.some.inj h]
    exact hd
  | succ fuel ih =>
    intro src srclen dst out h hd
    rw [c_decode_loop] at h
    by_cases hc : srclen > 0 ∧ src.headD 0 ≠ 0
    · rw [if_pos hc] at h
      by_cases hfull : dst.length + 1 ≥ dstmax
      · rw [if_pos hfull] at h
        exact absurd h (by simp)
      · rw [if_neg hfull] at h
        cases hb : c_decode_body src srclen with
        | none => rw [hb] at h; exact absurd h (by simp)
        | some t =>
          obtain ⟨s1, n1, b⟩ := t
          rw [hb] at h
          apply ih _ _ _ _ h
          rw [List.length_append, List.length_singleton]
          omega
    · rw [if_neg hc] at h
      rw [← Option.some.inj h]
      exact hd

/-- C31 (claim as stated is false): with `dstmax = 0` and an empty input (`srclen` 0, or a
first byte that is NUL) `c_encode` and `c_decode` succeed and return the length 0, which is
not below `dstmax`. -/
theorem c31_zero_capacity_succeeds :
    c_encode true 0 [] 0 = some [] ∧ c_encode false 0 [] 0 = some [] ∧
      c_encode true 0 [97] 0 = some [] ∧ c_encode true 0 [0] 1 = some [] ∧
      c_decode 0 [] 0 = some [] ∧ c_decode 0 [97] 0 = some [] ∧ c_decode 0 [0] 1 = some [] ∧
      (c_encode true 0 [] 0).map (fun out => decide (out.length < 0)) = some false ∧
      (c_decode 0 [] 0).map (fun out => decide (out.length < 0)) = some false := by
  decide

/-- C31 (amended): for every input and every destination capacity `dstmax` of at least 1,
when `c_encode` or `c_decode` succeeds the length it returns is strictly less than `dstmax`:
every byte written, the terminator at index `out.length` included, lies below `dstmax`. -/
theorem c31_length_below_capacity (char_signed : Bool) (dstmax : Nat) (hd : 1 ≤ dstmax) :
    (∀ (src : List Nat) (srclen : Nat) (out : List Nat),
        c_encode char_signed dstmax src srclen = some out → out.length < dstmax) ∧
      (∀ (src : List Nat) (srclen : Nat) (out : List Nat),
        c_decode dstmax src srclen = some out → out.length < dstmax) := by
  refine ⟨?_, ?_⟩
  · intro src srclen out h
    exact c_encode_loop_length_lt char_signed dstmax srclen src [] out h (by simp; omega)
  · intro src srclen out h
    exact c_decode_loop_length_lt dstmax srclen src srclen [] out h (by simp; omega)

/-- Witness of C31 (amended): capacity 6, the least with which `c_encode` accepts a byte; the
byte 0x01 is written as four characters, and the four characters decode to one byte. -/
theorem c31_length_below_capacity_witness :
    c_encode true 6 [1] 1 = some [92, 49, 48, 48] ∧ ([92, 49, 48, 48] : List Nat).length < 6 ∧
      c_decode 6 [92, 49, 48, 48] 4 = some [64] ∧ ([64] : List Nat).length < 6 :=
  ⟨by decide,
    (c31_length_below_capacity true 6 (by decide)).1 [1] 1 [92, 49, 48, 48] (by decide),
    by decide,
    (c31_length_below_capacity true 6 (by decide)).2 [92, 49, 48, 48] 4 [64] (by decide)⟩

/-! ### The callbacks of a dispatch -/

theorem store_heap_other (w : world) (p q : Nat) (o : heap_obj) (h : q ≠ p) :
    (w.store p o).heap q = w.heap q := by
  simp [world.store, Function.update, h]

theorem handles_wf_sockets (w : world) (h : handles_wf w) : sockets_wf w :=
  fun i p hp => (h i p hp).1

/-- Storing a handle with an event function and a count of at least 1 at `p` keeps the
registration well formed. -/
theorem handles_wf_store (w : world) (p : Nat) (o : heap_obj) (b : sockbase) (f : event_fn)
    (h : handles_wf w) (ho : o.base = some b) (hf : b.event = some f) (hrc : 1 ≤ b.rc) :
    handles_wf (w.store p o) := by
  intro i q hq
  have hq' : (w.sockets i).ptr = some q := hq
  obtain ⟨h1, b1, f1, hb1, hf1, hr1⟩ := h i q hq'
  refine ⟨h1, ?_⟩
  by_cases hqp : q = p
  · subst hqp
    rw [store_heap_same]
    exact ⟨b, f, ho, hf, hrc⟩
  · rw [store_heap_other _ _ _ _ hqp]
    exact ⟨b1, f1, hb1, hf1, hr1⟩

/-- A change of the count of the handle at `p` to a value of at least 1 keeps the registration
well formed. -/
theorem handles_wf_set_rc (w : world) (p : Nat) (b : sockbase) (rc : Int) (h : handles_wf w)
    (hb : (w.heap p).base = some b) (hrc : 1 ≤ rc) :
    handles_wf (w.store p ((w.heap p).set_base { b with rc := rc })) := by
  intro i q hq
  have hq' : (w.sockets i).ptr = some q := hq
  obtain ⟨h1, b1, f1, hb1, hf1, hr1⟩ := h i q hq'
  refine ⟨h1, ?_⟩
  by_cases hqp : q = p
  · subst hqp
    rw [store_heap_same, base_set_base _ _ _ hb]
    rw [hb] at hb1
    have hbb : b = b1 := Option.some.inj hb1
    subst hbb
    exact ⟨_, f1, rfl, hf1, hrc⟩
  · rw [store_heap_other _ _ _ _ hqp]
    exact ⟨b1, f1, hb1, hf1, hr1⟩

/-- The dispatch of `sockpoll` at index `i` for a ready registered handle with an event
function, when the callback leaves a count other than 1: the callback is applied to the state
after `RETAIN`, no free function is applied, and the step is the invocation `invoke_once`. -/
theorem sockpoll_step_ready (run_event : event_fn → Int → Nat → Nat → world → world)
    (run_free : free_fn → Nat → world → world) (rfds wfds : List Int) (i : Nat) (v : world)
    (p : Nat) (b b2 : sockbase) (f : event_fn) (c : Int × Nat × Nat)
    (hc : sockpoll_call v.sockets rfds wfds i = some c)
    (hp : (v.sockets i).ptr = some p) (hb : (v.heap p).base = some b) (hf : b.event = some f)
    (hb2 : ((run_event f c.1 p c.2.2 (RETAIN p v)).heap p).base = some b2)
    (hrc : b2.rc - 1 ≠ 0) :
    c.2.1 = p ∧
      sockpoll_step run_event run_free rfds wfds i v
        = ((run_event f c.1 p c.2.2 (RETAIN p v)).store p
            (((run_event f c.1 p c.2.2 (RETAIN p v)).heap p).set_base
              { b2 with rc := b2.rc - 1 }), some c) ∧
      invoke_once run_event c v
        = some ((run_event f c.1 p c.2.2 (RETAIN p v)).store p
            (((run_event f c.1 p c.2.2 (RETAIN p v)).heap p).set_base
              { b2 with rc := b2.rc - 1 })) := by
  obtain ⟨hR, _, hRbase⟩ := RETAIN_rc p v b hb
  unfold sockpoll_call at hc
  rw [hp] at hc
  simp only at hc
  by_cases hfd : (v.sockets i).fd = INVALID_SOCKET
  · rw [if_pos hfd] at hc; cases hc
  rw [if_neg hfd] at hc
  by_cases hz : ((if FD_ISSET (v.sockets i).fd rfds then EVENT_READ else 0) |||
      (if FD_ISSET (v.sockets i).fd wfds then EVENT_WRITE else 0)) ≠ 0
  · rw [if_pos hz] at hc
    have hc' := Option.some.inj hc
    subst hc'
    simp only at hb2 ⊢
    refine ⟨trivial, ?_, ?_⟩
    · unfold sockpoll_step
      rw [hp]
      simp only
      rw [if_neg hfd, if_pos hz, hRbase]
      simp only [Option.some_bind, hf]
      rw [(RELEASE_eq _ p _ b2 hb2).1 hrc]
    · unfold invoke_once
      simp only
      rw [hRbase]
      simp only [Option.some_bind, hf]
      rw [(RELEASE_eq _ p _ b2 hb2).1 hrc]
  · rw [if_neg hz] at hc; cases hc

theorem sockpoll_step_idle (run_event : event_fn → Int → Nat → Nat → world → world)
    (run_free : free_fn → Nat → world → world) (rfds wfds : List Int) (i : Nat) (v : world)
    (hc : sockpoll_call v.sockets rfds wfds i = none) :
    sockpoll_step run_event run_free rfds wfds i v = (v, none) := by
  unfold sockpoll_call at hc
  unfold sockpoll_step
  cases hp : (v.sockets i).ptr with
  | none => rfl
  | some p =>
    rw [hp] at hc
    simp only at hc ⊢
    by_cases hfd : (v.sockets i).fd = INVALID_SOCKET
    · rw [if_pos hfd]
    · rw [if_neg hfd] at hc ⊢
      by_cases hz : ((if FD_ISSET (v.sockets i).fd rfds then EVENT_READ else 0) |||
          (if FD_ISSET (v.sockets i).fd wfds then EVENT_WRITE else 0)) ≠ 0
      · rw [if_pos hz] at hc; cases hc
      · rw [if_neg hz]

theorem sockpoll_call_ptr (sockets : Nat → socket_info) (rfds wfds : List Int) (i : Nat)
    (c : Int × Nat × Nat) (h : sockpoll_call sockets rfds wfds i = some c) :
    (sockets i).ptr = some c.2.1 ∧ c.1 = (sockets i).fd := by
  unfold sockpoll_call at h
  cases hp : (sockets i).ptr with
  | none => rw [hp] at h; cases h
  | some p =>
    rw [hp] at h
    simp only at h
    by_cases hfd : (sockets i).fd = INVALID_SOCKET
    · rw [if_pos hfd] at h; cases h
    · rw [if_neg hfd] at h
      by_cases hz : ((if FD_ISSET (sockets i).fd rfds then EVENT_READ else 0) |||
          (if FD_ISSET (sockets i).fd wfds then EVENT_WRITE else 0)) ≠ 0
      · rw [if_pos hz] at h
        rw [← Option.some.inj h]
        exact ⟨rfl, rfl⟩
      · rw [if_neg hz] at h; cases h

theorem RETAIN_wf (p : Nat) (v : world) (h : handles_wf v) : handles_wf (RETAIN p v) := by
  cases hb : (v.heap p).base with
  | none =>
    unfold RETAIN
    rw [hb]
    exact h
  | some b =>
    rw [(RETAIN_rc p v b hb).1]
    cases hr : decide (1 ≤ b.rc + 1) with
    | true => exact handles_wf_set_rc v p b (b.rc + 1) h hb (of_decide_eq_true hr)
    | false =>
      have hlt : ¬ (1 ≤ b.rc + 1) := of_decide_eq_false hr
      intro i q hq
      have hq' : (v.sockets i).ptr = some q := hq
      obtain ⟨h1, b1, f1, hb1, hf1, hr1⟩ := h i q hq'
      refine ⟨h1, ?_⟩
      by_cases hqp : q = p
      · subst hqp
        rw [hb] at hb1
        have hbb : b = b1 := Option.some.inj hb1
        subst hbb
        omega
      · rw [store_heap_other _ _ _ _ hqp]
        exact ⟨b1, f1, hb1, hf1, hr1⟩

/-- One pass of the loop of `sockpoll` on a well-formed registration, the callbacks being as
`callback_ok` says: the call made is the one the table of the beginning of the cycle gives,
the state is that of one invocation of the callback (or unchanged when no call is made), and
the registration stays well formed with the reported entries as they were. -/
theorem sockpoll_step_spec (run_event : event_fn → Int → Nat → Nat → world → world)
    (run_free : free_fn → Nat → world → world) (rfds wfds : List Int)
    (hev : ∀ f fd p ev v, handles_wf v → callback_ok rfds wfds p v (run_event f fd p ev v))
    (w : world) (hw : handles_wf w) (i : Nat) (v : world) (hv : handles_wf v)
    (hs : ready_same rfds wfds w v) :
    (sockpoll_step run_event run_free rfds wfds i v).2 = sockpoll_call w.sockets rfds wfds i ∧
      (match sockpoll_call w.sockets rfds wfds i with
        | none => (sockpoll_step run_event run_free rfds wfds i v).1 = v
        | some c => invoke_once run_event c v
            = some (sockpoll_step run_event run_free rfds wfds i v).1) ∧
      handles_wf (sockpoll_step run_event run_free rfds wfds i v).1 ∧
      ready_same rfds wfds w (sockpoll_step run_event run_free rfds wfds i v).1 := by
  have hcall : sockpoll_call v.sockets rfds wfds i = sockpoll_call w.sockets rfds wfds i :=
    sockpoll_call_kept rfds wfds w v (handles_wf_sockets w hw) ⟨handles_wf_sockets v hv, hs⟩ i
  rw [← hcall]
  cases hc : sockpoll_call v.sockets rfds wfds i with
  | none =>
    rw [sockpoll_step_idle run_event run_free rfds wfds i v hc]
    exact ⟨rfl, rfl, hv, hs⟩
  | some c =>
    obtain ⟨hp, hfd⟩ := sockpoll_call_ptr _ _ _ _ _ hc
    obtain ⟨_, b, f, hb, hf, hrc⟩ := hv i c.2.1 hp
    obtain ⟨hR, hRrc, hRbase⟩ := RETAIN_rc c.2.1 v b hb
    have hwf1 : handles_wf (RETAIN c.2.1 v) := RETAIN_wf c.2.1 v hv
    obtain ⟨hwf2, hs2, hrc2⟩ := hev f c.1 c.2.1 c.2.2 (RETAIN c.2.1 v) hwf1
    rw [hRrc] at hrc2
    unfold handle_rc at hrc2
    cases hb2 : ((run_event f c.1 c.2.1 c.2.2 (RETAIN c.2.1 v)).heap c.2.1).base with
    | none => rw [hb2] at hrc2; cases hrc2
    | some b2 =>
      rw [hb2] at hrc2
      have hb2rc : b2.rc = b.rc + 1 := by simpa using hrc2
      obtain ⟨_, hstep, hinv⟩ := sockpoll_step_ready run_event run_free rfds wfds i v c.2.1 b b2
        f c hc hp hb hf hb2 (by omega)
      rw [hstep]
      refine ⟨rfl, hinv, ?_, ?_⟩
      · exact handles_wf_set_rc _ c.2.1 b2 (b2.rc - 1) hwf2 hb2 (by omega)
      · intro j hj
        show (run_event f c.1 c.2.1 c.2.2 (RETAIN c.2.1 v)).sockets j = w.sockets j
        rw [hs2 j hj, RETAIN_sockets]
        exact hs j hj

theorem sockpoll_loop_spec (run_event : event_fn → Int → Nat → Nat → world → world)
    (run_free : free_fn → Nat → world → world) (rfds wfds : List Int)
    (hev : ∀ f fd p ev v, handles_wf v → callback_ok rfds wfds p v (run_event f fd p ev v))
    (w : world) (hw : handles_wf w) (n : Nat) :
    ∀ (i : Nat) (v : world), handles_wf v → ready_same rfds wfds w v →
      (sockpoll_loop run_event run_free rfds wfds n i v).2
          = (List.range' i n).filterMap (sockpoll_call w.sockets rfds wfds) ∧
        invoke_all run_event
            ((List.range' i n).filterMap (sockpoll_call w.sockets rfds wfds)) v
          = some (sockpoll_loop run_event run_free rfds wfds n i v).1 ∧
        handles_wf (sockpoll_loop run_event run_free rfds wfds n i v).1 := by
  induction n with
  | zero =>
    intro i v hv _
    exact ⟨rfl, rfl, hv⟩
  | succ n ih =>
    intro i v hv hs
    obtain ⟨h1, h2, h3, h4⟩ := sockpoll_step_spec run_event run_free rfds wfds hev w hw i v hv hs
    obtain ⟨k1, k2, k3⟩ := ih (i + 1) _ h3 h4
    rw [sockpoll_loop]
    simp only
    rw [k1, h1, List.range'_succ, List.filterMap_cons]
    cases hc : sockpoll_call w.sockets rfds wfds i with
    | none =>
      rw [hc] at h2
      simp only at h2
      rw [h2] at k2 k3
      refine ⟨rfl, ?_, ?_⟩
      · simp only
        rw [h2]
        exact k2
      · rw [h2]; exact k3
    | some c =>
      rw [hc] at h2
      simp only at h2
      refine ⟨rfl, ?_, k3⟩
      simp only
      rw [invoke_all, h2]
      exact k2

theorem handles_same_refl (v : world) : handles_same v v := fun _ => rfl

theorem handles_same_trans (a b c : world) (h1 : handles_same a b) (h2 : handles_same b c) :
    handles_same a c := fun q => (h2 q).trans (h1 q)

theorem handles_same_of_heap (v v1 : world) (h : v1.heap = v.heap) : handles_same v v1 := by
  intro q
  rw [h]

theorem handles_same_store_server (v : world) (p : Nat) (s s1 : server)
    (h : v.heap p = .server s) (hrc : s1.c.sockbase.rc = s.c.sockbase.rc)
    (hev : s1.c.sockbase.event = s.c.sockbase.event) :
    handles_same v (v.store p (.server s1)) := by
  intro q
  by_cases hq : q = p
  · subst hq
    rw [store_heap_same, h]
    show some (s1.c.sockbase.rc, s1.c.sockbase.event) = some (s.c.sockbase.rc, s.c.sockbase.event)
    rw [hrc, hev]
  · rw [store_heap_other _ _ _ _ hq]

/-- A step that keeps the table and changes no handle's count or event function is one a
callback may make. -/
theorem callback_ok_of_same (rfds wfds : List Int) (p : Nat) (v v1 : world)
    (hv : handles_wf v) (hs : v1.sockets = v.sockets) (hh : handles_same v v1) :
    callback_ok rfds wfds p v v1 := by
  refine ⟨?_, fun i _ => by rw [hs], ?_⟩
  · intro i q hq
    rw [hs] at hq ⊢
    obtain ⟨h1, b, f, hb, hf, hrc⟩ := hv i q hq
    refine ⟨h1, ?_⟩
    have := hh q
    rw [hb] at this
    cases hb1 : (v1.heap q).base with
    | none => rw [hb1] at this; cases this
    | some b1 =>
      rw [hb1] at this
      simp only [Option.map_some', Option.some.injEq, Prod.mk.injEq] at this
      exact ⟨b1, f, rfl, by rw [this.2, hf], by rw [this.1]; exact hrc⟩
  · have := hh p
    unfold handle_rc
    cases hb1 : (v1.heap p).base with
    | none =>
      rw [hb1] at this
      cases hb : (v.heap p).base with
      | none => rfl
      | some b => rw [hb] at this; cases this
    | some b1 =>
      rw [hb1] at this
      cases hb : (v.heap p).base with
      | none => rw [hb] at this; cases this
      | some b =>
        rw [hb] at this
        simp only [Option.map_some', Option.some.injEq, Prod.mk.injEq] at this
        simp only [Option.map_some', this.1]

theorem server_close_same (p : Nat) (w : world) : handles_same w (server_close p w) := by
  unfold server_close
  cases hw : w.heap p with
  | unmapped => exact handles_same_refl w
  | service s => exact handles_same_refl w
  | server s =>
    simp only
    by_cases hfd : s.c.sockbase.fd ≠ INVALID_SOCKET
    · rw [if_pos hfd]
      have h1 : handles_same w (sockclose s.c.sockbase.fd
          { w with sockets_rfds := FD_CLR s.c.sockbase.fd w.sockets_rfds,
                   sockets_wfds := FD_CLR s.c.sockbase.fd
                     ({ w with sockets_rfds := FD_CLR s.c.sockbase.fd w.sockets_rfds }).sockets_wfds }) := by
        apply handles_same_of_heap
        unfold sockclose
        rw [if_pos hfd]
      refine handles_same_trans _ _ _ h1 (handles_same_store_server _ p s _ ?_ rfl rfl)
      unfold sockclose
      rw [if_pos hfd]
      exact hw
    · rw [if_neg hfd]
      exact handles_same_refl w

theorem server_event_write_same (e : Int) (fd : Int) (p : Nat) (w : world) :
    handles_same w (server_event_write e fd p w).1 := by
  unfold server_event_write
  cases hw : w.heap p with
  | unmapped => exact handles_same_refl w
  | service s => exact handles_same_refl w
  | server s =>
    simp only
    by_cases hn : s.c.outbuf_len ≠ 0
    · rw [if_pos hn]
      by_cases he : e < 0
      · rw [if_pos he]
        exact server_close_same p w
      · rw [if_neg he]
        by_cases hz : to_unsigned ((s.c.outbuf_len : Int) - e) = 0
        · rw [if_pos hz]
          show handles_same w (sockclr fd EVENT_WRITE _).2
          refine handles_same_trans w _ _ ?_ (handles_same_of_heap _ _ (sockclr_heap _ _ _))
          exact handles_same_store_server w p s _ hw rfl rfl
        · rw [if_neg hz]
          show handles_same w (world.store _ _ _)
          exact handles_same_store_server w p s _ hw rfl rfl
    · rw [if_neg hn]
      exact handles_same_refl w

theorem server_event_read_same (e : Int) (data : List Nat) (p : Nat) (w : world) :
    handles_same w (server_event_read e data p w) := by
  unfold server_event_read
  cases hw : w.heap p with
  | unmapped => exact handles_same_refl w
  | service s => exact handles_same_refl w
  | server s =>
    simp only
    split_ifs
    · exact server_close_same p w
    · exact server_close_same p w
    · exact handles_same_store_server w p s _ hw rfl rfl
    · exact handles_same_refl w

/-- The callback `server_event` changes no handle's count and no handle's event function. -/
theorem server_event_same (wr rd : Int) (data : List Nat) (fd : Int) (p : Nat) (event : Nat)
    (w : world) : handles_same w (server_event wr rd data fd p event w) := by
  unfold server_event
  simp only
  split_ifs
  · exact server_event_write_same _ _ _ _
  · exact handles_same_trans _ _ _ (server_event_write_same _ _ _ _)
      (server_event_read_same _ _ _ _)
  · exact server_event_write_same _ _ _ _
  · exact handles_same_refl w
  · exact server_event_read_same _ _ _ _
  · exact handles_same_refl w

/-- The callback `server_event` is one `sockpoll` may dispatch: on a well-formed registration
it leaves the registration well formed, the table as it is and the count of its handle as
found, whatever `write` and `read` return. -/
theorem server_event_callback_ok (rfds wfds : List Int) (wr rd : Int) (data : List Nat)
    (fd : Int) (p : Nat) (event : Nat) (w : world) (hw : handles_wf w) :
    callback_ok rfds wfds p w (server_event wr rd data fd p event w) :=
  callback_ok_of_same rfds wfds p w _ hw (server_event_sockets _ _ _ _ _ _ _)
    (server_event_same _ _ _ _ _ _ _)

theorem run_server_event_callback_ok (rfds wfds : List Int) (wr rd : Int) (data : List Nat)
    (f : event_fn) (fd : Int) (p : Nat) (event : Nat) (w : world) (hw : handles_wf w) :
    callback_ok rfds wfds p w (run_server_event wr rd data f fd p event w) := by
  cases f
  · exact server_event_callback_ok rfds wfds wr rd data fd p event w hw
  · exact callback_ok_of_same rfds wfds p w w hw rfl (handles_same_refl w)

theorem handles_wf_init : handles_wf world_init := by
  intro i p hp
  cases hp

theorem handles_wf_off_of_wf (p : Nat) (w : world) (h : handles_wf w) : handles_wf_off p w :=
  fun i q hq => ⟨(h i q hq).1, fun _ => (h i q hq).2⟩

theorem handles_wf_off_frame (p : Nat) (v v1 : world) (hf : heap_frame p v v1)
    (h : handles_wf_off p v) : handles_wf_off p v1 := by
  intro i q hq
  rw [hf.1] at hq ⊢
  obtain ⟨h1, h2⟩ := h i q hq
  refine ⟨h1, fun hqp => ?_⟩
  rw [hf.2 q hqp]
  exact h2 hqp

theorem heap_frame_refl (p : Nat) (v : world) : heap_frame p v v := ⟨rfl, fun _ _ => rfl⟩

theorem heap_frame_trans (p : Nat) (a b c : world) (h1 : heap_frame p a b)
    (h2 : heap_frame p b c) : heap_frame p a c :=
  ⟨h2.1.trans h1.1, fun q hq => (h2.2 q hq).trans (h1.2 q hq)⟩

theorem heap_frame_store (p : Nat) (v : world) (o : heap_obj) : heap_frame p v (v.store p o) :=
  ⟨rfl, fun q hq => store_heap_other v p q o hq⟩

theorem heap_frame_RETAIN (p : Nat) (v : world) : heap_frame p v (RETAIN p v) := by
  unfold RETAIN
  cases (v.heap p).base with
  | none => exact heap_frame_refl p v
  | some b => exact heap_frame_store p v _

theorem heap_frame_connection_init (p : Nat) (fd : Int) (v : world) :
    heap_frame p v (connection_init p fd v) := by
  unfold connection_init
  cases v.heap p with
  | unmapped => exact heap_frame_refl p v
  | service s => exact heap_frame_refl p v
  | server s => exact heap_frame_store p v _

theorem sockset_sockets (fd : Int) (events : Nat) (w : world) :
    (sockset fd events w).2.sockets = w.sockets := by
  unfold sockset
  split_ifs <;> rfl

/-- What `sockadd` with a descriptor of the table stores: the entry at the index of the
descriptor, and the two function pointers in the handle. -/
theorem sockadd_eq (fd : Int) (ptr : Nat) (events : Nat) (event : event_fn) (free : free_fn)
    (w : world) (b : sockbase) (h0 : fd ≠ INVALID_SOCKET) (h1 : fd < (SOCKMAX : Int))
    (hb : (w.heap ptr).base = some b) :
    (sockadd fd ptr events event free w).2.sockets
        = Function.update w.sockets fd.toNat ⟨fd, some ptr⟩ ∧
      (sockadd fd ptr events event free w).2.heap
        = Function.update w.heap ptr
            ((w.heap ptr).set_base { b with event := some event, free := some free }) := by
  have hne : ¬ (fd = INVALID_SOCKET ∨ fd ≥ (SOCKMAX : Int)) := by
    intro h
    rcases h with h | h
    · exact h0 h
    · omega
  unfold sockadd
  rw [if_neg hne]
  simp only
  rw [sockset_heap, sockset_sockets]
  by_cases hm : fd > w.sockets_fdmax
  · rw [if_pos hm]
    simp only [hb]
    exact ⟨rfl, rfl⟩
  · rw [if_neg hm]
    simp only [hb]
    exact ⟨rfl, rfl⟩

/-- Function `sockadd` with a descriptor of the table, on a registration that is well formed but
for the handle at `ptr`, that handle having a count of at least 1: the registration is well
formed afterwards. -/
theorem sockadd_wf (fd : Int) (ptr : Nat) (events : Nat) (event : event_fn) (free : free_fn)
    (w : world) (b : sockbase) (h : handles_wf_off ptr w) (h0 : 0 ≤ fd)
    (h1 : fd < (SOCKMAX : Int)) (hb : (w.heap ptr).base = some b) (hrc : 1 ≤ b.rc) :
    handles_wf (sockadd fd ptr events event free w).2 := by
  have hinv : fd ≠ INVALID_SOCKET := by
    unfold INVALID_SOCKET
    omega
  obtain ⟨hs, hh⟩ := sockadd_eq fd ptr events event free w b hinv h1 hb
  have hgood : ∃ b1 f1, ((w.heap ptr).set_base
      { b with event := some event, free := some free }).base = some b1 ∧
      b1.event = some f1 ∧ 1 ≤ b1.rc :=
    ⟨_, event, base_set_base _ _ _ hb, rfl, hrc⟩
  intro i q hq
  rw [hs] at hq ⊢
  rw [hh]
  by_cases hi : i = fd.toNat
  · subst hi
    rw [Function.update_same] at hq ⊢
    have hqp : ptr = q := Option.some.inj hq
    subst hqp
    rw [Function.update_same]
    exact ⟨(Int.toNat_of_nonneg h0).symm, hgood⟩
  · rw [Function.update_noteq hi] at hq ⊢
    obtain ⟨k1, k2⟩ := h i q hq
    refine ⟨k1, ?_⟩
    by_cases hqp : q = ptr
    · subst hqp
      rw [Function.update_same]
      exact hgood
    · rw [Function.update_noteq hqp]
      exact k2 hqp

theorem handles_wf_sockclose (fd : Int) (w : world) (h : handles_wf w) :
    handles_wf (sockclose fd w) := by
  unfold sockclose
  split_ifs
  · exact h
  · exact h

/-- The steps of `server_new` up to `sockadd` (`server_setup`), with a descriptor of the table,
keep the registration well formed. -/
theorem server_setup_wf (p : Nat) (fd : Int) (env : object) (w : world) (h : handles_wf w)
    (h0 : 0 ≤ fd) (h1 : fd < (SOCKMAX : Int)) : handles_wf (server_setup p fd env w) := by
  unfold server_setup
  simp only
  have hw1 : (RETAIN p (w.store p (.server server_zero))).heap p
      = .server { server_zero with c := { server_zero.c with
          sockbase := { server_zero.c.sockbase with rc := server_zero.c.sockbase.rc + 1 } } } := by
    have hb : ((w.store p (.server server_zero)).heap p).base = some server_zero.c.sockbase := by
      rw [store_heap_same]
      rfl
    rw [(RETAIN_rc p _ _ hb).1, store_heap_same, store_heap_same]
    rfl
  have hf1 : heap_frame p w (RETAIN p (w.store p (.server server_zero))) :=
    heap_frame_trans p _ _ _ (heap_frame_store p w _) (heap_frame_RETAIN p _)
  have hf2 : heap_frame p w (connection_init p fd (RETAIN p (w.store p (.server server_zero)))) :=
    heap_frame_trans p _ _ _ hf1 (heap_frame_connection_init p fd _)
  have hw2 : ∃ s, (connection_init p fd (RETAIN p (w.store p (.server server_zero)))).heap p
      = .server s ∧ s.c.sockbase.rc = 1 := by
    unfold connection_init
    rw [hw1]
    simp only
    rw [store_heap_same]
    exact ⟨_, rfl, rfl⟩
  obtain ⟨s, hs, hrc⟩ := hw2
  rw [hs]
  simp only
  apply sockadd_wf fd p _ _ _ _ s.c.sockbase _ h0 h1
  · rw [store_heap_same]
    rfl
  · omega
  · exact handles_wf_off_frame p w _ (heap_frame_trans p _ _ _ hf2 (heap_frame_store p _ _))
      (handles_wf_off_of_wf p w h)

/-- Function `service_open`, each descriptor `socket` gives being one of the table: the
registration stays well formed. -/
theorem service_open_wf (ret : Int) (res : List addr_try) (w : world) (h : handles_wf w)
    (hres : ∀ a ∈ res, a.fd = INVALID_SOCKET ∨ (0 ≤ a.fd ∧ a.fd < (SOCKMAX : Int))) :
    handles_wf (service_open ret res w).2 := by
  unfold service_open
  by_cases hr : ret ≠ 0
  · rw [if_pos hr]
    exact h
  rw [if_neg hr]
  simp only
  induction res generalizing w with
  | nil => exact h
  | cons a res ih =>
    have hres2 : ∀ x ∈ res, x.fd = INVALID_SOCKET ∨ (0 ≤ x.fd ∧ x.fd < (SOCKMAX : Int)) :=
      fun x hx => hres x (List.mem_cons_of_mem _ hx)
    rw [service_open_loop]
    by_cases hfd : a.fd = INVALID_SOCKET
    · rw [if_pos hfd]
      exact ih w h hres2
    rw [if_neg hfd]
    by_cases hb : a.bind_ret = -1 ∨ a.listen_ret = -1
    · rw [if_pos hb]
      exact ih _ (handles_wf_sockclose _ _ h) hres2
    rw [if_neg hb]
    simp only
    apply ih _ _ hres2
    rcases hres a (List.mem_cons_self _ _) with hh | ⟨h0, h1⟩
    · exact absurd hh hfd
    have hw1 : (RETAIN a.p (w.store a.p
        (.service { sockbase := { fd := 0, rc := 0, event := none, free := none } }))).heap a.p
        = .service { sockbase := { fd := 0, rc := 0 + 1, event := none, free := none } } := by
      have hb : ((w.store a.p (.service { sockbase :=
          { fd := 0, rc := 0, event := none, free := none } })).heap a.p).base
          = some { fd := 0, rc := 0, event := none, free := none } := by
        rw [store_heap_same]
        rfl
      rw [(RETAIN_rc a.p _ _ hb).1, store_heap_same, store_heap_same]
      rfl
    rw [hw1]
    simp only
    apply sockadd_wf a.fd a.p _ _ _ _ { fd := a.fd, rc := 0 + 1, event := none, free := none }
      _ h0 h1
    · rw [store_heap_same]
      rfl
    · show (1 : Int) ≤ 0 + 1
      decide
    · exact handles_wf_off_frame a.p w _
        (heap_frame_trans a.p _ _ _
          (heap_frame_trans a.p _ _ _ (heap_frame_store a.p w _) (heap_frame_RETAIN a.p _))
          (heap_frame_store a.p _ _))
        (handles_wf_off_of_wf a.p w h)

theorem heap_frame_of_eq (p : Nat) (v v1 : world) (hs : v1.sockets = v.sockets)
    (hh : v1.heap = v.heap) : heap_frame p v v1 :=
  ⟨hs, fun q _ => by rw [hh]⟩

theorem heap_frame_sockclose (p : Nat) (fd : Int) (v : world) :
    heap_frame p v (sockclose fd v) := by
  unfold sockclose
  split_ifs
  · exact heap_frame_of_eq p _ _ rfl rfl
  · exact heap_frame_refl p v

theorem heap_frame_server_close (p : Nat) (v : world) : heap_frame p v (server_close p v) := by
  unfold server_close
  cases v.heap p with
  | unmapped => exact heap_frame_refl p v
  | service s => exact heap_frame_refl p v
  | server s =>
    simp only
    by_cases hfd : s.c.sockbase.fd ≠ INVALID_SOCKET
    · rw [if_pos hfd]
      refine heap_frame_trans p _ _ _ ?_ (heap_frame_store p _ _)
      exact heap_frame_trans p _ _ _ (heap_frame_of_eq p v _ rfl rfl) (heap_frame_sockclose p _ _)
    · rw [if_neg hfd]
      exact heap_frame_refl p v

theorem heap_frame_server_free (p : Nat) (v : world) : heap_frame p v (server_free p v) := by
  have hc := heap_frame_server_close p v
  unfold server_free
  simp only
  cases (server_close p v).heap p with
  | unmapped => exact hc
  | service s => exact hc
  | server s =>
    simp only
    refine ⟨hc.1, fun q hq => ?_⟩
    show (((server_close p v).store p _).store p heap_obj.unmapped).heap q = v.heap q
    rw [store_heap_other _ _ _ _ hq, store_heap_other _ _ _ _ hq]
    exact hc.2 q hq

theorem heap_frame_RELEASE (p : Nat) (do_free : Nat → world → world)
    (hf : ∀ v, heap_frame p v (do_free p v)) (v : world) :
    heap_frame p v (RELEASE do_free p v) := by
  unfold RELEASE
  cases (v.heap p).base with
  | none => exact heap_frame_refl p v
  | some b =>
    simp only
    split_ifs
    · exact heap_frame_trans p _ _ _ (heap_frame_store p v _) (hf _)
    · exact heap_frame_store p v _

/-- What `connection_vprintf` does to the state: nothing, or a store of the server at `p` with
its `sockbase` as it was, followed by `sockset`. -/
theorem connection_vprintf_shape (p : Nat) (text : List Nat) (v : world) :
    (connection_vprintf p text v).2 = v ∨
      ∃ (s s1 : server) (fd : Int), v.heap p = .server s ∧ s1.c.sockbase = s.c.sockbase ∧
        (connection_vprintf p text v).2 = (sockset fd EVENT_WRITE (v.store p (.server s1))).2 := by
  unfold connection_vprintf
  cases hv : v.heap p with
  | unmapped => exact Or.inl rfl
  | service s => exact Or.inl rfl
  | server s =>
    simp only
    by_cases hrem : to_int s.c.outbuf_max - to_int s.c.outbuf_len > 0
    · rw [if_pos hrem]
      right
      by_cases he : (text.length : Int) ≤ to_int s.c.outbuf_max - to_int s.c.outbuf_len
      · simp only [he, if_true]
        exact ⟨s, _, _, rfl, by rfl, rfl⟩
      · simp only [he, if_false]
        exact ⟨s, _, _, rfl, by rfl, rfl⟩
    · rw [if_neg hrem]
      exact Or.inl rfl

theorem heap_frame_connection_vprintf (p : Nat) (text : List Nat) (v : world) :
    heap_frame p v (connection_vprintf p text v).2 := by
  rcases connection_vprintf_shape p text v with h | ⟨s, s1, fd, _, _, h⟩
  · rw [h]
    exact heap_frame_refl p v
  · rw [h]
    exact heap_frame_trans p _ _ _ (heap_frame_store p v _)
      (heap_frame_of_eq p _ _ (sockset_sockets _ _ _) (sockset_heap _ _ _))

theorem connection_vprintf_same (p : Nat) (text : List Nat) (v : world) :
    handles_same v (connection_vprintf p text v).2 := by
  rcases connection_vprintf_shape p text v with h | ⟨s, s1, fd, hv, hb, h⟩
  · rw [h]
    exact handles_same_refl v
  · rw [h]
    exact handles_same_trans _ _ _
      (handles_same_store_server v p s s1 hv (by rw [hb]) (by rw [hb]))
      (handles_same_of_heap _ _ (sockset_heap _ _ _))

theorem handles_wf_of_same (v v1 : world) (hv : handles_wf v) (hs : v1.sockets = v.sockets)
    (hh : handles_same v v1) : handles_wf v1 :=
  (callback_ok_of_same [] [] 0 v v1 hv hs hh).1

theorem handles_wf_of_off (q : Nat) (v : world) (h : handles_wf_off q v)
    (hq : ∀ i, (v.sockets i).ptr ≠ some q) : handles_wf v := by
  intro i a ha
  obtain ⟨h1, h2⟩ := h i a ha
  refine ⟨h1, h2 ?_⟩
  intro haq
  subst haq
  exact hq i ha

theorem handles_wf_fresh (q : Nat) (v : world) (h : handles_wf v) (hq : v.heap q = .unmapped) :
    ∀ i, (v.sockets i).ptr ≠ some q := by
  intro i hi
  obtain ⟨_, b, f, hb, _, _⟩ := h i q hi
  rw [hq] at hb
  cases hb

/-- The state after `calloc`, `RETAIN` and `connection_init` in `server_new`: only the heap at
`p` differs, and there is a server with count 1. -/
theorem server_new_head (p : Nat) (fd : Int) (w : world) :
    heap_frame p w (connection_init p fd (RETAIN p (w.store p (.server server_zero)))) ∧
      ∃ s, (connection_init p fd (RETAIN p (w.store p (.server server_zero)))).heap p
        = .server s ∧ s.c.sockbase.rc = 1 := by
  have hw1 : (RETAIN p (w.store p (.server server_zero))).heap p
      = .server { server_zero with c := { server_zero.c with
          sockbase := { server_zero.c.sockbase with rc := server_zero.c.sockbase.rc + 1 } } } := by
    have hb : ((w.store p (.server server_zero)).heap p).base = some server_zero.c.sockbase := by
      rw [store_heap_same]
      rfl
    rw [(RETAIN_rc p _ _ hb).1, store_heap_same, store_heap_same]
    rfl
  refine ⟨heap_frame_trans p _ _ _
      (heap_frame_trans p _ _ _ (heap_frame_store p w _) (heap_frame_RETAIN p _))
      (heap_frame_connection_init p fd _), ?_⟩
  unfold connection_init
  rw [hw1]
  simp only
  rw [store_heap_same]
  exact ⟨_, rfl, rfl⟩

theorem act_print_frame (p : Nat) (v : world) :
    heap_frame p v (act_print p v) ∧ handles_same v (act_print p v) :=
  ⟨heap_frame_connection_vprintf p _ v, connection_vprintf_same p _ v⟩

/-- Function `server_new` when it returns, for a fresh address `q` and a descriptor that is not
negative: the registration stays well formed, the heap differs at `q` only and the table at
the index of the descriptor only. -/
theorem server_new_wf (system_env : object) (objdb_load : List Nat → Option object)
    (realloc_ok malloc_ok : Bool) (notice : List Nat) (q : Nat) (fd : Int)
    (origin : List Nat) (w : world) (r : Option Nat × world) (hw : handles_wf w)
    (hq : w.heap q = .unmapped) (h0 : 0 ≤ fd)
    (h : server_new system_env objdb_load realloc_ok malloc_ok notice act_print q fd origin w
      = some r) :
    handles_wf r.2 ∧ (∀ a, a ≠ q → r.2.heap a = w.heap a) ∧
      (∀ i, i ≠ fd.toNat → r.2.sockets i = w.sockets i) := by
  have hfresh := handles_wf_fresh q w hw hq
  have hoff := handles_wf_off_of_wf q w hw
  have key : ∀ (e : object) (w3 : world), heap_frame q w w3 →
      (∃ s3, w3.heap q = .server s3 ∧ s3.c.sockbase.rc = 1) →
      (if (obj_set realloc_ok malloc_ok e ORIGIN origin).1 ≠ 0 then
          some (none, RELEASE server_free_sockbase q w3)
        else
          some (some q, act_print q (connection_vprintf q notice
            (sockadd fd q EVENT_READ .server_event .server_free_sockbase w3).2).2)) = some r →
      handles_wf r.2 ∧ (∀ a, a ≠ q → r.2.heap a = w.heap a) ∧
        (∀ i, i ≠ fd.toNat → r.2.sockets i = w.sockets i) := by
    intro e w3 hf3 hs3 h
    obtain ⟨s, hs3, hrc3⟩ := hs3
    have hoff3 : handles_wf_off q w3 := handles_wf_off_frame q w w3 hf3 hoff
    have hfresh3 : ∀ i, (w3.sockets i).ptr ≠ some q := by
      intro i
      rw [hf3.1]
      exact hfresh i
    by_cases hr : (obj_set realloc_ok malloc_ok e ORIGIN origin).1 ≠ 0
    · rw [if_pos hr] at h
      have hr2 := Option.some.inj h
      subst hr2
      have hfr : heap_frame q w (RELEASE server_free_sockbase q w3) :=
        heap_frame_trans q _ _ _ hf3
          (heap_frame_RELEASE q server_free_sockbase (fun v => heap_frame_server_free q v) w3)
      refine ⟨?_, hfr.2, fun i _ => by rw [hfr.1]⟩
      apply handles_wf_of_off q _ (handles_wf_off_frame q w _ hfr hoff)
      intro i
      rw [hfr.1]
      exact hfresh i
    · rw [if_neg hr] at h
      have hr2 := Option.some.inj h
      subst hr2
      simp only
      have hb3 : (w3.heap q).base = some s.c.sockbase := by
        rw [hs3]
        rfl
      have hstep : handles_wf
            (sockadd fd q EVENT_READ .server_event .server_free_sockbase w3).2 ∧
          (∀ a, a ≠ q →
            (sockadd fd q EVENT_READ .server_event .server_free_sockbase w3).2.heap a
              = w.heap a) ∧
          (∀ i, i ≠ fd.toNat →
            (sockadd fd q EVENT_READ .server_event .server_free_sockbase w3).2.sockets i
              = w.sockets i) := by
        by_cases h1 : fd < (SOCKMAX : Int)
        · have hinv : fd ≠ INVALID_SOCKET := by
            unfold INVALID_SOCKET
            omega
          obtain ⟨hsk, hhp⟩ := sockadd_eq fd q EVENT_READ .server_event .server_free_sockbase w3
            s.c.sockbase hinv h1 hb3
          refine ⟨sockadd_wf fd q _ _ _ w3 s.c.sockbase hoff3 h0 h1 hb3 (by omega), ?_, ?_⟩
          · intro a ha
            rw [hhp, Function.update_noteq ha]
            exact hf3.2 a ha
          · intro i hi
            rw [hsk, Function.update_noteq hi, hf3.1]
        · have hsa : (sockadd fd q EVENT_READ .server_event .server_free_sockbase w3).2 = w3 := by
            unfold sockadd
            rw [if_pos (Or.inr (by omega))]
          rw [hsa]
          exact ⟨handles_wf_of_off q w3 hoff3 hfresh3, hf3.2, fun i _ => by rw [hf3.1]⟩
      generalize (sockadd fd q EVENT_READ .server_event .server_free_sockbase w3).2 = w4
        at hstep
      obtain ⟨k1, k2, k3⟩ := hstep
      have hf5 := heap_frame_connection_vprintf q notice w4
      have hs5 := connection_vprintf_same q notice w4
      have hw5 : handles_wf (connection_vprintf q notice w4).2 :=
        handles_wf_of_same _ _ k1 hf5.1 hs5
      obtain ⟨hf6, hs6⟩ := act_print_frame q (connection_vprintf q notice w4).2
      refine ⟨handles_wf_of_same _ _ hw5 hf6.1 hs6, ?_, ?_⟩
      · intro a ha
        rw [hf6.2 a ha, hf5.2 a ha]
        exact k2 a ha
      · intro i hi
        rw [hf6.1, hf5.1]
        exact k3 i hi
  unfold server_new at h
  simp only at h
  obtain ⟨hf2, s, hs, hrc⟩ := server_new_head q fd w
  generalize connection_init q fd (RETAIN q (w.store q (.server server_zero))) = w2 at h hf2 hs
  rw [hs] at h
  simp only at h
  cases hg : obj_get system_env server_template_key with
  | none =>
    rw [hg] at h
    simp only at h
    refine key _ _ ?_ ?_ h
    · exact heap_frame_trans q _ _ _ hf2 (heap_frame_store q _ _)
    · exact ⟨_, store_heap_same _ _ _, hrc⟩
  | some t =>
    rw [hg] at h
    simp only at h
    cases hl : objdb_load t with
    | none => rw [hl] at h; cases h
    | some e =>
      rw [hl] at h
      simp only at h
      refine key _ _ ?_ ?_ h
      · exact heap_frame_trans q _ _ _ hf2 (heap_frame_store q _ _)
      · exact ⟨_, store_heap_same _ _ _, hrc⟩

/-- The callback `service_event` is one `sockpoll` may dispatch, when it returns: with a fresh
address `q` for the new server and an accepted descriptor that `select` did not report (it was
not open then), it leaves the registration well formed, the entries of the reported descriptors
alone and the count of the service handle at `p` as found. -/
theorem service_event_callback_ok (rfds wfds : List Int) (system_env : object)
    (objdb_load : List Nat → Option object) (realloc_ok malloc_ok : Bool) (notice : List Nat)
    (accept_ret : Int) (host : List Nat) (q : Nat) (event : Nat) (p : Nat) (w w1 : world)
    (hw : handles_wf w) (hq : w.heap q = .unmapped) (hp : p ≠ q)
    (hacc : accept_ret = INVALID_SOCKET ∨
      (0 ≤ accept_ret ∧ accept_ret ∉ rfds ∧ accept_ret ∉ wfds))
    (h : service_event system_env objdb_load realloc_ok malloc_ok notice act_print accept_ret
      host q event w = some w1) :
    callback_ok rfds wfds p w w1 := by
  have hrefl : callback_ok rfds wfds p w w :=
    callback_ok_of_same rfds wfds p w w hw rfl (handles_same_refl w)
  unfold service_event at h
  by_cases hev : event &&& EVENT_READ ≠ 0
  · rw [if_pos hev] at h
    by_cases hinv : accept_ret = INVALID_SOCKET
    · rw [if_pos hinv] at h
      rw [← Option.some.inj h]
      exact hrefl
    · rw [if_neg hinv] at h
      rcases hacc with hacc | ⟨h0, hr, hwr⟩
      · exact absurd hacc hinv
      cases hn : server_new system_env objdb_load realloc_ok malloc_ok notice act_print q
          accept_ret host w with
      | none => rw [hn] at h; cases h
      | some r =>
        obtain ⟨k1, k2, k3⟩ := server_new_wf system_env objdb_load realloc_ok malloc_ok notice q
          accept_ret host w r hw hq h0 hn
        have hready : ∀ i : Nat, ((i : Int) ∈ rfds ∨ (i : Int) ∈ wfds) → i ≠ accept_ret.toNat := by
          intro i hi hia
          subst hia
          rw [Int.toNat_of_nonneg h0] at hi
          rcases hi with hi | hi
          · exact hr hi
          · exact hwr hi
        rw [hn] at h
        obtain ⟨r1, r2⟩ := r
        cases r1 with
        | none =>
          simp only at h
          rw [← Option.some.inj h]
          have hfc := heap_frame_sockclose q accept_ret r2
          refine ⟨handles_wf_sockclose _ _ k1, ?_, ?_⟩
          · intro i hi
            rw [hfc.1]
            exact k3 i (hready i hi)
          · unfold handle_rc
            rw [hfc.2 p hp, k2 p hp]
        | some a =>
          simp only at h
          rw [← Option.some.inj h]
          refine ⟨k1, fun i hi => k3 i (hready i hi), ?_⟩
          unfold handle_rc
          rw [k2 p hp]
  · rw [if_neg hev] at h
    rw [← Option.some.inj h]
    exact hrefl

/-- C9: in a `sockpoll` cycle whose `select` succeeds, on a registration as `server_new` and
`service_open` make it and with callbacks that leave alone the entries of the descriptors
`select` reported and the count of their own handle, the state `sockpoll` leaves is the state
reached by invoking, for each call of the scan of the table as it was when the cycle began and
in that order, the event function of the handle exactly once; these calls are the ones
`sockpoll` makes; and for a registered descriptor `i` there is exactly one call, with the READ
and WRITE flags combined, when `i` is in `rfds` or in `wfds`, and none otherwise. -/
theorem c9_one_callback_per_ready_handle
    (run_event : event_fn → Int → Nat → Nat → world → world)
    (run_free : free_fn → Nat → world → world) (select_ret : Int) (rfds wfds : List Int)
    (w : world) (hcount : w.sockets_count ≠ 0) (hsel : 0 ≤ select_ret)
    (hev : ∀ f fd p ev v, handles_wf v → callback_ok rfds wfds p v (run_event f fd p ev v))
    (hreg : handles_wf w) :
    (sockpoll run_event run_free select_ret rfds wfds w).1 = 0 ∧
      invoke_all run_event
          ((List.range SOCKMAX).filterMap (sockpoll_call w.sockets rfds wfds)) w
        = some (sockpoll run_event run_free select_ret rfds wfds w).2.1 ∧
      (sockpoll run_event run_free select_ret rfds wfds w).2.2
        = (List.range SOCKMAX).filterMap (sockpoll_call w.sockets rfds wfds) ∧
      (∀ i p, i < SOCKMAX → (w.sockets i).ptr = some p →
        ((List.range SOCKMAX).filterMap (sockpoll_call w.sockets rfds wfds)).filter
            (fun c => decide (c.1 = (i : Int)))
          = if (i : Int) ∈ rfds ∨ (i : Int) ∈ wfds then
              [((i : Int), p, (if (i : Int) ∈ rfds then EVENT_READ else 0) |||
                (if (i : Int) ∈ wfds then EVENT_WRITE else 0))]
            else []) := by
  have hsw : sockets_wf w := handles_wf_sockets w hreg
  obtain ⟨k1, k2, _⟩ := sockpoll_loop_spec run_event run_free rfds wfds hev w hreg SOCKMAX 0 w
    hreg (fun _ _ => rfl)
  rw [← List.range_eq_range'] at k1 k2
  have hpoll : sockpoll run_event run_free select_ret rfds wfds w
      = (0, sockpoll_loop run_event run_free rfds wfds SOCKMAX 0 w) := by
    unfold sockpoll
    rw [if_neg hcount, if_neg (by omega)]
  rw [hpoll]
  refine ⟨rfl, k2, k1, ?_⟩
  intro i p hi hp
  rw [filter_filterMap_fst _ _ i _ (List.nodup_range _)]
  · rw [if_pos (List.mem_range.2 hi)]
    unfold sockpoll_call
    rw [hp]
    simp only
    rw [hsw i p hp]
    have hinv : ¬ ((i : Int) = INVALID_SOCKET) := by unfold INVALID_SOCKET; omega
    rw [if_neg hinv]
    unfold FD_ISSET
    by_cases h1 : (i : Int) ∈ rfds <;> by_cases h2 : (i : Int) ∈ wfds <;>
      simp [h1, h2, EVENT_READ, EVENT_WRITE]
  · intro j c hc
    rw [(sockpoll_call_ptr _ _ _ _ _ hc).2]
    exact hsw j c.2.1 (sockpoll_call_ptr _ _ _ _ _ hc).1

/-- Witness of C9: two servers registered for READ on descriptors 4 and 5, descriptor 4
readable, `read` returning the three bytes `hi` and newline. The state after the cycle is that
of one `server_event` call for descriptor 4: the server at address 10 has received the three
bytes once, the server at address 11 nothing, and both counts are 1. -/
theorem c9_one_callback_per_ready_handle_witness :
    invoke_all (run_server_event 0 3 [104, 105, 10]) [(4, 10, EVENT_READ)]
        (server_setup 11 5 obj_new (server_setup 10 4 obj_new world_init))
      = some (sockpoll (run_server_event 0 3 [104, 105, 10]) run_server_free 1 [4] []
          (server_setup 11 5 obj_new (server_setup 10 4 obj_new world_init))).2.1 ∧
    (sockpoll (run_server_event 0 3 [104, 105, 10]) run_server_free 1 [4] []
        (server_setup 11 5 obj_new (server_setup 10 4 obj_new world_init))).2.2
      = [(4, 10, EVENT_READ)] ∧
    (server_at (sockpoll (run_server_event 0 3 [104, 105, 10]) run_server_free 1 [4] []
        (server_setup 11 5 obj_new (server_setup 10 4 obj_new world_init))).2.1 10).map
        (fun s => (s.c.buflen, s.c.buf.take 4, s.c.sockbase.rc))
      = some (3, [104, 105, 10, 0], 1) ∧
    (server_at (sockpoll (run_server_event 0 3 [104, 105, 10]) run_server_free 1 [4] []
        (server_setup 11 5 obj_new (server_setup 10 4 obj_new world_init))).2.1 11).map
        (fun s => (s.c.buflen, s.c.sockbase.rc))
      = some (0, 1) := by
  have h := c9_one_callback_per_ready_handle (run_server_event 0 3 [104, 105, 10])
    run_server_free 1 [4] [] (server_setup 11 5 obj_new (server_setup 10 4 obj_new world_init))
    (by decide!) (by decide)
    (fun f fd p ev v hv => run_server_event_callback_ok [4] [] 0 3 [104, 105, 10] f fd p ev v hv)
    (server_setup_wf 11 5 obj_new _
      (server_setup_wf 10 4 obj_new _ handles_wf_init (by decide) (by decide))
      (by decide) (by decide))
  have hl : (List.range SOCKMAX).filterMap (sockpoll_call
      (server_setup 11 5 obj_new (server_setup 10 4 obj_new world_init)).sockets [4] [])
      = [(4, 10, EVENT_READ)] := by decide!
  rw [hl] at h
  exact ⟨h.2.1, h.2.2.1, by decide!, by decide!⟩

end Mud
